import Mathlib

/-!
# Station registry, MAC queue and channel of the 802.11ah simulation

A shallow embedding of

* `Components/StationList.h` (`SdnLab::_StationList`),
* `src/wifi/model/wifi-mac-queue.cc` (`ns3::WifiMacQueue`), and
* `Send` and `Receive` of `src/wifi/model/yans-wifi-channel.cc`
  (`ns3::YansWifiChannel`),

followed by the properties established about them.

Conventions of the embedding.

* `unsigned int` / `uint32_t` values are natural numbers; every arithmetic
  operation of the source on them is written with an explicit `% 2 ^ 32`.
* A `double` is only ever copied by the code embedded here, never computed
  with; it is represented by its 64-bit pattern, a natural number.
* A pointer that may be `NULL` is an `Option`; an access through a `NULL`
  pointer or outside an array is a fault, so the operations that index the
  slot array return an `Option` whose `none` is that fault.
* Control that reaches the end of a value-returning function without a
  `return` statement is undefined behaviour; like a fault, it is the result
  `none`.
* The trace source `m_packetdropped` is the list of drop events an operation
  returns, in firing order.
-/

namespace SdnLab

/-- A 48-bit hardware address (`ns3::Mac48Address`), compared by value. -/
abbrev Mac48Address := Nat

/-- The bit pattern of a `double` that the code stores and copies verbatim. -/
abbrev F64 := Nat

/-- Modelled from the spec: the constant `__SDN_LAB_MAC_BROADCAST_ADDR` of the
absent header `Mac.h`, the broadcast address `ff:ff:ff:ff:ff:ff`. -/
def MAC_BROADCAST_ADDR : Mac48Address := 2 ^ 48 - 1

/-- Modelled from the spec: the record `PacketContext` of the absent header
`PacketContext.h` (the spec's FrameContext): an emptiness mark, the source
address, the sample values and the destination-node tag. -/
structure PacketContext where
  empty : Bool
  sourMacAddr : Mac48Address
  endTime : F64
  snr : F64
  rxPower : F64
  bandwidth : F64
  nodeIndex : Nat
deriving DecidableEq

namespace PacketContext

/-- Modelled from the spec: the default-constructed `PacketContext()`, which
is marked empty. -/
def default : PacketContext :=
  { empty := true, sourMacAddr := 0, endTime := 0, snr := 0, rxPower := 0,
    bandwidth := 0, nodeIndex := 0 }

def IsEmpty (c : PacketContext) : Bool := c.empty
def GetSourMacAddr (c : PacketContext) : Mac48Address := c.sourMacAddr
def GetEndTime (c : PacketContext) : F64 := c.endTime
def GetSnr (c : PacketContext) : F64 := c.snr
def GetRxPower (c : PacketContext) : F64 := c.rxPower
def GetBandwidth (c : PacketContext) : F64 := c.bandwidth
def GetNodeIndex (c : PacketContext) : Nat := c.nodeIndex

/-- Modelled from the spec: `SetNodeIndex` stamps the destination index and
leaves every other field as it is. -/
def SetNodeIndex (c : PacketContext) (j : Nat) : PacketContext :=
  { c with nodeIndex := j }

end PacketContext

/-- One telemetry sample `{endTime, snr, rxPower, bandwidth}`. -/
structure StationData where
  endTime : F64
  snr : F64
  rxPower : F64
  bandwidth : F64
deriving DecidableEq

/-- Modelled from the spec: the class `Station` of the absent header
`Station.h` (the spec's PeerRecord): its address, the byte budget it was
created with, the sample capacity derived from that budget, the bounded
sequence of samples (oldest first) and the beacon bookkeeping. -/
structure Station where
  address : Mac48Address
  memSize : Nat
  sampleCapacity : Nat
  samples : List StationData
  lastBeaconTime : F64
  lastBeaconRxPower : F64
deriving DecidableEq

namespace Station

/-- Modelled from the spec: the constructor `Station(address, memSize)`.  The
rule deriving the sample capacity from the byte budget lives in `Station.h`
and is taken as the parameter `capOf`. -/
def create (capOf : Nat → Nat) (address : Mac48Address) (memSize : Nat) : Station :=
  { address := address, memSize := memSize, sampleCapacity := capOf memSize,
    samples := [], lastBeaconTime := 0, lastBeaconRxPower := 0 }

/-- Modelled from the spec: `Station::AddData` appends a sample; if
`samples.length == sampleCapacity` it evicts the oldest sample first, then
appends. -/
def AddData (s : Station) (endTime snr rxPower bandwidth : F64) : Station :=
  let x : StationData :=
    { endTime := endTime, snr := snr, rxPower := rxPower, bandwidth := bandwidth }
  if s.samples.length = s.sampleCapacity then
    { s with samples := s.samples.drop 1 ++ [x] }
  else
    { s with samples := s.samples ++ [x] }

/-- Modelled from the spec: `Station::UpdateBeaconTime` records the latest
beacon time, independent of the samples. -/
def UpdateBeaconTime (s : Station) (time : F64) : Station :=
  { s with lastBeaconTime := time }

/-- Modelled from the spec: `Station::operator==(Mac48Address)`, the identity
check of the registry, is equality of the 48-bit address. -/
def eqAddr (s : Station) (a : Mac48Address) : Bool := decide (s.address = a)

end Station

/-- The value of `sizeof(_StationList)`, which the source records as
`__SDN_LAB_STATIONLIST_MEMORY_COST_BASE` ("Memory Cost (base) 112"). -/
def sizeofStationList : Nat := 112

/-- The slot array `PtrStation * staList`: `NULL` or an array of station
pointers, each of which may be `NULL`. -/
abbrev SlotArray := Option (List (Option Station))

/-- The fields of `_StationList` (without the predictor data `nnData` and
the unused cursor `cursta`). -/
structure StationList where
  staMemSize : Nat
  staList : SlotArray
  staListLen : Nat
  staListMaxLen : Nat
deriving DecidableEq

namespace StationList

/-- The constructor `_StationList(memorySize, stationMaxNum)` on the path
where the allocation of the slot array succeeds (on `std::bad_alloc` it
throws and no registry exists). -/
def Create (memorySize stationMaxNum : Nat) : StationList :=
  let memorySize :=
    if memorySize ≤ sizeofStationList then 0 else memorySize - sizeofStationList
  if 0 < stationMaxNum then
    { staMemSize := memorySize / stationMaxNum
      staList := some (List.replicate stationMaxNum none)
      staListLen := 0
      staListMaxLen := stationMaxNum }
  else
    { staMemSize := 0, staList := none, staListLen := 0, staListMaxLen := stationMaxNum }

/-- The scan `for(i = 0; i < staListMaxLen; ++i)` of `AddStationOrContext`,
with `n` iterations left from index `i`.  The result is the final value of
`(i, isAddSta, isAddContext)`; `none` is a read through a `NULL` array or
past its end. -/
def scan (arr : SlotArray) (addr : Mac48Address) : Nat → Nat → Option (Nat × Bool × Bool)
  | 0, i => some (i, false, false)
  | n + 1, i =>
    match arr with
    | none => none
    | some slots =>
      match slots[i]? with
      | none => none
      | some none => some (i, true, true)
      | some (some s) =>
        if s.eqAddr addr then some (i, false, true) else scan arr addr n (i + 1)

/-- The write `staList[i] = p`. -/
def writeSlot (arr : SlotArray) (i : Nat) (p : Option Station) : Option SlotArray :=
  match arr with
  | none => none
  | some slots => if i < slots.length then some (some (slots.set i p)) else none

/-- The read `staList[i]`. -/
def readSlot (arr : SlotArray) (i : Nat) : Option (Option Station) :=
  match arr with
  | none => none
  | some slots => slots[i]?

/-- The method `AddStationOrContext(context)`: the new registry and the
returned flag, or `none` on a memory fault. -/
def AddStationOrContext (capOf : Nat → Nat) (l : StationList) (context : PacketContext) :
    Option (StationList × Bool) :=
  if !context.IsEmpty then
    let sourMacAddr := context.GetSourMacAddr
    -- the scan runs only for a non-broadcast source address
    let scanned : Option (Nat × Bool × Bool) :=
      if sourMacAddr ≠ MAC_BROADCAST_ADDR then
        scan l.staList sourMacAddr l.staListMaxLen 0
      else some (0, false, false)
    match scanned with
    | none => none
    | some (i, isAddSta, isAddContext) =>
      -- add STA if should
      let added : Option StationList :=
        if isAddSta then
          match writeSlot l.staList i (some (Station.create capOf sourMacAddr l.staMemSize)) with
          | none => none
          | some arr => some { l with staList := arr, staListLen := (l.staListLen + 1) % 2 ^ 32 }
        else some l
      match added with
      | none => none
      | some l1 =>
        -- add context if should
        if isAddContext then
          match readSlot l1.staList i with
          | some (some s) =>
            match writeSlot l1.staList i
                (some (s.AddData context.GetEndTime context.GetSnr context.GetRxPower
                  context.GetBandwidth)) with
            | none => none
            | some arr => some ({ l1 with staList := arr }, isAddSta || isAddContext)
          | _ => none
        else some (l1, isAddSta || isAddContext)
  else some (l, false)

/-- A sequence of `AddStationOrContext` calls, the registry threaded through;
`none` as soon as one call faults. -/
def addAll (capOf : Nat → Nat) : StationList → List PacketContext → Option StationList
  | l, [] => some l
  | l, c :: cs =>
    match AddStationOrContext capOf l c with
    | none => none
    | some (l1, _) => addAll capOf l1 cs

def GetN (l : StationList) : Nat := l.staListLen

/-- The accessor `Get(i)`: `some none` is the `NULL` result, `none` a faulty
read. -/
def Get (l : StationList) (i : Nat) : Option (Option Station) :=
  if i ≥ l.staListLen then some none else readSlot l.staList i

/-- The addresses for which a sequence of `AddStationOrContext` calls created
a record, in order of creation; a call created a record when it raised
`GetN ()`. -/
def creations (capOf : Nat → Nat) : StationList → List PacketContext → List Mac48Address
  | _, [] => []
  | l, c :: cs =>
    match AddStationOrContext capOf l c with
    | none => []
    | some (l1, _) =>
      (if l1.GetN = l.GetN then [] else [c.GetSourMacAddr]) ++ creations capOf l1 cs

/-- The loop `for(i = 0; i < staListMaxLen; i++)` of `Clear`, with `n`
iterations left from index `i`: the records deleted by `delete staList[i]`, in
order; `none` is a read past the end of the array. -/
def Clear.loop (slots : List (Option Station)) : Nat → Nat → Option (List Station)
  | 0, _ => some []
  | n + 1, i =>
    match slots[i]? with
    | none => none
    | some none => Clear.loop slots n (i + 1)
    | some (some s) =>
      match Clear.loop slots n (i + 1) with
      | none => none
      | some deleted => some (s :: deleted)

/-- The method `Clear ()`: the registry left, and the records it deleted. -/
def Clear (l : StationList) : Option (StationList × List Station) :=
  match l.staList with
  | some slots =>
    match Clear.loop slots l.staListMaxLen 0 with
    | none => none
    | some deleted => some ({ l with staList := none, staListLen := 0 }, deleted)
  | none => some ({ l with staList := none, staListLen := 0 }, [])

/-- The pointer returned by `Begin ()`, as an offset in slots from `staList`. -/
def Begin (_l : StationList) : Int := 0

/-- The pointer returned by `End ()`, `staList + staListLen - 1`, as an offset
in slots from `staList`. -/
def End (l : StationList) : Int := (l.staListLen : Int) - 1

/-- The positions visited by an iteration from `b` up to `e` under the
half-open convention: `b`, `b + 1`, ..., `e - 1`. -/
def visitedHalfOpen (b e : Int) : List Int :=
  (List.range (e - b).toNat).map (fun k => b + (k : Int))

/-- The positions visited by an iteration from `b` through `e`, `e` included:
`b`, `b + 1`, ..., `e`. -/
def visitedInclusive (b e : Int) : List Int :=
  (List.range (e + 1 - b).toNat).map (fun k => b + (k : Int))

/-- The loop `for(i = 0; i < staListMaxLen; ++i)` of `UpdateBeaconTime`, with
`n` iterations left from index `i`: the slot array after the calls
`staList[i]->UpdateBeaconTime(time)`, which change the record a slot points
to, and the indices of the records notified, in order.  The loop breaks at
the first `NULL` slot; `none` is a read through a `NULL` array or past its
end.  The index stays below `staListMaxLen`, so `++i` never wraps. -/
def UpdateBeaconTime.loop (time : F64) : SlotArray → Nat → Nat → Option (SlotArray × List Nat)
  | arr, 0, _ => some (arr, [])
  | arr, n + 1, i =>
    match readSlot arr i with
    | none => none
    | some none => some (arr, [])
    | some (some s) =>
      match writeSlot arr i (some (s.UpdateBeaconTime time)) with
      | none => none
      | some arr1 =>
        match UpdateBeaconTime.loop time arr1 n (i + 1) with
        | none => none
        | some (arr2, notified) => some (arr2, i :: notified)

/-- The method `bool UpdateBeaconTime (double time)` of the registry.  Its
body is the loop and nothing else: there is no `return` statement, so when
the loop is over control flows off the end of a function declared `bool`,
which is undefined behaviour.  No call returns normally: the result is `none`
whether the loop faults or completes (what the loop does before that is
`UpdateBeaconTime.loop`). -/
def UpdateBeaconTime (l : StationList) (time : F64) : Option (StationList × List Nat) :=
  match UpdateBeaconTime.loop time l.staList l.staListMaxLen 0 with
  | none => none
  | some _ => none

/-- One call of a method of the registry that changes it. -/
inductive RegOp where
  | add (context : PacketContext)
  | beacon (time : F64)
  | clear
deriving DecidableEq

/-- The registry left by one call; `none` is a memory fault. -/
def regStep (capOf : Nat → Nat) (l : StationList) : RegOp → Option StationList
  | .add context =>
    match AddStationOrContext capOf l context with
    | none => none
    | some (l1, _) => some l1
  | .beacon time =>
    match UpdateBeaconTime l time with
    | none => none
    | some (l1, _) => some l1
  | .clear =>
    match Clear l with
    | none => none
    | some (l1, _) => some l1

/-- The registry left by a sequence of calls, first call first; `none` as
soon as one call faults. -/
def regRun (capOf : Nat → Nat) : StationList → List RegOp → Option StationList
  | l, [] => some l
  | l, op :: ops =>
    match regStep capOf l op with
    | none => none
    | some l1 => regRun capOf l1 ops

/-- The distinct members of a list of addresses, in order of first
occurrence. -/
def firstDistinct : List Mac48Address → List Mac48Address
  | [] => []
  | a :: as => a :: (firstDistinct as).filter (fun x => decide (x ≠ a))

/-- The source addresses a sequence of contexts presents to the registry for
registration, in order: those of the non-empty contexts whose source address
is not the broadcast address. -/
def observed (cs : List PacketContext) : List Mac48Address :=
  (cs.filter (fun c => !c.IsEmpty && decide (c.GetSourMacAddr ≠ MAC_BROADCAST_ADDR))).map
    (fun c => c.GetSourMacAddr)

/-- The registry invariant, with the occupied records `occ` in slot order:
the slot array of a registry of capacity `n > 0` is the records followed by
`NULL`s (it is `NULL` itself for `n = 0`), the counter is their number, and their addresses are distinct. -/
def Reg (n : Nat) (l : StationList) (occ : List Station) : Prop :=
  l.staListMaxLen = n ∧ l.staListLen = occ.length ∧ occ.length ≤ n ∧
  (occ.map (fun s => s.address)).Nodup ∧
  (n = 0 → l.staList = none) ∧
  (0 < n → l.staList = some (occ.map some ++ List.replicate (n - occ.length) none))

end StationList

end SdnLab

namespace ns3

open SdnLab

/-- A simulated time (`ns3::Time`), a signed 64-bit count of ticks of the
simulator's resolution (nanoseconds).  The embedding keeps the count as an
integer and computes sums exactly: that is the code's sum whenever the result
is representable (`WifiMacQueue.fits64`).  A sum that leaves the 64-bit range
is a signed overflow in the code and is not modelled; the properties that
depend on the value of `tstamp + m_maxDelay` are stated for queues on which
no such sum overflows (`WifiMacQueue.NoOverflow`). -/
abbrev Time := Int

/-- The identity of a frame object (`Ptr<const Packet>`, never `NULL` for a
stored frame); an absent frame (the `0` a method returns) is `none`. -/
abbrev PacketPtr := Nat

/-- The two reasons `WifiMacQueue` reports to the trace source. -/
inductive DropReason where
  | MacQueueSizeExceeded
  | MacQueueDelayExceeded
deriving DecidableEq

/-- One firing of `m_packetdropped (packet->Copy (), reason)`: the frame
whose copy is reported, and the reason. -/
abbrev DropEvent := PacketPtr × DropReason

/-- Modelled from the spec: the parts of `WifiMacHeader` (absent header
`wifi-mac-header.h`) the queue reads: the QoS-data tag, the three addresses
and the traffic class (TID). -/
structure WifiMacHeader where
  qosData : Bool
  addr1 : Mac48Address
  addr2 : Mac48Address
  addr3 : Mac48Address
  qosTid : Nat
deriving DecidableEq

namespace WifiMacHeader

def IsQosData (h : WifiMacHeader) : Bool := h.qosData
def GetAddr1 (h : WifiMacHeader) : Mac48Address := h.addr1
def GetAddr2 (h : WifiMacHeader) : Mac48Address := h.addr2
def GetAddr3 (h : WifiMacHeader) : Mac48Address := h.addr3
def GetQosTid (h : WifiMacHeader) : Nat := h.qosTid

/-- The values of `WifiMacHeader::AddressType` for which
`GetAddressForPacket` reads a header field. -/
inductive AddressType where
  | ADDR1
  | ADDR2
  | ADDR3
deriving DecidableEq

end WifiMacHeader

/-- Modelled from the spec: `QosBlockedDestinations` (absent header
`qos-blocked-destinations.h`), the set of (destination, traffic class) pairs
under a delivery hold; `IsBlocked` is presence in that set. -/
structure QosBlockedDestinations where
  m_blockedQosPackets : List (Mac48Address × Nat)
deriving DecidableEq

namespace QosBlockedDestinations

def IsBlocked (b : QosBlockedDestinations) (dest : Mac48Address) (tid : Nat) : Bool :=
  b.m_blockedQosPackets.any (fun e => decide (e.1 = dest) && decide (e.2 = tid))

end QosBlockedDestinations

namespace WifiMacQueue

/-- The entry type `WifiMacQueue::Item`. -/
structure Item where
  packet : PacketPtr
  hdr : WifiMacHeader
  tstamp : Time
  context : PacketContext
deriving DecidableEq

/-- The three-argument constructor `Item (packet, hdr, tstamp)`: the context
member is default-constructed. -/
def Item.mk3 (packet : PacketPtr) (hdr : WifiMacHeader) (tstamp : Time) : Item :=
  { packet := packet, hdr := hdr, tstamp := tstamp, context := PacketContext.default }

end WifiMacQueue

/-- The fields of `WifiMacQueue`: the `std::list` of entries (front first),
the `uint32_t` counter `m_size`, and the attributes `m_maxSize`, `m_maxDelay`. -/
structure WifiMacQueue where
  m_queue : List WifiMacQueue.Item
  m_size : Nat
  m_maxSize : Nat
  m_maxDelay : Time
deriving DecidableEq

namespace WifiMacQueue

/-- A newly constructed queue: `m_size (0)`, an empty list, and the two
attributes as configured (`MaxPacketNumber`, `MaxDelay`). -/
def new (maxSize : Nat) (maxDelay : Time) : WifiMacQueue :=
  { m_queue := [], m_size := 0, m_maxSize := maxSize, m_maxDelay := maxDelay }

def SetMaxSize (q : WifiMacQueue) (maxSize : Nat) : WifiMacQueue :=
  { q with m_maxSize := maxSize }

def SetMaxDelay (q : WifiMacQueue) (delay : Time) : WifiMacQueue :=
  { q with m_maxDelay := delay }

def GetMaxSize (q : WifiMacQueue) : Nat := q.m_maxSize

def GetMaxDelay (q : WifiMacQueue) : Time := q.m_maxDelay

def GetSize (q : WifiMacQueue) : Nat := q.m_size

/-- The `uint32_t` decrement `m_size--`. -/
def decSize (n : Nat) : Nat := (n + 2 ^ 32 - 1) % 2 ^ 32

/-- The `uint32_t` increment `m_size++`. -/
def incSize (n : Nat) : Nat := (n + 1) % 2 ^ 32

/-- The loop of `Cleanup` over the entries from the iterator to the end: the
entries kept, the drop events fired (in order) and the `uint32_t` counter
`n` of erased entries. -/
def Cleanup.loop (maxDelay now : Time) : List Item → List Item × List DropEvent × Nat
  | [] => ([], [], 0)
  | i :: rest =>
    if i.tstamp + maxDelay > now then
      let r := Cleanup.loop maxDelay now rest
      (i :: r.1, r.2.1, r.2.2)
    else
      let r := Cleanup.loop maxDelay now rest
      (r.1, (i.packet, DropReason.MacQueueDelayExceeded) :: r.2.1, (r.2.2 + 1) % 2 ^ 32)

/-- The method `Cleanup ()` at time `now`. -/
def Cleanup (now : Time) (q : WifiMacQueue) : WifiMacQueue × List DropEvent :=
  if q.m_queue.isEmpty then (q, [])
  else
    let r := Cleanup.loop q.m_maxDelay now q.m_queue
    ({ q with m_queue := r.1, m_size := (q.m_size + 2 ^ 32 - r.2.2) % 2 ^ 32 }, r.2.1)

/-- The method `Enqueue (packet, hdr, context)` at time `now`. -/
def Enqueue (now : Time) (q : WifiMacQueue) (packet : PacketPtr) (hdr : WifiMacHeader)
    (context : PacketContext) : WifiMacQueue × List DropEvent :=
  let c := Cleanup now q
  if c.1.m_size = c.1.m_maxSize then
    (c.1, c.2 ++ [(packet, DropReason.MacQueueSizeExceeded)])
  else
    ({ c.1 with
        m_queue := c.1.m_queue ++ [Item.mk packet hdr now context]
        m_size := incSize c.1.m_size }, c.2)

/-- The method `Enqueue (packet, hdr)`. -/
def Enqueue2 (now : Time) (q : WifiMacQueue) (packet : PacketPtr) (hdr : WifiMacHeader) :
    WifiMacQueue × List DropEvent :=
  Enqueue now q packet hdr PacketContext.default

/-- The method `Dequeue (hdr)`: the queue, the drop events, and the returned
frame with the header written through `hdr` (`none` for the `0` result). -/
def Dequeue (now : Time) (q : WifiMacQueue) :
    WifiMacQueue × List DropEvent × Option (PacketPtr × WifiMacHeader) :=
  let c := Cleanup now q
  match c.1.m_queue with
  | i :: rest =>
    ({ c.1 with m_queue := rest, m_size := decSize c.1.m_size }, c.2, some (i.packet, i.hdr))
  | [] => (c.1, c.2, none)

/-- The method `Dequeue (hdr, context)`. -/
def DequeueCtx (now : Time) (q : WifiMacQueue) :
    WifiMacQueue × List DropEvent × Option (PacketPtr × WifiMacHeader × PacketContext) :=
  let c := Cleanup now q
  match c.1.m_queue with
  | i :: rest =>
    ({ c.1 with m_queue := rest, m_size := decSize c.1.m_size }, c.2,
      some (i.packet, i.hdr, i.context))
  | [] => (c.1, c.2, none)

/-- The method `Peek (hdr)`. -/
def Peek (now : Time) (q : WifiMacQueue) :
    WifiMacQueue × List DropEvent × Option (PacketPtr × WifiMacHeader) :=
  let c := Cleanup now q
  match c.1.m_queue with
  | i :: _ => (c.1, c.2, some (i.packet, i.hdr))
  | [] => (c.1, c.2, none)

/-- The method `GetAddressForPacket (type, it)`. -/
def GetAddressForPacket (type : WifiMacHeader.AddressType) (it : Item) : Mac48Address :=
  match type with
  | .ADDR1 => it.hdr.GetAddr1
  | .ADDR2 => it.hdr.GetAddr2
  | .ADDR3 => it.hdr.GetAddr3

/-- The loop of `DequeueByTidAndAddress`: the erased entry and the list
without it, or `none` when the loop ends without a match. -/
def DequeueByTidAndAddress.loop (tid : Nat) (type : WifiMacHeader.AddressType)
    (dest : Mac48Address) : List Item → Option (Item × List Item)
  | [] => none
  | it :: rest =>
    if it.hdr.IsQosData && (decide (GetAddressForPacket type it = dest)
        && decide (it.hdr.GetQosTid = tid)) then
      some (it, rest)
    else
      match DequeueByTidAndAddress.loop tid type dest rest with
      | none => none
      | some (x, r) => some (x, it :: r)

/-- The method `DequeueByTidAndAddress (hdr, tid, type, dest)`. -/
def DequeueByTidAndAddress (now : Time) (q : WifiMacQueue) (tid : Nat)
    (type : WifiMacHeader.AddressType) (dest : Mac48Address) :
    WifiMacQueue × List DropEvent × Option (PacketPtr × WifiMacHeader) :=
  let c := Cleanup now q
  match DequeueByTidAndAddress.loop tid type dest c.1.m_queue with
  | some (x, r) =>
    ({ c.1 with m_queue := r, m_size := decSize c.1.m_size }, c.2, some (x.packet, x.hdr))
  | none => (c.1, c.2, none)

/-- The loop of `PeekByTidAndAddress`. -/
def PeekByTidAndAddress.loop (tid : Nat) (type : WifiMacHeader.AddressType)
    (dest : Mac48Address) : List Item → Option Item
  | [] => none
  | it :: rest =>
    if it.hdr.IsQosData && (decide (GetAddressForPacket type it = dest)
        && decide (it.hdr.GetQosTid = tid)) then
      some it
    else PeekByTidAndAddress.loop tid type dest rest

/-- The method `PeekByTidAndAddress (hdr, tid, type, dest, timestamp)`. -/
def PeekByTidAndAddress (now : Time) (q : WifiMacQueue) (tid : Nat)
    (type : WifiMacHeader.AddressType) (dest : Mac48Address) :
    WifiMacQueue × List DropEvent × Option (PacketPtr × WifiMacHeader × Time) :=
  let c := Cleanup now q
  match PeekByTidAndAddress.loop tid type dest c.1.m_queue with
  | some it => (c.1, c.2, some (it.packet, it.hdr, it.tstamp))
  | none => (c.1, c.2, none)

/-- The loop of `PeekByAddress`. -/
def PeekByAddress.loop (type : WifiMacHeader.AddressType) (dest : Mac48Address) :
    List Item → Option Item
  | [] => none
  | it :: rest =>
    if GetAddressForPacket type it = dest then some it
    else PeekByAddress.loop type dest rest

/-- The method `PeekByAddress (type, dest)`. -/
def PeekByAddress (now : Time) (q : WifiMacQueue) (type : WifiMacHeader.AddressType)
    (dest : Mac48Address) : WifiMacQueue × List DropEvent × Option PacketPtr :=
  let c := Cleanup now q
  match PeekByAddress.loop type dest c.1.m_queue with
  | some it => (c.1, c.2, some it.packet)
  | none => (c.1, c.2, none)

/-- The method `IsEmpty ()`. -/
def IsEmpty (now : Time) (q : WifiMacQueue) : WifiMacQueue × List DropEvent × Bool :=
  let c := Cleanup now q
  (c.1, c.2, c.1.m_queue.isEmpty)

/-- The method `Flush ()`. -/
def Flush (q : WifiMacQueue) : WifiMacQueue :=
  { q with m_queue := [], m_size := 0 }

/-- The loop of `Remove`: the list without the first entry holding `packet`,
or `none` when no entry holds it. -/
def Remove.loop (packet : PacketPtr) : List Item → Option (List Item)
  | [] => none
  | it :: rest =>
    if it.packet = packet then some rest
    else
      match Remove.loop packet rest with
      | none => none
      | some r => some (it :: r)

/-- The method `Remove (packet)`. -/
def Remove (q : WifiMacQueue) (packet : PacketPtr) : WifiMacQueue × Bool :=
  match Remove.loop packet q.m_queue with
  | some r => ({ q with m_queue := r, m_size := decSize q.m_size }, true)
  | none => (q, false)

/-- The method `PushFront (packet, hdr)` at time `now`. -/
def PushFront (now : Time) (q : WifiMacQueue) (packet : PacketPtr) (hdr : WifiMacHeader) :
    WifiMacQueue × List DropEvent :=
  let c := Cleanup now q
  if c.1.m_size = c.1.m_maxSize then
    (c.1, c.2 ++ [(packet, DropReason.MacQueueSizeExceeded)])
  else
    ({ c.1 with
        m_queue := Item.mk3 packet hdr now :: c.1.m_queue
        m_size := incSize c.1.m_size }, c.2)

/-- The loop of `GetNPacketsByTidAndAddress`, with the `uint32_t` counter
`nPackets`. -/
def GetNPacketsByTidAndAddress.loop (tid : Nat) (type : WifiMacHeader.AddressType)
    (addr : Mac48Address) : List Item → Nat → Nat
  | [], nPackets => nPackets
  | it :: rest, nPackets =>
    if GetAddressForPacket type it = addr then
      if it.hdr.IsQosData && decide (it.hdr.GetQosTid = tid) then
        GetNPacketsByTidAndAddress.loop tid type addr rest ((nPackets + 1) % 2 ^ 32)
      else GetNPacketsByTidAndAddress.loop tid type addr rest nPackets
    else GetNPacketsByTidAndAddress.loop tid type addr rest nPackets

/-- The method `GetNPacketsByTidAndAddress (tid, type, addr)`. -/
def GetNPacketsByTidAndAddress (now : Time) (q : WifiMacQueue) (tid : Nat)
    (type : WifiMacHeader.AddressType) (addr : Mac48Address) :
    WifiMacQueue × List DropEvent × Nat :=
  let c := Cleanup now q
  (c.1, c.2, GetNPacketsByTidAndAddress.loop tid type addr c.1.m_queue 0)

/-- The loop of `DequeueFirstAvailable`: the erased entry and the list
without it, or `none` when the loop reaches the end. -/
def DequeueFirstAvailable.loop (blockedPackets : QosBlockedDestinations) :
    List Item → Option (Item × List Item)
  | [] => none
  | it :: rest =>
    if !it.hdr.IsQosData || !blockedPackets.IsBlocked it.hdr.GetAddr1 it.hdr.GetQosTid then
      some (it, rest)
    else
      match DequeueFirstAvailable.loop blockedPackets rest with
      | none => none
      | some (x, r) => some (x, it :: r)

/-- The method `DequeueFirstAvailable (hdr, timestamp, blockedPackets)`: the
returned frame comes with the header and the timestamp written through the
out-parameters. -/
def DequeueFirstAvailable (now : Time) (q : WifiMacQueue)
    (blockedPackets : QosBlockedDestinations) :
    WifiMacQueue × List DropEvent × Option (PacketPtr × WifiMacHeader × Time) :=
  let c := Cleanup now q
  match DequeueFirstAvailable.loop blockedPackets c.1.m_queue with
  | some (x, r) =>
    ({ c.1 with m_queue := r, m_size := decSize c.1.m_size }, c.2,
      some (x.packet, x.hdr, x.tstamp))
  | none => (c.1, c.2, none)

/-- The loop of `PeekFirstAvailable`. -/
def PeekFirstAvailable.loop (blockedPackets : QosBlockedDestinations) :
    List Item → Option Item
  | [] => none
  | it :: rest =>
    if !it.hdr.IsQosData || !blockedPackets.IsBlocked it.hdr.GetAddr1 it.hdr.GetQosTid then
      some it
    else PeekFirstAvailable.loop blockedPackets rest

/-- The method `PeekFirstAvailable (hdr, timestamp, blockedPackets)`. -/
def PeekFirstAvailable (now : Time) (q : WifiMacQueue)
    (blockedPackets : QosBlockedDestinations) :
    WifiMacQueue × List DropEvent × Option (PacketPtr × WifiMacHeader × Time) :=
  let c := Cleanup now q
  match PeekFirstAvailable.loop blockedPackets c.1.m_queue with
  | some it => (c.1, c.2, some (it.packet, it.hdr, it.tstamp))
  | none => (c.1, c.2, none)

/-- The loop of `PeekAvailable` with the `uint16_t` counter `count` and the
bound `k`. -/
def PeekAvailable.loop (blockedPackets : QosBlockedDestinations) (k : Nat) :
    List Item → Nat → Option Item
  | [], _ => none
  | it :: rest, count =>
    if count < k then
      PeekAvailable.loop blockedPackets k rest ((count + 1) % 2 ^ 16)
    else if !it.hdr.IsQosData
        || !blockedPackets.IsBlocked it.hdr.GetAddr1 it.hdr.GetQosTid then
      some it
    else PeekAvailable.loop blockedPackets k rest count

/-- The method `PeekAvailable (hdr, timestamp, blockedPackets, k)`; `k` is a
`uint16_t`. -/
def PeekAvailable (now : Time) (q : WifiMacQueue) (blockedPackets : QosBlockedDestinations)
    (k : Nat) : WifiMacQueue × List DropEvent × Option (PacketPtr × WifiMacHeader × Time) :=
  let c := Cleanup now q
  match PeekAvailable.loop blockedPackets k c.1.m_queue 0 with
  | some it => (c.1, c.2, some (it.packet, it.hdr, it.tstamp))
  | none => (c.1, c.2, none)

/-- One call of a public method of the queue (or of `Cleanup`) that leaves
`m_maxSize` as it is. -/
inductive Op where
  | enqueue (packet : PacketPtr) (hdr : WifiMacHeader) (context : PacketContext)
  | enqueue2 (packet : PacketPtr) (hdr : WifiMacHeader)
  | pushFront (packet : PacketPtr) (hdr : WifiMacHeader)
  | cleanup
  | dequeue
  | dequeueCtx
  | peek
  | dequeueByTidAndAddress (tid : Nat) (type : WifiMacHeader.AddressType) (dest : Mac48Address)
  | peekByTidAndAddress (tid : Nat) (type : WifiMacHeader.AddressType) (dest : Mac48Address)
  | peekByAddress (type : WifiMacHeader.AddressType) (dest : Mac48Address)
  | isEmpty
  | getSize
  | getNPacketsByTidAndAddress (tid : Nat) (type : WifiMacHeader.AddressType)
      (addr : Mac48Address)
  | dequeueFirstAvailable (blockedPackets : QosBlockedDestinations)
  | peekFirstAvailable (blockedPackets : QosBlockedDestinations)
  | peekAvailable (blockedPackets : QosBlockedDestinations) (k : Nat)
  | remove (packet : PacketPtr)
  | flush
  | setMaxDelay (delay : Time)
deriving DecidableEq

/-- The queue left by one call made at time `now`. -/
def step (now : Time) (q : WifiMacQueue) : Op → WifiMacQueue
  | .enqueue packet hdr context => (Enqueue now q packet hdr context).1
  | .enqueue2 packet hdr => (Enqueue2 now q packet hdr).1
  | .pushFront packet hdr => (PushFront now q packet hdr).1
  | .cleanup => (Cleanup now q).1
  | .dequeue => (Dequeue now q).1
  | .dequeueCtx => (DequeueCtx now q).1
  | .peek => (Peek now q).1
  | .dequeueByTidAndAddress tid type dest => (DequeueByTidAndAddress now q tid type dest).1
  | .peekByTidAndAddress tid type dest => (PeekByTidAndAddress now q tid type dest).1
  | .peekByAddress type dest => (PeekByAddress now q type dest).1
  | .isEmpty => (IsEmpty now q).1
  | .getSize => q
  | .getNPacketsByTidAndAddress tid type addr =>
    (GetNPacketsByTidAndAddress now q tid type addr).1
  | .dequeueFirstAvailable blockedPackets => (DequeueFirstAvailable now q blockedPackets).1
  | .peekFirstAvailable blockedPackets => (PeekFirstAvailable now q blockedPackets).1
  | .peekAvailable blockedPackets k => (PeekAvailable now q blockedPackets k).1
  | .remove packet => (Remove q packet).1
  | .flush => Flush q
  | .setMaxDelay delay => SetMaxDelay q delay

/-- The queue left by a sequence of timed calls, first call first. -/
def run : WifiMacQueue → List (Time × Op) → WifiMacQueue
  | q, [] => q
  | q, (now, op) :: ops => run (step now q op) ops

/-- A call of the producer (`Enqueue`) or of the consumer (`Dequeue`). -/
inductive FifoOp where
  | enq (packet : PacketPtr) (hdr : WifiMacHeader) (context : PacketContext)
  | deq
deriving DecidableEq

/-- What an observer of a producer/consumer run has seen: the queue, the
frames `Enqueue` accepted (no `MacQueueSizeExceeded` report for them), the
frames `Dequeue` returned, and every drop event, each in order of occurrence. -/
structure FifoTrace where
  queue : WifiMacQueue
  accepted : List (PacketPtr × WifiMacHeader)
  dequeued : List (PacketPtr × WifiMacHeader)
  drops : List DropEvent
deriving DecidableEq

/-- One timed producer/consumer call recorded in the trace. -/
def fifoStep (now : Time) (t : FifoTrace) : FifoOp → FifoTrace
  | .enq packet hdr context =>
    let r := Enqueue now t.queue packet hdr context
    { queue := r.1
      accepted :=
        if r.2.any (fun e => decide (e.2 = DropReason.MacQueueSizeExceeded)) then t.accepted
        else t.accepted ++ [(packet, hdr)]
      dequeued := t.dequeued
      drops := t.drops ++ r.2 }
  | .deq =>
    let r := Dequeue now t.queue
    { queue := r.1
      accepted := t.accepted
      dequeued :=
        match r.2.2 with
        | some f => t.dequeued ++ [f]
        | none => t.dequeued
      drops := t.drops ++ r.2.1 }

/-- The trace before any call, on a newly constructed queue. -/
def fifoStart (maxSize : Nat) (maxDelay : Time) : FifoTrace :=
  { queue := new maxSize maxDelay, accepted := [], dequeued := [], drops := [] }

/-- A sequence of timed producer/consumer calls recorded in the trace. -/
def fifoRun : FifoTrace → List (Time × FifoOp) → FifoTrace
  | t, [] => t
  | t, (now, op) :: ops => fifoRun (fifoStep now t op) ops

/-- The frames of a trace are conserved: what was accepted is what was
returned followed by what is still stored. -/
def Conserved (t : FifoTrace) : Prop :=
  t.accepted = t.dequeued ++ t.queue.m_queue.map (fun i => (i.packet, i.hdr))

/-- The entry satisfies the release condition of the availability scans: it
is not QoS data, or its (addr1, TID) pair is not blocked. -/
def eligible (blockedPackets : QosBlockedDestinations) (it : Item) : Bool :=
  !it.hdr.IsQosData || !blockedPackets.IsBlocked it.hdr.GetAddr1 it.hdr.GetQosTid

/-- The entry is still alive at time `now`. -/
def alive (maxDelay now : Time) (it : Item) : Bool :=
  decide (it.tstamp + maxDelay > now)

/-- A call of `Enqueue (packet, hdr, context)`, of `Enqueue (packet, hdr)` or
of `Dequeue (hdr, context)`. -/
inductive CtxOp where
  | enq (packet : PacketPtr) (hdr : WifiMacHeader) (context : PacketContext)
  | enq2 (packet : PacketPtr) (hdr : WifiMacHeader)
  | deq
deriving DecidableEq

/-- What an observer of such calls has seen: the queue, the (frame, header,
context) of every `Enqueue` call that was accepted (for the two-argument form
the context is the default-constructed one), and the (frame, header, context)
written by every `Dequeue (hdr, context)` call that returned a frame. -/
structure CtxTrace where
  queue : WifiMacQueue
  inserted : List (PacketPtr × WifiMacHeader × PacketContext)
  returned : List (PacketPtr × WifiMacHeader × PacketContext)
deriving DecidableEq

/-- One timed call recorded in the trace. -/
def ctxStep (now : Time) (t : CtxTrace) : CtxOp → CtxTrace
  | .enq packet hdr context =>
    let r := Enqueue now t.queue packet hdr context
    { queue := r.1
      inserted :=
        if r.2.any (fun e => decide (e.2 = DropReason.MacQueueSizeExceeded)) then t.inserted
        else t.inserted ++ [(packet, hdr, context)]
      returned := t.returned }
  | .enq2 packet hdr =>
    let r := Enqueue2 now t.queue packet hdr
    { queue := r.1
      inserted :=
        if r.2.any (fun e => decide (e.2 = DropReason.MacQueueSizeExceeded)) then t.inserted
        else t.inserted ++ [(packet, hdr, PacketContext.default)]
      returned := t.returned }
  | .deq =>
    let r := DequeueCtx now t.queue
    { queue := r.1
      inserted := t.inserted
      returned :=
        match r.2.2 with
        | some f => t.returned ++ [f]
        | none => t.returned }

/-- The trace before any call, on a newly constructed queue. -/
def ctxStart (maxSize : Nat) (maxDelay : Time) : CtxTrace :=
  { queue := new maxSize maxDelay, inserted := [], returned := [] }

/-- A sequence of timed calls recorded in the trace. -/
def ctxRun : CtxTrace → List (Time × CtxOp) → CtxTrace
  | t, [] => t
  | t, (now, op) :: ops => ctxRun (ctxStep now t op) ops

/-- The (frame, header, context) of a stored entry. -/
def Item.triple (it : Item) : PacketPtr × WifiMacHeader × PacketContext :=
  (it.packet, it.hdr, it.context)

/-- The entry satisfies the selection of `DequeueByTidAndAddress`: it is QoS
data, its address of the given type is `dest` and its traffic class is `tid`. -/
def tidAddrMatch (tid : Nat) (type : WifiMacHeader.AddressType) (dest : Mac48Address)
    (it : Item) : Bool :=
  it.hdr.IsQosData && (decide (GetAddressForPacket type it = dest)
    && decide (it.hdr.GetQosTid = tid))

/-- The call is one of the methods other than `PushFront`. -/
def notPushFront : Op → Bool
  | .pushFront _ _ => false
  | _ => true

/-- The entries kept by an eviction scan that stops at the first entry that
has not expired (instead of visiting the whole list, as `Cleanup` does). -/
def keptByEarlyStop (maxDelay now : Time) (l : List Item) : List Item :=
  l.dropWhile (fun i => !alive maxDelay now i)

/-- The time stamps of the stored entries, front first, never decrease. -/
def TimeOrdered (q : WifiMacQueue) : Prop :=
  (q.m_queue.map (fun i => i.tstamp)).Pairwise (fun a b => a ≤ b)

instance (q : WifiMacQueue) : Decidable (TimeOrdered q) := by
  unfold TimeOrdered; infer_instance

/-- The value is representable by `ns3::Time`, a signed 64-bit count: it lies
between `-2^63` and `2^63 - 1`. -/
def fits64 (t : Time) : Prop :=
  -9223372036854775808 ≤ t ∧ t ≤ 9223372036854775807

instance (t : Time) : Decidable (fits64 t) := by
  unfold fits64; infer_instance

/-- The sum of two times as 64-bit two's-complement arithmetic computes it:
the exact sum reduced into the range from `-2^63` to `2^63 - 1`. -/
def add64 (a b : Time) : Time :=
  (a + b + 9223372036854775808) % 18446744073709551616 - 9223372036854775808

/-- No expiry sum of the queue overflows: for every stored entry, the sum
`tstamp + m_maxDelay` that `Cleanup` compares with the current time is
representable. -/
def NoOverflow (q : WifiMacQueue) : Prop :=
  ∀ i ∈ q.m_queue, fits64 (i.tstamp + q.m_maxDelay)

instance (q : WifiMacQueue) : Decidable (NoOverflow q) := by
  unfold NoOverflow; infer_instance

/-- The state invariant of a queue that was constructed empty and whose
`m_maxSize` was never changed: the counter is the length of the list and
stays within the `uint32_t` bound `m_maxSize`. -/
def Inv (q : WifiMacQueue) : Prop :=
  q.m_size = q.m_queue.length ∧ q.m_size ≤ q.m_maxSize ∧ q.m_maxSize < 2 ^ 32

instance (q : WifiMacQueue) : Decidable (Inv q) := by
  unfold Inv; infer_instance

/-- The counter agrees with the list and is a `uint32_t` value. -/
def Counted (q : WifiMacQueue) : Prop :=
  q.m_size = q.m_queue.length ∧ q.m_queue.length < 2 ^ 32

instance (q : WifiMacQueue) : Decidable (Counted q) := by
  unfold Counted; infer_instance

end WifiMacQueue

end ns3

namespace ns3

open SdnLab

/-- The identity of a `YansWifiPhy` object (`Ptr<YansWifiPhy>`). -/
abbrev PhyPtr := Nat

namespace YansWifiChannel

/-- What `Send` reads from the objects around the channel: the channel number
of a phy, the node id of its device (`none` when `GetDevice ()` is 0), the
delay given by the propagation delay model and the received power given by the
propagation loss model. -/
structure Env where
  channelNumber : PhyPtr → Nat
  nodeId : PhyPtr → Option Nat
  delay : PhyPtr → PhyPtr → Time
  rxPower : F64 → PhyPtr → PhyPtr → F64

/-- The first bound argument of the scheduled `Receive`: the index of the
destination phy, or the context stamped with it. -/
inductive Target where
  | index (i : Nat)
  | context (c : PacketContext)
deriving DecidableEq

/-- One call of `Simulator::ScheduleWithContext` made by `Send`: the node the
event runs on, the delay, the callback's first argument, the copy of the
frame, the three values stored in `atts` (received power, packet type,
duration in nanoseconds) and the transmission parameters handed through. -/
structure Delivery where
  dstNode : Nat
  delay : Time
  target : Target
  packet : PacketPtr
  rxPowerDbm : F64
  packetType : Nat
  duration : Time
  txVector : Nat
  preamble : Nat
deriving DecidableEq

/-- The loop of `Send` over the phy list from the iterator `i` to the end,
with the `uint32_t` index `j` and the by-value parameter `context`, which
`SetNodeIndex` updates in place.  The result lists the scheduled deliveries in
order; `none` is a read of `m_phyList[j]` outside the list. -/
def Send.loop (env : Env) (phyList : List PhyPtr) (sender : PhyPtr) (packet : PacketPtr)
    (txPowerDbm : F64) (txVector preamble packetType : Nat) (duration : Time) :
    List PhyPtr → Nat → PacketContext → Option (List Delivery)
  | [], _, _ => some []
  | i :: rest, j, context =>
    if sender ≠ i then
      if env.channelNumber i ≠ env.channelNumber sender then
        Send.loop env phyList sender packet txPowerDbm txVector preamble packetType duration
          rest ((j + 1) % 2 ^ 32) context
      else
        match phyList[j]? with
        | none => none
        | some dst =>
          let dstNode : Nat :=
            match env.nodeId dst with
            | none => 0xffffffff
            | some id => id
          if context.IsEmpty then
            match Send.loop env phyList sender packet txPowerDbm txVector preamble packetType
                duration rest ((j + 1) % 2 ^ 32) context with
            | none => none
            | some ds =>
              some ({ dstNode := dstNode, delay := env.delay sender i, target := .index j,
                      packet := packet, rxPowerDbm := env.rxPower txPowerDbm sender i,
                      packetType := packetType, duration := duration, txVector := txVector,
                      preamble := preamble } :: ds)
          else
            match Send.loop env phyList sender packet txPowerDbm txVector preamble packetType
                duration rest ((j + 1) % 2 ^ 32) (context.SetNodeIndex j) with
            | none => none
            | some ds =>
              some ({ dstNode := dstNode, delay := env.delay sender i,
                      target := .context (context.SetNodeIndex j),
                      packet := packet, rxPowerDbm := env.rxPower txPowerDbm sender i,
                      packetType := packetType, duration := duration, txVector := txVector,
                      preamble := preamble } :: ds)
    else
      Send.loop env phyList sender packet txPowerDbm txVector preamble packetType duration
        rest ((j + 1) % 2 ^ 32) context

/-- The method `Send (sender, packet, txPowerDbm, txVector, preamble,
packetType, duration, context)` on a channel with phy list `phyList`: the
deliveries it schedules. -/
def Send (env : Env) (phyList : List PhyPtr) (sender : PhyPtr) (packet : PacketPtr)
    (txPowerDbm : F64) (txVector preamble packetType : Nat) (duration : Time)
    (context : PacketContext) : Option (List Delivery) :=
  Send.loop env phyList sender packet txPowerDbm txVector preamble packetType duration
    phyList 0 context

/-- The two overloads of `Receive`, run when a delivery fires: the phy whose
`StartReceivePreambleAndHeader` gets the frame, and the context passed to it
(`none` on the index path, which passes no context); `none` is a read of
`m_phyList` outside the list. -/
def Receive (phyList : List PhyPtr) (d : Delivery) : Option (PhyPtr × Option PacketContext) :=
  match d.target with
  | .index i =>
    match phyList[i]? with
    | none => none
    | some phy => some (phy, none)
  | .context context =>
    match phyList[context.GetNodeIndex]? with
    | none => none
    | some phy => some (phy, some context)

/-- The phy list with its indices, restricted to the phys a transmission of
`sender` is delivered to: the pairs `(j, phyList[j])` for which `phyList[j]`
is not the sender and is on the sender's channel number, in increasing order
of `j`. -/
def receiverSlots (env : Env) (phyList : List PhyPtr) (sender : PhyPtr) : List (Nat × PhyPtr) :=
  phyList.enum.filter (fun e =>
    decide (e.2 ≠ sender) && decide (env.channelNumber e.2 = env.channelNumber sender))

/-- The indices of the phys a transmission of `sender` is delivered to. -/
def receivers (env : Env) (phyList : List PhyPtr) (sender : PhyPtr) : List Nat :=
  (receiverSlots env phyList sender).map Prod.fst

/-- The first callback argument of the delivery to index `j`, for the context
`context` the sender passed to `Send`: the index itself when the context is
empty, else a copy of the context stamped with `j`. -/
def targetFor (context : PacketContext) (j : Nat) : Target :=
  if context.IsEmpty then .index j else .context (context.SetNodeIndex j)

/-- The delivery to the phy `phy` at index `j`. -/
def deliveryTo (env : Env) (sender : PhyPtr) (packet : PacketPtr) (txPowerDbm : F64)
    (txVector preamble packetType : Nat) (duration : Time) (context : PacketContext)
    (e : Nat × PhyPtr) : Delivery :=
  { dstNode :=
      match env.nodeId e.2 with
      | none => 0xffffffff
      | some id => id
    delay := env.delay sender e.2
    target := targetFor context e.1
    packet := packet
    rxPowerDbm := env.rxPower txPowerDbm sender e.2
    packetType := packetType
    duration := duration
    txVector := txVector
    preamble := preamble }

end YansWifiChannel

end ns3

/-! ## Concrete scenarios -/

namespace Scenario

open SdnLab ns3 ns3.WifiMacQueue

def M1 : Mac48Address := 0x020000000001
def M2 : Mac48Address := 0x020000000002
def M3 : Mac48Address := 0x020000000003

/-- A non-empty context observed from `addr` with end time `endTime`. -/
def obs (addr : Mac48Address) (endTime : F64) : PacketContext :=
  { empty := false, sourMacAddr := addr, endTime := endTime, snr := 20, rxPower := 70,
    bandwidth := 2, nodeIndex := 0 }

/-- A sample-capacity rule used in the scenarios: 32 bytes per sample. -/
def capOf : Nat → Nat := fun memSize => memSize / 32

def X : Mac48Address := 0x0200000000aa
def Y : Mac48Address := 0x0200000000bb

/-- A QoS-data header for destination `dest` and traffic class `tid`. -/
def qosTo (dest : Mac48Address) (tid : Nat) : WifiMacHeader :=
  { qosData := true, addr1 := dest, addr2 := M1, addr3 := M1, qosTid := tid }

/-- A header that is not QoS data, for destination `dest`. -/
def plainTo (dest : Mac48Address) : WifiMacHeader :=
  { qosData := false, addr1 := dest, addr2 := M1, addr3 := M1, qosTid := 0 }

/-- A time in milliseconds, in ticks of one nanosecond. -/
def ms (n : Int) : Time := n * 1000000

/-- A queue holding, front first, frame 1 for `X` and frames 2 and 3 for
`Y`, all QoS data of traffic class 0 enqueued at time 0. -/
def queueXYY : WifiMacQueue :=
  { m_queue := [Item.mk3 1 (qosTo X 0) 0, Item.mk3 2 (qosTo Y 0) 0, Item.mk3 3 (qosTo Y 0) 0]
    m_size := 3, m_maxSize := 10, m_maxDelay := ms 500 }

/-- The record of a station observed once, with end time `endTime`, in a
registry of per-station budget 444. -/
def stationOf (addr : Mac48Address) (endTime : F64) : Station :=
  { address := addr, memSize := 444, sampleCapacity := 13,
    samples := [{ endTime := endTime, snr := 20, rxPower := 70, bandwidth := 2 }],
    lastBeaconTime := 0, lastBeaconRxPower := 0 }

/-- The registry of capacity 2 (budget 1000 bytes) after `M1` and `M2` were
observed once each: it is full. -/
def regM1M2 : StationList :=
  { staMemSize := 444, staList := some [some (stationOf M1 1), some (stationOf M2 2)],
    staListLen := 2, staListMaxLen := 2 }

/-- Three phys on channel 1 and one (phy 13) on channel 2; every device sits
on the node numbered like its phy; delays and powers are constant. -/
def channelEnv : YansWifiChannel.Env :=
  { channelNumber := fun phy => if phy = 13 then 2 else 1
    nodeId := fun phy => some phy
    delay := fun _ _ => 5
    rxPower := fun txPowerDbm _ _ => txPowerDbm }

/-- The phy list of the scenario channel. -/
def phys : List PhyPtr := [10, 11, 12, 13]

/-- The blocked set holding the pair (`X`, traffic class 0). -/
def blockedX : QosBlockedDestinations := { m_blockedQosPackets := [(X, 0)] }

end Scenario

/-! ## The station registry -/

namespace SdnLab

namespace StationList

theorem Reg_Create (memorySize n : Nat) : Reg n (Create memorySize n) [] := by
  unfold Reg Create
  by_cases h : 0 < n
  · have : n ≠ 0 := by omega
    simp [h, this]
  · have : n = 0 := by omega
    simp [this]

theorem scan_skip (addr : Mac48Address) (rest : List (Option Station)) (m : Nat) :
    ∀ (a pre : List Station), (∀ t ∈ a, t.address ≠ addr) →
      scan (some (pre.map some ++ (a.map some ++ rest))) addr (a.length + m) pre.length
        = scan (some (pre.map some ++ (a.map some ++ rest))) addr m (pre.length + a.length) := by
  intro a
  induction a with
  | nil => intro pre _; simp
  | cons t a ih =>
    intro pre h
    have ht : t.address ≠ addr := h t (List.mem_cons_self _ _)
    have ha : ∀ u ∈ a, u.address ≠ addr := fun u hu => h u (List.mem_cons_of_mem _ hu)
    have hget : (pre.map some ++ ((t :: a).map some ++ rest))[pre.length]? = some (some t) := by
      rw [List.getElem?_append_right (by simp)]
      simp
    have hlen : (t :: a).length + m = (a.length + m) + 1 := by simp; omega
    rw [hlen, scan]
    simp only [hget, Station.eqAddr, ht, decide_False, Bool.false_eq_true, if_false]
    have e : pre.map some ++ ((t :: a).map some ++ rest)
        = (pre ++ [t]).map some ++ (a.map some ++ rest) := by simp
    have := ih (pre ++ [t]) ha
    simp only [List.length_append, List.length_singleton] at this
    rw [e, this]
    simp [Nat.add_assoc, Nat.add_comm 1]

theorem scan_found (addr : Mac48Address) (a b : List Station) (s : Station) (k : Nat)
    (ha : ∀ t ∈ a, t.address ≠ addr) (hs : s.address = addr) :
    scan (some ((a ++ s :: b).map some ++ List.replicate k none)) addr
        ((a ++ s :: b).length + k) 0 = some (a.length, false, true) := by
  have h := scan_skip addr ((s :: b).map some ++ List.replicate k none) (b.length + 1 + k) a [] ha
  simp only [List.map_nil, List.nil_append, List.length_nil, Nat.zero_add] at h
  have e1 : (a ++ s :: b).map some ++ List.replicate k none
      = a.map some ++ ((s :: b).map some ++ List.replicate k none) := by simp
  have e2 : (a ++ s :: b).length + k = a.length + (b.length + 1 + k) := by
    simp only [List.length_append, List.length_cons]; omega
  rw [e1, e2, h]
  have e3 : b.length + 1 + k = (b.length + k) + 1 := by omega
  rw [e3, scan]
  have hget : (a.map some ++ ((s :: b).map some ++ List.replicate k none))[a.length]?
      = some (some s) := by
    rw [List.getElem?_append_right (by simp)]
    simp
  simp only [hget]
  simp [Station.eqAddr, hs]

theorem scan_free (addr : Mac48Address) (occ : List Station) (k : Nat)
    (ha : ∀ t ∈ occ, t.address ≠ addr) (hk : 0 < k) :
    scan (some (occ.map some ++ List.replicate k none)) addr (occ.length + k) 0
      = some (occ.length, true, true) := by
  have h := scan_skip addr (List.replicate k none) k occ [] ha
  simp only [List.map_nil, List.nil_append, List.length_nil, Nat.zero_add] at h
  rw [h]
  obtain ⟨k', rfl⟩ : ∃ k', k = k' + 1 := ⟨k - 1, by omega⟩
  rw [scan]
  have hget : (occ.map some ++ List.replicate (k' + 1) (none : Option Station))[occ.length]?
      = some none := by
    rw [List.getElem?_append_right (by simp)]
    simp [List.replicate_succ]
  simp only [hget]

theorem scan_full (addr : Mac48Address) (occ : List Station)
    (ha : ∀ t ∈ occ, t.address ≠ addr) :
    scan (some (occ.map some ++ List.replicate 0 none)) addr (occ.length + 0) 0
      = some (occ.length, false, false) := by
  have h := scan_skip addr (List.replicate 0 none) 0 occ [] ha
  simp only [List.map_nil, List.nil_append, List.length_nil, Nat.zero_add] at h
  rw [h]
  simp [scan]

theorem AddData_address (s : Station) (e r p b : F64) :
    (s.AddData e r p b).address = s.address := by
  unfold Station.AddData
  split <;> rfl

theorem AddStationOrContext_skip (capOf : Nat → Nat) (l : StationList) (c : PacketContext)
    (i : Nat) (hemp : c.IsEmpty = false) (hb : c.GetSourMacAddr ≠ MAC_BROADCAST_ADDR)
    (hscan : scan l.staList c.GetSourMacAddr l.staListMaxLen 0 = some (i, false, false)) :
    AddStationOrContext capOf l c = some (l, false) := by
  simp [AddStationOrContext, hemp, hb, hscan]

theorem AddStationOrContext_update (capOf : Nat → Nat) (l : StationList) (c : PacketContext)
    (i : Nat) (slots : List (Option Station)) (s : Station)
    (hemp : c.IsEmpty = false) (hb : c.GetSourMacAddr ≠ MAC_BROADCAST_ADDR)
    (hscan : scan l.staList c.GetSourMacAddr l.staListMaxLen 0 = some (i, false, true))
    (harr : l.staList = some slots) (hget : slots[i]? = some (some s)) :
    AddStationOrContext capOf l c = some ({ l with staList := some (slots.set i
      (some (s.AddData c.GetEndTime c.GetSnr c.GetRxPower c.GetBandwidth))) }, true) := by
  have hlt : i < slots.length := by
    rcases Nat.lt_or_ge i slots.length with h | h
    · exact h
    · rw [List.getElem?_eq_none h] at hget; cases hget
  rw [harr] at hscan
  simp only [AddStationOrContext, hemp, harr, readSlot, writeSlot]
  simp [hb, hscan, hget, hlt, harr]

theorem AddStationOrContext_create (capOf : Nat → Nat) (l : StationList) (c : PacketContext)
    (i : Nat) (slots : List (Option Station))
    (hemp : c.IsEmpty = false) (hb : c.GetSourMacAddr ≠ MAC_BROADCAST_ADDR)
    (hscan : scan l.staList c.GetSourMacAddr l.staListMaxLen 0 = some (i, true, true))
    (harr : l.staList = some slots) (hlt : i < slots.length) :
    AddStationOrContext capOf l c = some ({ l with
      staList := some (slots.set i (some ((Station.create capOf c.GetSourMacAddr
        l.staMemSize).AddData c.GetEndTime c.GetSnr c.GetRxPower c.GetBandwidth)))
      staListLen := (l.staListLen + 1) % 2 ^ 32 }, true) := by
  have hlt2 : ∀ x : Option Station, i < (slots.set i x).length := by
    intro x; simpa using hlt
  have hget : ∀ x : Option Station, (slots.set i x)[i]? = some x := by
    intro x; simp [List.getElem?_set, hlt]
  rw [harr] at hscan
  simp only [AddStationOrContext, hemp, harr, readSlot, writeSlot]
  simp [hb, hscan, hlt]

theorem AddStationOrContext_Reg (capOf : Nat → Nat) (n : Nat) (hn : n < 2 ^ 32)
    (l : StationList) (occ : List Station) (c : PacketContext) (h : Reg n l occ) :
    ∃ l1 b occ1, AddStationOrContext capOf l c = some (l1, b) ∧ Reg n l1 occ1 ∧
      occ1.map (fun s => s.address) = occ.map (fun s => s.address) ++
        (if l1.GetN = l.GetN then [] else [c.GetSourMacAddr]) := by
  obtain ⟨hmax, hlen, hle, hnd, hnull, harr⟩ := h
  by_cases hemp : c.IsEmpty = true
  · exact ⟨l, false, occ, by simp [AddStationOrContext, hemp], ⟨hmax, hlen, hle, hnd, hnull, harr⟩,
      by simp⟩
  by_cases hb : c.GetSourMacAddr = MAC_BROADCAST_ADDR
  · exact ⟨l, false, occ, by simp [AddStationOrContext, hemp, hb],
      ⟨hmax, hlen, hle, hnd, hnull, harr⟩, by simp⟩
  have hemp : c.IsEmpty = false := by simpa using hemp
  rcases Nat.eq_zero_or_pos n with h0 | hpos
  · exact ⟨l, false, occ,
      AddStationOrContext_skip capOf l c 0 hemp hb (by rw [hmax, h0]; rfl),
      ⟨hmax, hlen, hle, hnd, hnull, harr⟩, by simp⟩
  have harr1 := harr hpos
  obtain ⟨k, rfl⟩ : ∃ k, n = occ.length + k := ⟨n - occ.length, by omega⟩
  simp only [Nat.add_sub_cancel_left] at harr1
  by_cases hmem : ∃ s ∈ occ, s.address = c.GetSourMacAddr
  · -- the address is registered: the sample goes to its record
    obtain ⟨s, hs, hsa⟩ := hmem
    obtain ⟨a, b, rfl⟩ := List.append_of_mem hs
    have ha : ∀ t ∈ a, t.address ≠ c.GetSourMacAddr := by
      intro t ht heq
      rw [List.map_append, List.map_cons, List.nodup_append] at hnd
      exact hnd.2.2 (List.mem_map.2 ⟨t, ht, rfl⟩)
        (List.mem_cons.2 (Or.inl (heq.trans hsa.symm)))
    have hscan := scan_found c.GetSourMacAddr a b s k ha hsa
    rw [← harr1, ← hmax] at hscan
    have hget : ((a ++ s :: b).map some ++ List.replicate k (none : Option Station))[a.length]?
        = some (some s) := by
      rw [List.map_append, List.append_assoc, List.getElem?_append_right (by simp)]
      simp
    have hset : ((a ++ s :: b).map some ++ List.replicate k (none : Option Station)).set a.length
        (some (s.AddData c.GetEndTime c.GetSnr c.GetRxPower c.GetBandwidth))
        = (a ++ s.AddData c.GetEndTime c.GetSnr c.GetRxPower c.GetBandwidth :: b).map some
          ++ List.replicate k none := by
      rw [List.map_append, List.append_assoc, List.set_append_right _ _ (by simp)]
      simp
    refine ⟨_, true, a ++ s.AddData c.GetEndTime c.GetSnr c.GetRxPower c.GetBandwidth :: b,
      AddStationOrContext_update capOf l c a.length _ s hemp hb hscan harr1 hget, ?_, ?_⟩
    · refine ⟨hmax, ?_, ?_, ?_, fun h0 => absurd h0 (by omega), ?_⟩
      · simpa using hlen
      · simp
      · simpa [AddData_address] using hnd
      · intro _
        rw [hset]
        simp
    · simp [AddData_address, GetN]
  · -- the address is unknown
    have ha : ∀ t ∈ occ, t.address ≠ c.GetSourMacAddr := fun t ht heq => hmem ⟨t, ht, heq⟩
    rcases Nat.eq_zero_or_pos k with hk0 | hkpos
    · -- no free slot: the observation is dropped
      subst hk0
      have hscan := scan_full c.GetSourMacAddr occ ha
      rw [← harr1, ← hmax] at hscan
      exact ⟨l, false, occ, AddStationOrContext_skip capOf l c _ hemp hb hscan,
        ⟨hmax, hlen, hle, hnd, hnull, harr⟩, by simp⟩
    · -- a free slot: a record is created there and receives the sample
      obtain ⟨k1, rfl⟩ : ∃ k1, k = k1 + 1 := ⟨k - 1, by omega⟩
      have hscan := scan_free c.GetSourMacAddr occ (k1 + 1) ha (by omega)
      rw [← harr1, ← hmax] at hscan
      have hlt : occ.length < (occ.map some
          ++ List.replicate (k1 + 1) (none : Option Station)).length := by
        simp
      have hset : ∀ x : Station,
          (occ.map some ++ List.replicate (k1 + 1) (none : Option Station)).set occ.length
            (some x) = (occ ++ [x]).map some ++ List.replicate k1 none := by
        intro x
        rw [List.set_append_right _ _ (by simp)]
        simp [List.replicate_succ]
      have hmod : (l.staListLen + 1) % 4294967296 = occ.length + 1 := by
        rw [hlen]; exact Nat.mod_eq_of_lt (by omega)
      have hmod2 : (occ.length + 1) % 4294967296 = occ.length + 1 := by
        exact Nat.mod_eq_of_lt (by omega)
      refine ⟨_, true, occ ++ [(Station.create capOf c.GetSourMacAddr l.staMemSize).AddData
            c.GetEndTime c.GetSnr c.GetRxPower c.GetBandwidth],
        AddStationOrContext_create capOf l c occ.length _ hemp hb hscan harr1 hlt, ?_, ?_⟩
      · refine ⟨hmax, ?_, ?_, ?_, fun h0 => absurd h0 (by omega), ?_⟩
        · simp [hmod]
        · simp only [List.length_append, List.length_singleton]; omega
        · rw [List.map_append, List.nodup_append]
          refine ⟨hnd, by simp, ?_⟩
          intro x hx hx2
          obtain ⟨t, ht, rfl⟩ := List.mem_map.1 hx
          simp only [List.map_cons, List.map_nil, List.mem_singleton, AddData_address,
            Station.create] at hx2
          exact ha t ht hx2
        · intro _
          rw [hset]
          simp
          omega
      · simp [AddData_address, GetN, Station.create, hmod2, hlen]

theorem addAll_Reg (capOf : Nat → Nat) (n : Nat) (hn : n < 2 ^ 32) :
    ∀ (cs : List PacketContext) (l : StationList) (occ : List Station), Reg n l occ →
      ∃ l1 occ1, addAll capOf l cs = some l1 ∧ Reg n l1 occ1 ∧
        occ1.map (fun s => s.address)
          = occ.map (fun s => s.address) ++ creations capOf l cs := by
  intro cs
  induction cs with
  | nil => intro l occ h; exact ⟨l, occ, rfl, h, by simp [creations]⟩
  | cons c cs ih =>
    intro l occ h
    obtain ⟨l1, b, occ1, h1, hreg1, hocc1⟩ := AddStationOrContext_Reg capOf n hn l occ c h
    obtain ⟨l2, occ2, h2, hreg2, hocc2⟩ := ih l1 occ1 hreg1
    refine ⟨l2, occ2, ?_, hreg2, ?_⟩
    · simp only [addAll, h1]; exact h2
    · simp only [creations, h1]
      rw [hocc2, hocc1, List.append_assoc]

theorem Reg_readSlot (n : Nat) (l : StationList) (occ : List Station) (h : Reg n l occ)
    (i : Nat) (s : Station) (hi : readSlot l.staList i = some (some s)) :
    occ[i]? = some s := by
  obtain ⟨_, _, _, _, hnull, harr⟩ := h
  rcases Nat.eq_zero_or_pos n with h0 | hpos
  · rw [hnull h0] at hi; cases hi
  · rw [harr hpos] at hi
    simp only [readSlot] at hi
    rcases Nat.lt_or_ge i occ.length with hlt | hge
    · rw [List.getElem?_append_left (by simpa using hlt)] at hi
      simpa using hi
    · rw [List.getElem?_append_right (by simpa using hge), List.getElem?_replicate] at hi
      split at hi <;> cases hi

theorem Reg_slots_distinct (n : Nat) (l : StationList) (occ : List Station) (h : Reg n l occ)
    (i j : Nat) (s t : Station) (hi : readSlot l.staList i = some (some s))
    (hj : readSlot l.staList j = some (some t)) (hst : s.address = t.address) : i = j := by
  have hi1 := Reg_readSlot n l occ h i s hi
  have hj1 := Reg_readSlot n l occ h j t hj
  have hnd := h.2.2.2.1
  obtain ⟨hil, hie⟩ := List.getElem?_eq_some.1 hi1
  obtain ⟨hjl, hje⟩ := List.getElem?_eq_some.1 hj1
  have hil1 : i < (occ.map (fun s => s.address)).length := by simpa using hil
  have hjl1 : j < (occ.map (fun s => s.address)).length := by simpa using hjl
  exact (@List.Nodup.getElem_inj_iff _ _ hnd i hil1 j hjl1).1 (by simp [hie, hje, hst])

/-- C1. For every registry created with capacity `stationMaxNum` (an
`unsigned int`) and every sequence of `AddStationOrContext` calls on it, all
calls return without a fault and, after each of them (after the first `k`
calls, for every `k`), `GetN ()` is at most `stationMaxNum`. -/
theorem count_le_capacityMax (capOf : Nat → Nat) (memorySize stationMaxNum : Nat)
    (hmax : stationMaxNum < 2 ^ 32) (cs : List PacketContext) (k : Nat) :
    ∃ l, addAll capOf (Create memorySize stationMaxNum) (cs.take k) = some l ∧
      l.GetN ≤ stationMaxNum := by
  obtain ⟨l, occ, hl, hreg, _⟩ :=
    addAll_Reg capOf stationMaxNum hmax (cs.take k) _ [] (Reg_Create memorySize stationMaxNum)
  refine ⟨l, hl, ?_⟩
  obtain ⟨_, hlen, hle, _⟩ := hreg
  show l.staListLen ≤ stationMaxNum
  omega

theorem count_le_capacityMax_witness :
    (2 : Nat) < 2 ^ 32 ∧
      ∃ l, addAll Scenario.capOf (Create 1000 2)
          ([Scenario.obs Scenario.M1 1, Scenario.obs Scenario.M2 2,
            Scenario.obs Scenario.M3 3].take 3) = some l ∧ l.GetN ≤ 2 :=
  ⟨by decide, count_le_capacityMax Scenario.capOf 1000 2 (by decide) _ 3⟩

/-- C2. For every sequence of `AddStationOrContext` calls on a freshly
created registry, the calls return without a fault, no two occupied slots
hold records with the same address, and the addresses for which a record was
created are pairwise distinct: a record is created at most once per address. -/
theorem occupied_addresses_distinct (capOf : Nat → Nat) (memorySize stationMaxNum : Nat)
    (hmax : stationMaxNum < 2 ^ 32) (cs : List PacketContext) :
    ∃ l, addAll capOf (Create memorySize stationMaxNum) cs = some l ∧
      (∀ (i j : Nat) (s t : Station), readSlot l.staList i = some (some s) →
        readSlot l.staList j = some (some t) → s.address = t.address → i = j) ∧
      (creations capOf (Create memorySize stationMaxNum) cs).Nodup := by
  obtain ⟨l, occ, hl, hreg, hocc⟩ :=
    addAll_Reg capOf stationMaxNum hmax cs _ [] (Reg_Create memorySize stationMaxNum)
  refine ⟨l, hl, ?_, ?_⟩
  · intro i j s t hi hj hst
    exact Reg_slots_distinct stationMaxNum l occ hreg i j s t hi hj hst
  · have hnd := hreg.2.2.2.1
    rw [hocc] at hnd
    simpa using hnd

theorem occupied_addresses_distinct_witness :
    (3 : Nat) < 2 ^ 32 ∧
      ∃ l, addAll Scenario.capOf (Create 1000 3)
          [Scenario.obs Scenario.M1 1, Scenario.obs Scenario.M2 2,
            Scenario.obs Scenario.M1 3, Scenario.obs Scenario.M2 4] = some l ∧
        (∀ (i j : Nat) (s t : Station), readSlot l.staList i = some (some s) →
          readSlot l.staList j = some (some t) → s.address = t.address → i = j) ∧
        (creations Scenario.capOf (Create 1000 3)
          [Scenario.obs Scenario.M1 1, Scenario.obs Scenario.M2 2,
            Scenario.obs Scenario.M1 3, Scenario.obs Scenario.M2 4]).Nodup :=
  ⟨by decide, occupied_addresses_distinct Scenario.capOf 1000 3 (by decide) _⟩

end StationList

end SdnLab

/-! ## The MAC queue -/

namespace ns3

namespace WifiMacQueue

open SdnLab

theorem Cleanup_loop_kept (d now : Time) (l : List Item) :
    (Cleanup.loop d now l).1 = l.filter (alive d now) := by
  induction l with
  | nil => rfl
  | cons i rest ih =>
    by_cases h : i.tstamp + d > now
    · simp [Cleanup.loop, alive, h, ih]
    · simp [Cleanup.loop, alive, h, ih]

theorem Cleanup_loop_events (d now : Time) (l : List Item) :
    (Cleanup.loop d now l).2.1
      = (l.filter (fun i => !alive d now i)).map
          (fun i => (i.packet, DropReason.MacQueueDelayExceeded)) := by
  induction l with
  | nil => rfl
  | cons i rest ih =>
    by_cases h : i.tstamp + d > now
    · simp [Cleanup.loop, alive, h, ih]
    · simp [Cleanup.loop, alive, h, ih]

theorem Cleanup_loop_count (d now : Time) (l : List Item) :
    (Cleanup.loop d now l).2.2 = (l.filter (fun i => !alive d now i)).length % 2 ^ 32 := by
  induction l with
  | nil => rfl
  | cons i rest ih =>
    by_cases h : i.tstamp + d > now
    · simp [Cleanup.loop, alive, h, ih]
    · simp [Cleanup.loop, alive, h, ih]

theorem filter_length_split (p : Item → Bool) (l : List Item) :
    (l.filter p).length + (l.filter (fun i => !p i)).length = l.length := by
  induction l with
  | nil => rfl
  | cons i rest ih =>
    cases h : p i <;> simp [h] <;> omega

theorem Cleanup_queue (now : Time) (q : WifiMacQueue) :
    (Cleanup now q).1.m_queue = q.m_queue.filter (alive q.m_maxDelay now) := by
  unfold Cleanup
  cases h : q.m_queue with
  | nil => simp [h]
  | cons i rest => simp [h, Cleanup_loop_kept]

theorem Cleanup_events (now : Time) (q : WifiMacQueue) :
    (Cleanup now q).2 = (q.m_queue.filter (fun i => !alive q.m_maxDelay now i)).map
      (fun i => (i.packet, DropReason.MacQueueDelayExceeded)) := by
  unfold Cleanup
  cases h : q.m_queue with
  | nil => simp [h]
  | cons i rest => simp [h, Cleanup_loop_events]

theorem Cleanup_maxSize (now : Time) (q : WifiMacQueue) :
    (Cleanup now q).1.m_maxSize = q.m_maxSize := by
  unfold Cleanup; split <;> rfl

theorem Cleanup_maxDelay (now : Time) (q : WifiMacQueue) :
    (Cleanup now q).1.m_maxDelay = q.m_maxDelay := by
  unfold Cleanup; split <;> rfl

theorem Cleanup_size (now : Time) (q : WifiMacQueue) (hsize : q.m_size = q.m_queue.length)
    (hlt : q.m_size < 2 ^ 32) :
    (Cleanup now q).1.m_size = (Cleanup now q).1.m_queue.length := by
  rw [Cleanup_queue]
  unfold Cleanup
  cases h : q.m_queue with
  | nil => simp [hsize, h]
  | cons i rest =>
    have hs := filter_length_split (alive q.m_maxDelay now) (i :: rest)
    rw [h] at hsize
    simp only [List.isEmpty_cons, Bool.false_eq_true, if_false, Cleanup_loop_count]
    have hle : ((i :: rest).filter (fun i => !alive q.m_maxDelay now i)).length < 2 ^ 32 := by
      omega
    rw [Nat.mod_eq_of_lt hle]
    have : q.m_size + 2 ^ 32 - ((i :: rest).filter (fun i => !alive q.m_maxDelay now i)).length
        = ((i :: rest).filter (alive q.m_maxDelay now)).length + 2 ^ 32 := by omega
    rw [this, Nat.add_mod_right, Nat.mod_eq_of_lt (by omega)]

theorem Cleanup_length_le (now : Time) (q : WifiMacQueue) :
    (Cleanup now q).1.m_queue.length ≤ q.m_queue.length := by
  rw [Cleanup_queue]; exact List.length_filter_le _ _

theorem Cleanup_Inv (now : Time) (q : WifiMacQueue) (h : Inv q) : Inv (Cleanup now q).1 := by
  obtain ⟨h1, h2, h3⟩ := h
  have hs := Cleanup_size now q h1 (by omega)
  have hl := Cleanup_length_le now q
  exact ⟨hs, by rw [hs, Cleanup_maxSize]; omega, by rw [Cleanup_maxSize]; exact h3⟩

theorem decSize_eq (n : Nat) (h1 : 0 < n) (h2 : n < 2 ^ 32) : decSize n = n - 1 := by
  unfold decSize
  have : n + 2 ^ 32 - 1 = (n - 1) + 2 ^ 32 := by omega
  rw [this, Nat.add_mod_right, Nat.mod_eq_of_lt (by omega)]

theorem incSize_eq (n : Nat) (h : n + 1 < 2 ^ 32) : incSize n = n + 1 := by
  unfold incSize
  exact Nat.mod_eq_of_lt h

theorem DequeueByTidAndAddress_loop_length (tid : Nat) (type : WifiMacHeader.AddressType)
    (dest : Mac48Address) (l : List Item) (x : Item) (r : List Item)
    (h : DequeueByTidAndAddress.loop tid type dest l = some (x, r)) :
    r.length + 1 = l.length := by
  induction l generalizing r with
  | nil => simp [DequeueByTidAndAddress.loop] at h
  | cons it rest ih =>
    simp only [DequeueByTidAndAddress.loop] at h
    split at h
    · cases h; rfl
    · cases hr : DequeueByTidAndAddress.loop tid type dest rest with
      | none => simp [hr] at h
      | some v =>
        obtain ⟨y, r1⟩ := v
        simp only [hr, Option.some.injEq, Prod.mk.injEq] at h
        obtain ⟨rfl, rfl⟩ := h
        have := ih r1 hr
        simp only [List.length_cons]; omega

theorem Remove_loop_length (packet : PacketPtr) (l r : List Item)
    (h : Remove.loop packet l = some r) : r.length + 1 = l.length := by
  induction l generalizing r with
  | nil => simp [Remove.loop] at h
  | cons it rest ih =>
    simp only [Remove.loop] at h
    split at h
    · cases h; rfl
    · cases hr : Remove.loop packet rest with
      | none => simp [hr] at h
      | some r1 =>
        simp only [hr, Option.some.injEq] at h
        subst h
        have := ih r1 hr
        simp only [List.length_cons]; omega

theorem DequeueFirstAvailable_loop_found (b : QosBlockedDestinations) (x : Item)
    (post : List Item) (hx : eligible b x = true) :
    ∀ pre : List Item, (∀ y ∈ pre, eligible b y = false) →
      DequeueFirstAvailable.loop b (pre ++ x :: post) = some (x, pre ++ post) := by
  intro pre
  induction pre with
  | nil =>
    intro _
    unfold eligible at hx
    simp [DequeueFirstAvailable.loop, hx]
  | cons y pre ih =>
    intro h
    have hy : eligible b y = false := h y (List.mem_cons_self _ _)
    have ih1 := ih (fun z hz => h z (List.mem_cons_of_mem _ hz))
    unfold eligible at hy
    simp only [List.cons_append, DequeueFirstAvailable.loop, hy, Bool.false_eq_true, if_false,
      List.append_eq, ih1]

theorem DequeueFirstAvailable_loop_none (b : QosBlockedDestinations) :
    ∀ l : List Item, (∀ y ∈ l, eligible b y = false) →
      DequeueFirstAvailable.loop b l = none := by
  intro l
  induction l with
  | nil => intro _; rfl
  | cons y l ih =>
    intro h
    have hy : eligible b y = false := h y (List.mem_cons_self _ _)
    have ih1 := ih (fun z hz => h z (List.mem_cons_of_mem _ hz))
    unfold eligible at hy
    simp only [DequeueFirstAvailable.loop, hy, Bool.false_eq_true, if_false, ih1]

/-- Every list splits at its first eligible entry, if it has one. -/
theorem eligible_split (b : QosBlockedDestinations) (l : List Item) :
    (∀ y ∈ l, eligible b y = false) ∨
      ∃ pre x post, l = pre ++ x :: post ∧ (∀ y ∈ pre, eligible b y = false)
        ∧ eligible b x = true := by
  induction l with
  | nil => left; intro y hy; cases hy
  | cons y l ih =>
    cases hy : eligible b y with
    | true => right; exact ⟨[], y, l, rfl, (by intro z hz; cases hz), hy⟩
    | false =>
      rcases ih with hall | ⟨pre, x, post, rfl, hpre, hx⟩
      · left
        intro z hz
        rcases List.mem_cons.1 hz with rfl | hz
        · exact hy
        · exact hall z hz
      · right
        refine ⟨y :: pre, x, post, rfl, ?_, hx⟩
        intro z hz
        rcases List.mem_cons.1 hz with rfl | hz
        · exact hy
        · exact hpre z hz

theorem DequeueFirstAvailable_loop_length (b : QosBlockedDestinations) (l : List Item)
    (x : Item) (r : List Item) (h : DequeueFirstAvailable.loop b l = some (x, r)) :
    r.length + 1 = l.length := by
  rcases eligible_split b l with hall | ⟨pre, y, post, rfl, hpre, hy⟩
  · rw [DequeueFirstAvailable_loop_none b l hall] at h; cases h
  · rw [DequeueFirstAvailable_loop_found b y post hy pre hpre] at h
    simp only [Option.some.injEq, Prod.mk.injEq] at h
    obtain ⟨rfl, rfl⟩ := h
    simp only [List.length_append, List.length_cons]; omega

theorem Inv_erase (c : WifiMacQueue) (r : List Item) (h : Inv c)
    (hr : r.length + 1 = c.m_queue.length) :
    Inv { c with m_queue := r, m_size := decSize c.m_size } := by
  obtain ⟨h1, h2, h3⟩ := h
  have hd := decSize_eq c.m_size (by omega) (by omega)
  refine ⟨?_, ?_, h3⟩
  · show decSize c.m_size = r.length
    omega
  · show decSize c.m_size ≤ c.m_maxSize
    omega

theorem Inv_insert (c : WifiMacQueue) (r : List Item) (h : Inv c)
    (hne : c.m_size ≠ c.m_maxSize) (hr : r.length = c.m_queue.length + 1) :
    Inv { c with m_queue := r, m_size := incSize c.m_size } := by
  obtain ⟨h1, h2, h3⟩ := h
  have hd := incSize_eq c.m_size (by omega)
  refine ⟨?_, ?_, h3⟩
  · show incSize c.m_size = r.length
    omega
  · show incSize c.m_size ≤ c.m_maxSize
    omega

theorem Enqueue_Inv (now : Time) (q : WifiMacQueue) (p : PacketPtr) (hdr : WifiMacHeader)
    (ctx : PacketContext) (h : Inv q) : Inv (Enqueue now q p hdr ctx).1 := by
  have hc := Cleanup_Inv now q h
  unfold Enqueue
  by_cases he : (Cleanup now q).1.m_size = (Cleanup now q).1.m_maxSize
  · simp only [he, if_true]; exact hc
  · simp only [he, if_false]
    exact Inv_insert _ _ hc he (by simp)

theorem PushFront_Inv (now : Time) (q : WifiMacQueue) (p : PacketPtr) (hdr : WifiMacHeader)
    (h : Inv q) : Inv (PushFront now q p hdr).1 := by
  have hc := Cleanup_Inv now q h
  unfold PushFront
  by_cases he : (Cleanup now q).1.m_size = (Cleanup now q).1.m_maxSize
  · simp only [he, if_true]; exact hc
  · simp only [he, if_false]
    exact Inv_insert _ _ hc he (by simp)

theorem Dequeue_Inv (now : Time) (q : WifiMacQueue) (h : Inv q) : Inv (Dequeue now q).1 := by
  have hc := Cleanup_Inv now q h
  simp only [Dequeue]
  cases hq : (Cleanup now q).1.m_queue with
  | nil => exact hc
  | cons i rest => exact Inv_erase _ _ hc (by simp [hq])

theorem DequeueCtx_Inv (now : Time) (q : WifiMacQueue) (h : Inv q) :
    Inv (DequeueCtx now q).1 := by
  have hc := Cleanup_Inv now q h
  simp only [DequeueCtx]
  cases hq : (Cleanup now q).1.m_queue with
  | nil => exact hc
  | cons i rest => exact Inv_erase _ _ hc (by simp [hq])

theorem DequeueByTidAndAddress_Inv (now : Time) (q : WifiMacQueue) (tid : Nat)
    (type : WifiMacHeader.AddressType) (dest : Mac48Address) (h : Inv q) :
    Inv (DequeueByTidAndAddress now q tid type dest).1 := by
  have hc := Cleanup_Inv now q h
  simp only [DequeueByTidAndAddress]
  cases hl : DequeueByTidAndAddress.loop tid type dest (Cleanup now q).1.m_queue with
  | none => exact hc
  | some v =>
    obtain ⟨x, r⟩ := v
    exact Inv_erase _ _ hc (DequeueByTidAndAddress_loop_length _ _ _ _ _ _ hl)

theorem DequeueFirstAvailable_Inv (now : Time) (q : WifiMacQueue)
    (b : QosBlockedDestinations) (h : Inv q) : Inv (DequeueFirstAvailable now q b).1 := by
  have hc := Cleanup_Inv now q h
  simp only [DequeueFirstAvailable]
  cases hl : DequeueFirstAvailable.loop b (Cleanup now q).1.m_queue with
  | none => exact hc
  | some v =>
    obtain ⟨x, r⟩ := v
    exact Inv_erase _ _ hc (DequeueFirstAvailable_loop_length _ _ _ _ hl)

theorem Remove_Inv (q : WifiMacQueue) (p : PacketPtr) (h : Inv q) : Inv (Remove q p).1 := by
  simp only [Remove]
  cases hl : Remove.loop p q.m_queue with
  | none => exact h
  | some r => exact Inv_erase _ _ h (Remove_loop_length _ _ _ hl)

theorem step_Inv (now : Time) (q : WifiMacQueue) (op : Op) (h : Inv q) :
    Inv (step now q op) := by
  have hc := Cleanup_Inv now q h
  cases op with
  | enqueue p hdr ctx => exact Enqueue_Inv now q p hdr ctx h
  | enqueue2 p hdr => exact Enqueue_Inv now q p hdr _ h
  | pushFront p hdr => exact PushFront_Inv now q p hdr h
  | cleanup => exact hc
  | dequeue => exact Dequeue_Inv now q h
  | dequeueCtx => exact DequeueCtx_Inv now q h
  | peek => simp only [step, Peek]; split <;> exact hc
  | dequeueByTidAndAddress tid type dest => exact DequeueByTidAndAddress_Inv now q tid type dest h
  | peekByTidAndAddress tid type dest =>
    simp only [step, PeekByTidAndAddress]; split <;> exact hc
  | peekByAddress type dest => simp only [step, PeekByAddress]; split <;> exact hc
  | isEmpty => exact hc
  | getSize => exact h
  | getNPacketsByTidAndAddress tid type addr => exact hc
  | dequeueFirstAvailable b => exact DequeueFirstAvailable_Inv now q b h
  | peekFirstAvailable b => simp only [step, PeekFirstAvailable]; split <;> exact hc
  | peekAvailable b k => simp only [step, PeekAvailable]; split <;> exact hc
  | remove p => exact Remove_Inv q p h
  | flush => exact ⟨rfl, Nat.zero_le _, h.2.2⟩
  | setMaxDelay d => exact h

theorem run_Inv (ops : List (Time × Op)) : ∀ q : WifiMacQueue, Inv q → Inv (run q ops) := by
  induction ops with
  | nil => intro q h; exact h
  | cons o ops ih =>
    intro q h
    obtain ⟨now, op⟩ := o
    exact ih _ (step_Inv now q op h)

theorem Inv_new (maxSize : Nat) (maxDelay : Time) (h : maxSize < 2 ^ 32) :
    Inv (new maxSize maxDelay) :=
  ⟨rfl, Nat.zero_le _, h⟩

theorem step_maxSize (now : Time) (q : WifiMacQueue) (op : Op) :
    (step now q op).m_maxSize = q.m_maxSize := by
  have hc := Cleanup_maxSize now q
  cases op <;>
    simp only [step, Enqueue2, Enqueue, PushFront, Dequeue, DequeueCtx, Peek,
      DequeueByTidAndAddress, PeekByTidAndAddress, PeekByAddress, IsEmpty,
      GetNPacketsByTidAndAddress, DequeueFirstAvailable, PeekFirstAvailable, PeekAvailable,
      Remove, Flush, SetMaxDelay] <;>
    (try split) <;> first | exact hc | rfl

theorem run_maxSize (ops : List (Time × Op)) :
    ∀ q : WifiMacQueue, (run q ops).m_maxSize = q.m_maxSize := by
  induction ops with
  | nil => intro q; rfl
  | cons o ops ih =>
    intro q
    obtain ⟨now, op⟩ := o
    simp only [run]
    rw [ih, step_maxSize]

/-- C3. On a queue constructed empty with the `uint32_t` bound `maxSize`,
after every operation of every sequence of timed calls of `Enqueue` (both
forms), `PushFront`, `Cleanup`, `Dequeue` (both forms), the `Peek` methods,
`DequeueByTidAndAddress`, `DequeueFirstAvailable`, `Remove`, `Flush`,
`IsEmpty`, `GetSize`, `GetNPacketsByTidAndAddress` and `SetMaxDelay` (none of
which changes `m_maxSize`), `GetSize ()` is at most `maxSize`.  The bound holds
whatever the call times are, in particular for non-decreasing ones. -/
theorem size_le_maxSize (maxSize : Nat) (maxDelay : Time) (hmax : maxSize < 2 ^ 32)
    (ops : List (Time × Op)) (k : Nat) :
    (run (new maxSize maxDelay) (ops.take k)).GetSize ≤ maxSize := by
  have h := run_Inv (ops.take k) _ (Inv_new maxSize maxDelay hmax)
  have hm := run_maxSize (ops.take k) (new maxSize maxDelay)
  obtain ⟨_, h2, _⟩ := h
  rw [hm] at h2
  exact h2

theorem size_le_maxSize_witness :
    (2 : Nat) < 2 ^ 32 ∧
      (run (new 2 (Scenario.ms 500))
        ([(0, Op.enqueue2 1 (Scenario.qosTo Scenario.X 0)),
          (0, Op.pushFront 2 (Scenario.qosTo Scenario.Y 0)),
          (0, Op.enqueue2 3 (Scenario.qosTo Scenario.X 0)),
          (Scenario.ms 100, Op.dequeue),
          (Scenario.ms 100, Op.enqueue2 4 (Scenario.plainTo Scenario.Y))].take 5)).GetSize
        ≤ 2 :=
  ⟨by decide, size_le_maxSize 2 (Scenario.ms 500) (by decide) _ 5⟩

theorem Cleanup_Counted (now : Time) (q : WifiMacQueue) (h : Counted q) :
    Counted (Cleanup now q).1 := by
  obtain ⟨h1, h2⟩ := h
  have hl := Cleanup_length_le now q
  exact ⟨Cleanup_size now q h1 (by omega), by omega⟩

theorem Cleanup_events_reason (now : Time) (q : WifiMacQueue) :
    ∀ e ∈ (Cleanup now q).2, e.2 = DropReason.MacQueueDelayExceeded := by
  intro e he
  rw [Cleanup_events] at he
  obtain ⟨i, _, rfl⟩ := List.mem_map.1 he
  rfl

theorem add64_eq (a b : Time) (h : fits64 (a + b)) : add64 a b = a + b := by
  have key : ∀ x : Int, -9223372036854775808 ≤ x → x ≤ 9223372036854775807 →
      (x + 9223372036854775808) % 18446744073709551616 - 9223372036854775808 = x := by
    intro x h1 h2
    omega
  exact key (a + b) h.1 h.2

/-- C5. `Cleanup` at time `now`, on a queue whose counter agrees with its
list and on which no sum `tstamp + maxDelay` leaves the signed 64-bit range of
`ns3::Time` (so that the 64-bit sum is the exact sum), removes exactly the entries with `tstamp + maxDelay ≤ now` (an entry
whose age equals `maxDelay` is evicted), keeps every other entry in its
original relative order, fires exactly one `MacQueueDelayExceeded` event per
removed entry (in queue order, and nothing else), and leaves the size equal
to the number of remaining entries, all of which satisfy
`tstamp + maxDelay > now`; the two attributes are untouched. -/
theorem Cleanup_spec (now : Time) (q : WifiMacQueue) (hq : Counted q)
    (hno : NoOverflow q) :
    (Cleanup now q).1.m_queue
      = q.m_queue.filter (fun i => decide (i.tstamp + q.m_maxDelay > now)) ∧
    (∀ i ∈ q.m_queue, i ∈ (Cleanup now q).1.m_queue ↔ ¬ (i.tstamp + q.m_maxDelay ≤ now)) ∧
    (∀ i ∈ q.m_queue, now - i.tstamp = q.m_maxDelay → i ∉ (Cleanup now q).1.m_queue) ∧
    (Cleanup now q).2
      = (q.m_queue.filter (fun i => decide (i.tstamp + q.m_maxDelay ≤ now))).map
          (fun i => (i.packet, DropReason.MacQueueDelayExceeded)) ∧
    (Cleanup now q).2.length + (Cleanup now q).1.m_queue.length = q.m_queue.length ∧
    (Cleanup now q).1.m_size = (Cleanup now q).1.m_queue.length ∧
    (∀ i ∈ (Cleanup now q).1.m_queue, i.tstamp + q.m_maxDelay > now) ∧
    (Cleanup now q).1.m_maxSize = q.m_maxSize ∧
    (Cleanup now q).1.m_maxDelay = q.m_maxDelay ∧
    (∀ i ∈ q.m_queue, add64 i.tstamp q.m_maxDelay = i.tstamp + q.m_maxDelay) := by
  have hqueue : (Cleanup now q).1.m_queue
      = q.m_queue.filter (fun i => decide (i.tstamp + q.m_maxDelay > now)) := by
    rw [Cleanup_queue]; rfl
  have hpred : (fun i : Item => !alive q.m_maxDelay now i)
      = (fun i : Item => decide (i.tstamp + q.m_maxDelay ≤ now)) := by
    funext i
    by_cases h : i.tstamp + q.m_maxDelay > now
    · have h2 : ¬ (i.tstamp + q.m_maxDelay ≤ now) := not_le.2 h
      simp only [alive, h, h2, decide_True, decide_False, Bool.not_true]
    · have h2 : i.tstamp + q.m_maxDelay ≤ now := not_lt.1 h
      simp only [alive, h, h2, decide_True, decide_False, Bool.not_false]
  have hev : (Cleanup now q).2
      = (q.m_queue.filter (fun i => decide (i.tstamp + q.m_maxDelay ≤ now))).map
          (fun i => (i.packet, DropReason.MacQueueDelayExceeded)) := by
    rw [Cleanup_events, hpred]
  refine ⟨hqueue, ?_, ?_, hev, ?_, (Cleanup_Counted now q hq).1, ?_, Cleanup_maxSize now q,
    Cleanup_maxDelay now q, fun i hi => add64_eq _ _ (hno i hi)⟩
  · intro i hi
    rw [hqueue, List.mem_filter]
    simp [hi]
  · intro i hi hage hmem
    rw [hqueue, List.mem_filter] at hmem
    have h2 : (now : Int) < i.tstamp + q.m_maxDelay := by simpa using hmem.2
    have h3 : (now : Int) - i.tstamp = q.m_maxDelay := hage
    linarith
  · rw [hev, hqueue, List.length_map, ← hpred]
    have := filter_length_split (alive q.m_maxDelay now) q.m_queue
    unfold alive at this ⊢
    omega
  · intro i hi
    rw [hqueue, List.mem_filter] at hi
    simpa using hi.2

theorem Cleanup_spec_witness :
    Counted
      { m_queue := [Item.mk3 1 (Scenario.qosTo Scenario.X 0) 0,
          Item.mk3 2 (Scenario.qosTo Scenario.Y 0) (Scenario.ms 200)]
        m_size := 2, m_maxSize := 2, m_maxDelay := Scenario.ms 500 } ∧
    NoOverflow
      { m_queue := [Item.mk3 1 (Scenario.qosTo Scenario.X 0) 0,
          Item.mk3 2 (Scenario.qosTo Scenario.Y 0) (Scenario.ms 200)]
        m_size := 2, m_maxSize := 2, m_maxDelay := Scenario.ms 500 } ∧
    (Cleanup (Scenario.ms 500)
      { m_queue := [Item.mk3 1 (Scenario.qosTo Scenario.X 0) 0,
          Item.mk3 2 (Scenario.qosTo Scenario.Y 0) (Scenario.ms 200)]
        m_size := 2, m_maxSize := 2, m_maxDelay := Scenario.ms 500 }).2
      = [(1, DropReason.MacQueueDelayExceeded)] :=
  ⟨by decide, by decide,
    (Cleanup_spec (Scenario.ms 500)
      { m_queue := [Item.mk3 1 (Scenario.qosTo Scenario.X 0) 0,
          Item.mk3 2 (Scenario.qosTo Scenario.Y 0) (Scenario.ms 200)]
        m_size := 2, m_maxSize := 2, m_maxDelay := Scenario.ms 500 } (by decide)
      (by decide)).2.2.2.1⟩

/-- C6. `Dequeue` at time `now`, on a queue whose counter agrees with its
list and on which no sum `tstamp + maxDelay` leaves the signed 64-bit range of
`ns3::Time` (so that the 64-bit sum is the exact sum), first evicts the expired entries (the events fired are those of
`Cleanup`), then removes and returns the front remaining entry with its
header and lowers the size by 1; it returns absent exactly when no stored
entry satisfies `tstamp + maxDelay > now`, and then leaves the queue empty
with size 0.  A returned entry is always a stored one whose age has not
reached `maxDelay`.  With `maxDelay = 500ms`, two frames enqueued at `t = 0`
and `Dequeue` called at `t = 600ms`, both frames are evicted with
`MacQueueDelayExceeded` and the call returns absent. -/
theorem Dequeue_spec (now : Time) (q : WifiMacQueue) (hq : Counted q)
    (hno : NoOverflow q) :
    (Dequeue now q).2.1 = (Cleanup now q).2 ∧
    (∀ (i : Item) (rest : List Item),
      q.m_queue.filter (fun i => decide (i.tstamp + q.m_maxDelay > now)) = i :: rest →
      (Dequeue now q).2.2 = some (i.packet, i.hdr) ∧
      (Dequeue now q).1.m_queue = rest ∧
      (Dequeue now q).1.m_size + 1 = (Cleanup now q).1.m_size ∧
      (Dequeue now q).1.m_size = rest.length) ∧
    ((Dequeue now q).2.2 = none ↔ ∀ i ∈ q.m_queue, ¬ (i.tstamp + q.m_maxDelay > now)) ∧
    ((Dequeue now q).2.2 = none →
      (Dequeue now q).1.m_queue = [] ∧ (Dequeue now q).1.m_size = 0) ∧
    (∀ (p : PacketPtr) (h : WifiMacHeader), (Dequeue now q).2.2 = some (p, h) →
      ∃ i ∈ q.m_queue, i.packet = p ∧ i.hdr = h ∧ i.tstamp + q.m_maxDelay > now) ∧
    (Dequeue (Scenario.ms 600)
        (Enqueue2 0 (Enqueue2 0 (new 2 (Scenario.ms 500)) 1 (Scenario.qosTo Scenario.X 0)).1 2
          (Scenario.qosTo Scenario.Y 0)).1
      = ({ m_queue := [], m_size := 0, m_maxSize := 2, m_maxDelay := Scenario.ms 500 },
         [(1, DropReason.MacQueueDelayExceeded), (2, DropReason.MacQueueDelayExceeded)],
         none)) ∧
    (∀ i ∈ q.m_queue, add64 i.tstamp q.m_maxDelay = i.tstamp + q.m_maxDelay) := by
  have hc := Cleanup_Counted now q hq
  have hbridge : ∀ i ∈ q.m_queue, add64 i.tstamp q.m_maxDelay = i.tstamp + q.m_maxDelay :=
    fun i hi => add64_eq _ _ (hno i hi)
  have hqueue : (Cleanup now q).1.m_queue
      = q.m_queue.filter (fun i => decide (i.tstamp + q.m_maxDelay > now)) := by
    rw [Cleanup_queue]; rfl
  rw [← hqueue]
  cases hcq : (Cleanup now q).1.m_queue with
  | nil =>
    have e1 : Dequeue now q = ((Cleanup now q).1, (Cleanup now q).2, none) := by
      simp only [Dequeue, hcq]
    have hall : ∀ i ∈ q.m_queue, ¬ (i.tstamp + q.m_maxDelay > now) := by
      intro i hi hlt
      have : i ∈ (Cleanup now q).1.m_queue := by
        rw [hqueue, List.mem_filter]; exact ⟨hi, by simpa using hlt⟩
      rw [hcq] at this
      cases this
    rw [e1]
    refine ⟨rfl, ?_, ?_, ?_, ?_, by decide, hbridge⟩
    · intro i rest h; cases h
    · exact ⟨fun _ => hall, fun _ => rfl⟩
    · intro _
      exact ⟨hcq, by rw [hc.1, hcq]; rfl⟩
    · intro p h hp; cases hp
  | cons i rest =>
    have e1 : Dequeue now q
        = ({ (Cleanup now q).1 with m_queue := rest, m_size := decSize (Cleanup now q).1.m_size },
            (Cleanup now q).2, some (i.packet, i.hdr)) := by
      simp only [Dequeue, hcq]
    have hlen : (Cleanup now q).1.m_size = rest.length + 1 := by rw [hc.1, hcq]; rfl
    have hdec : decSize (Cleanup now q).1.m_size = rest.length := by
      rw [decSize_eq _ (by omega) (by have := hc.2; rw [hc.1]; omega), hlen]; rfl
    have hmem : i ∈ q.m_queue ∧ i.tstamp + q.m_maxDelay > now := by
      have : i ∈ (Cleanup now q).1.m_queue := by rw [hcq]; exact List.mem_cons_self _ _
      rw [hqueue, List.mem_filter] at this
      exact ⟨this.1, by simpa using this.2⟩
    rw [e1]
    refine ⟨rfl, ?_, ?_, ?_, ?_, by decide, hbridge⟩
    · intro j rest1 h
      simp only [List.cons.injEq] at h
      obtain ⟨rfl, rfl⟩ := h
      exact ⟨rfl, rfl, by show decSize _ + 1 = _; rw [hdec, hlen], hdec⟩
    · constructor
      · intro h; cases h
      · intro h; exact absurd hmem.2 (h i hmem.1)
    · intro h; cases h
    · intro p h hp
      simp only [Option.some.injEq, Prod.mk.injEq] at hp
      exact ⟨i, hmem.1, hp.1, hp.2, hmem.2⟩

theorem Dequeue_spec_witness :
    Counted (Enqueue2 0 (new 2 (Scenario.ms 500)) 1 (Scenario.qosTo Scenario.X 0)).1 ∧
    NoOverflow (Enqueue2 0 (new 2 (Scenario.ms 500)) 1 (Scenario.qosTo Scenario.X 0)).1 ∧
    ((Dequeue (Scenario.ms 100)
        (Enqueue2 0 (new 2 (Scenario.ms 500)) 1 (Scenario.qosTo Scenario.X 0)).1).2.2 = none ↔
      ∀ i ∈ (Enqueue2 0 (new 2 (Scenario.ms 500)) 1 (Scenario.qosTo Scenario.X 0)).1.m_queue,
        ¬ (i.tstamp + (Enqueue2 0 (new 2 (Scenario.ms 500)) 1
          (Scenario.qosTo Scenario.X 0)).1.m_maxDelay > Scenario.ms 100)) :=
  ⟨by decide, by decide,
    (Dequeue_spec (Scenario.ms 100)
      (Enqueue2 0 (new 2 (Scenario.ms 500)) 1 (Scenario.qosTo Scenario.X 0)).1
      (by decide) (by decide)).2.2.1⟩

theorem Cleanup_no_events (now : Time) (q : WifiMacQueue)
    (h : ∀ e ∈ (Cleanup now q).2, e.2 ≠ DropReason.MacQueueDelayExceeded) :
    (Cleanup now q).2 = [] ∧ (Cleanup now q).1.m_queue = q.m_queue := by
  have hnil : (Cleanup now q).2 = [] := by
    cases hc : (Cleanup now q).2 with
    | nil => rfl
    | cons e es =>
      have he : e ∈ (Cleanup now q).2 := by rw [hc]; exact List.mem_cons_self _ _
      exact absurd (Cleanup_events_reason now q e he) (h e he)
  refine ⟨hnil, ?_⟩
  rw [Cleanup_events] at hnil
  have hf : q.m_queue.filter (fun i => !alive q.m_maxDelay now i) = [] := by
    simpa using hnil
  rw [Cleanup_queue, List.filter_eq_self]
  intro i hi
  have := (List.filter_eq_nil_iff.1 hf) i hi
  simpa using this

theorem fifoStep_drops (now : Time) (t : FifoTrace) (op : FifoOp) :
    ∃ es, (fifoStep now t op).drops = t.drops ++ es ∧
      es = match op with
        | .enq packet hdr context => (Enqueue now t.queue packet hdr context).2
        | .deq => (Dequeue now t.queue).2.1 := by
  cases op <;> exact ⟨_, rfl, rfl⟩

theorem fifoRun_drops (ops : List (Time × FifoOp)) :
    ∀ t : FifoTrace, ∀ e ∈ t.drops, e ∈ (fifoRun t ops).drops := by
  induction ops with
  | nil => intro t e he; exact he
  | cons o ops ih =>
    intro t e he
    obtain ⟨now, op⟩ := o
    obtain ⟨es, hes, _⟩ := fifoStep_drops now t op
    exact ih _ e (by rw [hes]; exact List.mem_append_left _ he)

theorem fifoStep_Conserved (now : Time) (t : FifoTrace) (op : FifoOp) (h : Conserved t)
    (hno : ∀ e ∈ (fifoStep now t op).drops, e.2 ≠ DropReason.MacQueueDelayExceeded) :
    Conserved (fifoStep now t op) := by
  unfold Conserved at h ⊢
  cases op with
  | enq packet hdr context =>
    have hcl : ∀ e ∈ (Cleanup now t.queue).2, e.2 ≠ DropReason.MacQueueDelayExceeded := by
      intro e he
      apply hno e
      simp only [fifoStep, Enqueue]
      apply List.mem_append_right
      split
      · exact List.mem_append_left _ he
      · exact he
    obtain ⟨hev, hqu⟩ := Cleanup_no_events now t.queue hcl
    by_cases hfull : (Cleanup now t.queue).1.m_size = (Cleanup now t.queue).1.m_maxSize
    · have e1 : Enqueue now t.queue packet hdr context
          = ((Cleanup now t.queue).1, [(packet, DropReason.MacQueueSizeExceeded)]) := by
        simp only [Enqueue, hfull, if_true, hev, List.nil_append]
      simp only [fifoStep, e1]
      rw [hqu]
      simpa using h
    · have e1 : Enqueue now t.queue packet hdr context
          = ({ (Cleanup now t.queue).1 with
                m_queue := (Cleanup now t.queue).1.m_queue ++ [Item.mk packet hdr now context]
                m_size := incSize (Cleanup now t.queue).1.m_size }, []) := by
        simp only [Enqueue, hfull, if_false, hev]
      simp only [fifoStep, e1]
      rw [hqu, h]
      simp
  | deq =>
    have hcl : ∀ e ∈ (Cleanup now t.queue).2, e.2 ≠ DropReason.MacQueueDelayExceeded := by
      intro e he
      apply hno e
      simp only [fifoStep, Dequeue]
      apply List.mem_append_right
      split <;> exact he
    obtain ⟨hev, hqu⟩ := Cleanup_no_events now t.queue hcl
    cases hq : t.queue.m_queue with
    | nil =>
      have e1 : Dequeue now t.queue = ((Cleanup now t.queue).1, (Cleanup now t.queue).2, none) := by
        simp only [Dequeue, hqu, hq]
      simp only [fifoStep, e1]
      rw [hqu]
      exact h
    | cons i rest =>
      have e1 : Dequeue now t.queue
          = ({ (Cleanup now t.queue).1 with
                m_queue := rest, m_size := decSize (Cleanup now t.queue).1.m_size },
              (Cleanup now t.queue).2, some (i.packet, i.hdr)) := by
        simp only [Dequeue, hqu, hq]
      simp only [fifoStep, e1]
      rw [h, hq]
      simp

theorem fifoRun_Conserved (ops : List (Time × FifoOp)) :
    ∀ t : FifoTrace, Conserved t →
      (∀ e ∈ (fifoRun t ops).drops, e.2 ≠ DropReason.MacQueueDelayExceeded) →
      Conserved (fifoRun t ops) := by
  induction ops with
  | nil => intro t h _; exact h
  | cons o ops ih =>
    intro t h hno
    obtain ⟨now, op⟩ := o
    have hstep : ∀ e ∈ (fifoStep now t op).drops, e.2 ≠ DropReason.MacQueueDelayExceeded :=
      fun e he => hno e (fifoRun_drops ops _ e he)
    exact ih _ (fifoStep_Conserved now t op h hstep) hno

/-- C7. In every run of timed `Enqueue` and `Dequeue` calls on a newly
constructed queue in which no entry expires (no `MacQueueDelayExceeded` event
is fired), the frames returned by `Dequeue`, in the order of the calls, are an
initial segment of the frames accepted by `Enqueue`, in the order of the
calls: the k-th returned frame is the k-th accepted one (arrival order), and
the accepted frames not yet returned are exactly the stored ones, in order. -/
theorem Dequeue_fifo (maxSize : Nat) (maxDelay : Time) (ops : List (Time × FifoOp))
    (hno : ∀ e ∈ (fifoRun (fifoStart maxSize maxDelay) ops).drops,
      e.2 ≠ DropReason.MacQueueDelayExceeded) :
    (fifoRun (fifoStart maxSize maxDelay) ops).dequeued
      <+: (fifoRun (fifoStart maxSize maxDelay) ops).accepted ∧
    (fifoRun (fifoStart maxSize maxDelay) ops).accepted
      = (fifoRun (fifoStart maxSize maxDelay) ops).dequeued
        ++ (fifoRun (fifoStart maxSize maxDelay) ops).queue.m_queue.map
            (fun i => (i.packet, i.hdr)) := by
  have h := fifoRun_Conserved ops (fifoStart maxSize maxDelay) rfl hno
  exact ⟨⟨_, h.symm⟩, h⟩

theorem Dequeue_fifo_witness :
    (∀ e ∈ (fifoRun (fifoStart 2 (Scenario.ms 500))
        [(0, FifoOp.enq 1 (Scenario.qosTo Scenario.X 0) (Scenario.obs Scenario.M1 1)),
         (0, FifoOp.enq 2 (Scenario.qosTo Scenario.Y 0) (Scenario.obs Scenario.M1 2)),
         (Scenario.ms 100, FifoOp.deq),
         (Scenario.ms 200, FifoOp.enq 3 (Scenario.plainTo Scenario.X)
            (Scenario.obs Scenario.M1 3)),
         (Scenario.ms 300, FifoOp.deq),
         (Scenario.ms 400, FifoOp.deq)]).drops,
      e.2 ≠ DropReason.MacQueueDelayExceeded) ∧
    (fifoRun (fifoStart 2 (Scenario.ms 500))
        [(0, FifoOp.enq 1 (Scenario.qosTo Scenario.X 0) (Scenario.obs Scenario.M1 1)),
         (0, FifoOp.enq 2 (Scenario.qosTo Scenario.Y 0) (Scenario.obs Scenario.M1 2)),
         (Scenario.ms 100, FifoOp.deq),
         (Scenario.ms 200, FifoOp.enq 3 (Scenario.plainTo Scenario.X)
            (Scenario.obs Scenario.M1 3)),
         (Scenario.ms 300, FifoOp.deq),
         (Scenario.ms 400, FifoOp.deq)]).dequeued
      <+: (fifoRun (fifoStart 2 (Scenario.ms 500))
        [(0, FifoOp.enq 1 (Scenario.qosTo Scenario.X 0) (Scenario.obs Scenario.M1 1)),
         (0, FifoOp.enq 2 (Scenario.qosTo Scenario.Y 0) (Scenario.obs Scenario.M1 2)),
         (Scenario.ms 100, FifoOp.deq),
         (Scenario.ms 200, FifoOp.enq 3 (Scenario.plainTo Scenario.X)
            (Scenario.obs Scenario.M1 3)),
         (Scenario.ms 300, FifoOp.deq),
         (Scenario.ms 400, FifoOp.deq)]).accepted :=
  ⟨by decide, (Dequeue_fifo 2 (Scenario.ms 500) _ (by decide)).1⟩

theorem IsBlocked_iff (b : QosBlockedDestinations) (dest : Mac48Address) (tid : Nat) :
    b.IsBlocked dest tid = true ↔ (dest, tid) ∈ b.m_blockedQosPackets := by
  unfold QosBlockedDestinations.IsBlocked
  rw [List.any_eq_true]
  constructor
  · rintro ⟨⟨d, t⟩, hmem, he⟩
    simp only [Bool.and_eq_true, decide_eq_true_eq] at he
    obtain ⟨rfl, rfl⟩ := he
    exact hmem
  · intro h
    exact ⟨(dest, tid), h, by simp⟩

theorem eligible_false_iff (b : QosBlockedDestinations) (y : Item) :
    eligible b y = false ↔
      y.hdr.IsQosData = true ∧ (y.hdr.GetAddr1, y.hdr.GetQosTid) ∈ b.m_blockedQosPackets := by
  rw [← IsBlocked_iff]
  unfold eligible
  cases y.hdr.IsQosData <;> cases b.IsBlocked y.hdr.GetAddr1 y.hdr.GetQosTid <;> simp

theorem eligible_true_iff (b : QosBlockedDestinations) (y : Item) :
    eligible b y = true ↔
      y.hdr.IsQosData = false ∨ (y.hdr.GetAddr1, y.hdr.GetQosTid) ∉ b.m_blockedQosPackets := by
  rw [← IsBlocked_iff]
  unfold eligible
  cases y.hdr.IsQosData <;> cases b.IsBlocked y.hdr.GetAddr1 y.hdr.GetQosTid <;> simp

/-- C8. On a queue whose counter agrees with its list, after `Cleanup`
(whose events are the only ones fired), `DequeueFirstAvailable` returns the
first entry in queue order that is not QoS data or whose (addr1, TID) pair is
not in the blocked set, with its header and time stamp, and removes exactly
that entry: the size drops by 1 and the other entries keep their order.  If
every remaining entry is QoS data with a blocked pair, it returns absent and
leaves the cleaned queue as it is.  For entries A→X, B→Y, C→X enqueued in that
order with X blocked it returns B, and a second call with X still blocked
returns absent while A and C stay queued in that order. -/
theorem DequeueFirstAvailable_spec (now : Time) (q : WifiMacQueue)
    (b : QosBlockedDestinations) (hq : Counted q) :
    (DequeueFirstAvailable now q b).2.1 = (Cleanup now q).2 ∧
    (∀ (pre : List Item) (x : Item) (post : List Item),
      (Cleanup now q).1.m_queue = pre ++ x :: post →
      (∀ y ∈ pre, y.hdr.IsQosData = true ∧
        (y.hdr.GetAddr1, y.hdr.GetQosTid) ∈ b.m_blockedQosPackets) →
      (x.hdr.IsQosData = false ∨ (x.hdr.GetAddr1, x.hdr.GetQosTid) ∉ b.m_blockedQosPackets) →
      (DequeueFirstAvailable now q b).2.2 = some (x.packet, x.hdr, x.tstamp) ∧
      (DequeueFirstAvailable now q b).1.m_queue = pre ++ post ∧
      (DequeueFirstAvailable now q b).1.m_size + 1 = (Cleanup now q).1.m_size ∧
      (DequeueFirstAvailable now q b).1.m_size = (pre ++ post).length) ∧
    ((∀ y ∈ (Cleanup now q).1.m_queue, y.hdr.IsQosData = true ∧
        (y.hdr.GetAddr1, y.hdr.GetQosTid) ∈ b.m_blockedQosPackets) →
      (DequeueFirstAvailable now q b).2.2 = none ∧
      (DequeueFirstAvailable now q b).1 = (Cleanup now q).1) ∧
    ((DequeueFirstAvailable 0
        (Enqueue2 0 (Enqueue2 0 (Enqueue2 0 (new 10 (Scenario.ms 500)) 1
          (Scenario.qosTo Scenario.X 0)).1 2 (Scenario.qosTo Scenario.Y 0)).1 3
          (Scenario.qosTo Scenario.X 0)).1
        { m_blockedQosPackets := [(Scenario.X, 0)] }).2.2
        = some (2, Scenario.qosTo Scenario.Y 0, 0) ∧
      (DequeueFirstAvailable 0
        (DequeueFirstAvailable 0
          (Enqueue2 0 (Enqueue2 0 (Enqueue2 0 (new 10 (Scenario.ms 500)) 1
            (Scenario.qosTo Scenario.X 0)).1 2 (Scenario.qosTo Scenario.Y 0)).1 3
            (Scenario.qosTo Scenario.X 0)).1
          { m_blockedQosPackets := [(Scenario.X, 0)] }).1
        { m_blockedQosPackets := [(Scenario.X, 0)] })
        = ({ m_queue := [Item.mk3 1 (Scenario.qosTo Scenario.X 0) 0,
                         Item.mk3 3 (Scenario.qosTo Scenario.X 0) 0]
             m_size := 2, m_maxSize := 10, m_maxDelay := Scenario.ms 500 }, [], none)) := by
  have hc := Cleanup_Counted now q hq
  refine ⟨?_, ?_, ?_, by decide⟩
  · simp only [DequeueFirstAvailable]
    split <;> rfl
  · intro pre x post hsplit hpre hx
    have hl := DequeueFirstAvailable_loop_found b x post ((eligible_true_iff b x).2 hx) pre
      (fun y hy => (eligible_false_iff b y).2 (hpre y hy))
    have e1 : DequeueFirstAvailable now q b
        = ({ (Cleanup now q).1 with
              m_queue := pre ++ post, m_size := decSize (Cleanup now q).1.m_size },
            (Cleanup now q).2, some (x.packet, x.hdr, x.tstamp)) := by
      simp only [DequeueFirstAvailable, hsplit, hl]
    have hlen : (Cleanup now q).1.m_size = (pre ++ post).length + 1 := by
      rw [hc.1, hsplit]; simp only [List.length_append, List.length_cons]; omega
    have hdec : decSize (Cleanup now q).1.m_size = (pre ++ post).length := by
      rw [decSize_eq _ (by omega) (by have := hc.2; rw [hc.1]; omega), hlen]; rfl
    rw [e1]
    exact ⟨rfl, rfl, by show decSize _ + 1 = _; rw [hdec, hlen], hdec⟩
  · intro hall
    have hl := DequeueFirstAvailable_loop_none b (Cleanup now q).1.m_queue
      (fun y hy => (eligible_false_iff b y).2 (hall y hy))
    have e1 : DequeueFirstAvailable now q b = ((Cleanup now q).1, (Cleanup now q).2, none) := by
      simp only [DequeueFirstAvailable, hl]
    rw [e1]
    exact ⟨rfl, rfl⟩

theorem DequeueFirstAvailable_spec_witness :
    Counted (Enqueue2 0 (new 10 (Scenario.ms 500)) 1 (Scenario.plainTo Scenario.X)).1 ∧
    (DequeueFirstAvailable (Scenario.ms 100)
        (Enqueue2 0 (new 10 (Scenario.ms 500)) 1 (Scenario.plainTo Scenario.X)).1
        { m_blockedQosPackets := [(Scenario.X, 0)] }).2.1
      = (Cleanup (Scenario.ms 100)
        (Enqueue2 0 (new 10 (Scenario.ms 500)) 1 (Scenario.plainTo Scenario.X)).1).2 :=
  ⟨by decide,
    (DequeueFirstAvailable_spec (Scenario.ms 100)
      (Enqueue2 0 (new 10 (Scenario.ms 500)) 1 (Scenario.plainTo Scenario.X)).1
      { m_blockedQosPackets := [(Scenario.X, 0)] } (by decide)).1⟩

/-- C9. For every queue state and time, `DequeueFirstAvailable` with an
empty blocked set behaves as plain `Dequeue`: both return the same frame and
header (or both return absent), leave the same queue with the same size, and
fire the same drop events. -/
theorem DequeueFirstAvailable_empty_eq_Dequeue (now : Time) (q : WifiMacQueue) :
    (DequeueFirstAvailable now q { m_blockedQosPackets := [] }).1 = (Dequeue now q).1 ∧
    (DequeueFirstAvailable now q { m_blockedQosPackets := [] }).1.m_size
      = (Dequeue now q).1.m_size ∧
    (DequeueFirstAvailable now q { m_blockedQosPackets := [] }).2.1 = (Dequeue now q).2.1 ∧
    ((DequeueFirstAvailable now q { m_blockedQosPackets := [] }).2.2).map
        (fun r => (r.1, r.2.1)) = (Dequeue now q).2.2 := by
  cases hcq : (Cleanup now q).1.m_queue with
  | nil =>
    simp [DequeueFirstAvailable, Dequeue, hcq, DequeueFirstAvailable.loop]
  | cons i rest =>
    simp [DequeueFirstAvailable, Dequeue, hcq, DequeueFirstAvailable.loop,
      QosBlockedDestinations.IsBlocked]

theorem eligible_eq (b : QosBlockedDestinations) :
    eligible b = fun it =>
      (!it.hdr.IsQosData
        || decide ((it.hdr.GetAddr1, it.hdr.GetQosTid) ∉ b.m_blockedQosPackets)) := by
  funext it
  unfold eligible
  have h := IsBlocked_iff b it.hdr.GetAddr1 it.hdr.GetQosTid
  cases hb : b.IsBlocked it.hdr.GetAddr1 it.hdr.GetQosTid
  · have : (it.hdr.GetAddr1, it.hdr.GetQosTid) ∉ b.m_blockedQosPackets := by
      intro hm; rw [h.2 hm] at hb; cases hb
    simp [this]
  · have : (it.hdr.GetAddr1, it.hdr.GetQosTid) ∈ b.m_blockedQosPackets := h.1 hb
    simp [this]

theorem PeekFirstAvailable_loop_eq (b : QosBlockedDestinations) (l : List Item) :
    PeekFirstAvailable.loop b l = l.find? (eligible b) := by
  induction l with
  | nil => rfl
  | cons it rest ih =>
    cases he : eligible b it
    · have he1 := he
      unfold eligible at he1
      simp only [PeekFirstAvailable.loop, he1, Bool.false_eq_true, if_false, ih,
        List.find?_cons, he]
    · have he1 := he
      unfold eligible at he1
      simp only [PeekFirstAvailable.loop, he1, if_true, List.find?_cons, he]

theorem PeekAvailable_loop_eq (b : QosBlockedDestinations) (k : Nat) (hk : k < 2 ^ 16) :
    ∀ (l : List Item) (count : Nat), count ≤ k →
      PeekAvailable.loop b k l count = (l.drop (k - count)).find? (eligible b) := by
  intro l
  induction l with
  | nil => intro count _; simp [PeekAvailable.loop]
  | cons it rest ih =>
    intro count hle
    by_cases hlt : count < k
    · have hmod : (count + 1) % 2 ^ 16 = count + 1 := Nat.mod_eq_of_lt (by omega)
      have hsub : k - count = (k - (count + 1)) + 1 := by omega
      simp only [PeekAvailable.loop, hlt, if_true, hmod]
      rw [ih (count + 1) (by omega), hsub, List.drop_succ_cons]
    · have hsub : k - count = 0 := by omega
      rw [hsub, List.drop_zero]
      cases he : eligible b it
      · have he1 := he
        unfold eligible at he1
        simp only [PeekAvailable.loop, hlt, if_false, he1, Bool.false_eq_true, List.find?_cons,
          he]
        rw [ih count hle, hsub, List.drop_zero]
      · have he1 := he
        unfold eligible at he1
        simp only [PeekAvailable.loop, hlt, if_false, he1, if_true, List.find?_cons, he]

/-- C10, as stated, fails.  With frame 1 for the blocked destination `X` in
front of frames 2 and 3 for `Y`, `PeekAvailable` with skip count 1 returns
frame 2, whereas the second eligible entry in queue order is frame 3. -/
theorem PeekAvailable_not_nth_eligible :
    (PeekAvailable 0 Scenario.queueXYY Scenario.blockedX 1).2.2
      = some (2, Scenario.qosTo Scenario.Y 0, 0) ∧
    (((Cleanup 0 Scenario.queueXYY).1.m_queue.filter
        (fun it => !it.hdr.IsQosData
          || decide ((it.hdr.GetAddr1, it.hdr.GetQosTid)
              ∉ Scenario.blockedX.m_blockedQosPackets)))[1]?).map
        (fun it => (it.packet, it.hdr, it.tstamp))
      = some (3, Scenario.qosTo Scenario.Y 0, 0) ∧
    (PeekAvailable 0 Scenario.queueXYY Scenario.blockedX 1).2.2
      ≠ (((Cleanup 0 Scenario.queueXYY).1.m_queue.filter
        (fun it => !it.hdr.IsQosData
          || decide ((it.hdr.GetAddr1, it.hdr.GetQosTid)
              ∉ Scenario.blockedX.m_blockedQosPackets)))[1]?).map
        (fun it => (it.packet, it.hdr, it.tstamp)) := by
  decide

/-- C10, amended.  `PeekAvailable (blockedSet, k)`, `k` a `uint16_t`, runs
`Cleanup` and then skips the first `k` entries of the queue, eligible or not:
it returns the first eligible entry among the entries after them (eligible:
not QoS data, or its (addr1, TID) pair not blocked), with its header and time
stamp, or absent if there is none.  It removes nothing: the queue, the size
and the events are those of `Cleanup` alone.  With `k = 0` it is
`PeekFirstAvailable`. -/
theorem PeekAvailable_spec (now : Time) (q : WifiMacQueue) (b : QosBlockedDestinations)
    (k : Nat) (hk : k < 2 ^ 16) :
    (PeekAvailable now q b k).1 = (Cleanup now q).1 ∧
    (PeekAvailable now q b k).2.1 = (Cleanup now q).2 ∧
    (PeekAvailable now q b k).2.2
      = (((Cleanup now q).1.m_queue.drop k).find?
          (fun it => !it.hdr.IsQosData
            || decide ((it.hdr.GetAddr1, it.hdr.GetQosTid) ∉ b.m_blockedQosPackets))).map
          (fun it => (it.packet, it.hdr, it.tstamp)) ∧
    PeekAvailable now q b 0 = PeekFirstAvailable now q b := by
  have hloop := PeekAvailable_loop_eq b k hk (Cleanup now q).1.m_queue 0 (Nat.zero_le _)
  have hloop0 := PeekAvailable_loop_eq b 0 (by decide) (Cleanup now q).1.m_queue 0
    (Nat.le_refl _)
  rw [Nat.sub_zero] at hloop hloop0
  rw [List.drop_zero] at hloop0
  rw [← eligible_eq]
  refine ⟨?_, ?_, ?_, ?_⟩
  · simp only [PeekAvailable]; split <;> rfl
  · simp only [PeekAvailable]; split <;> rfl
  · simp only [PeekAvailable, hloop]
    cases ((Cleanup now q).1.m_queue.drop k).find? (eligible b) <;> rfl
  · simp only [PeekAvailable, PeekFirstAvailable, hloop0, PeekFirstAvailable_loop_eq]

theorem PeekAvailable_spec_witness :
    (1 : Nat) < 2 ^ 16 ∧
    (PeekAvailable 0 Scenario.queueXYY Scenario.blockedX 1).2.2
      = (((Cleanup 0 Scenario.queueXYY).1.m_queue.drop 1).find?
          (fun it => !it.hdr.IsQosData
            || decide ((it.hdr.GetAddr1, it.hdr.GetQosTid)
                ∉ Scenario.blockedX.m_blockedQosPackets))).map
          (fun it => (it.packet, it.hdr, it.tstamp)) :=
  ⟨by decide, (PeekAvailable_spec 0 Scenario.queueXYY Scenario.blockedX 1 (by decide)).2.2.1⟩

end WifiMacQueue

end ns3

/-! ## The station registry: single calls on a reachable registry -/

namespace SdnLab

namespace StationList

theorem reach_Reg (capOf : Nat → Nat) (memorySize n : Nat) (hn : n < 2 ^ 32)
    (cs : List PacketContext) (l : StationList)
    (hreach : addAll capOf (Create memorySize n) cs = some l) :
    ∃ occ, Reg n l occ ∧
      occ.map (fun s => s.address) = creations capOf (Create memorySize n) cs := by
  obtain ⟨l1, occ, h1, hreg, hocc⟩ :=
    addAll_Reg capOf n hn cs _ [] (Reg_Create memorySize n)
  rw [hreach] at h1
  cases h1
  exact ⟨occ, hreg, by simpa using hocc⟩

theorem Reg_slot_occupied (n : Nat) (l : StationList) (occ : List Station) (h : Reg n l occ)
    (i : Nat) (s : Station) (hi : occ[i]? = some s) :
    readSlot l.staList i = some (some s) := by
  obtain ⟨hil, hie⟩ := List.getElem?_eq_some.1 hi
  obtain ⟨_, _, hle, _, _, harr⟩ := h
  rw [harr (by omega)]
  simp only [readSlot]
  rw [List.getElem?_append_left (by simpa using hil)]
  simp [hi]

theorem Reg_slot_free (n : Nat) (l : StationList) (occ : List Station) (h : Reg n l occ)
    (i : Nat) (h1 : occ.length ≤ i) (h2 : i < n) :
    readSlot l.staList i = some none := by
  obtain ⟨_, _, hle, _, _, harr⟩ := h
  rw [harr (by omega)]
  simp only [readSlot]
  rw [List.getElem?_append_right (by simpa using h1), List.getElem?_replicate]
  simp only [List.length_map]
  rw [if_pos (by omega)]

theorem Reg_slot_beyond (n : Nat) (l : StationList) (occ : List Station) (h : Reg n l occ)
    (i : Nat) (h2 : n ≤ i) :
    readSlot l.staList i = none := by
  obtain ⟨_, _, hle, _, hnull, harr⟩ := h
  rcases Nat.eq_zero_or_pos n with h0 | hpos
  · rw [hnull h0]; rfl
  · rw [harr hpos]
    simp only [readSlot]
    rw [List.getElem?_append_right (by simp; omega), List.getElem?_replicate]
    simp only [List.length_map]
    rw [if_neg (by omega)]

theorem Reg_registered_iff (n : Nat) (l : StationList) (occ : List Station) (h : Reg n l occ)
    (addr : Mac48Address) :
    (∃ i s, readSlot l.staList i = some (some s) ∧ s.address = addr) ↔
      ∃ s ∈ occ, s.address = addr := by
  constructor
  · rintro ⟨i, s, hi, hs⟩
    exact ⟨s, List.getElem?_mem (Reg_readSlot n l occ h i s hi), hs⟩
  · rintro ⟨s, hmem, hs⟩
    obtain ⟨i, hi⟩ := List.getElem?_of_mem hmem
    exact ⟨i, s, Reg_slot_occupied n l occ h i s hi, hs⟩

theorem Reg_free_iff (n : Nat) (l : StationList) (occ : List Station) (h : Reg n l occ) :
    (∃ i, i < n ∧ readSlot l.staList i = some none) ↔ occ.length < n := by
  constructor
  · rintro ⟨i, hin, hi⟩
    rcases Nat.lt_or_ge i occ.length with hlt | hge
    · obtain ⟨s, hs⟩ : ∃ s, occ[i]? = some s := ⟨occ[i], List.getElem?_eq_getElem hlt⟩
      rw [Reg_slot_occupied n l occ h i s hs] at hi
      cases hi
    · omega
  · intro hlt
    exact ⟨occ.length, hlt, Reg_slot_free n l occ h occ.length (Nat.le_refl _) hlt⟩

theorem Reg_scan_found (n : Nat) (l : StationList) (occ : List Station) (h : Reg n l occ)
    (addr : Mac48Address) (a b : List Station) (s : Station) (hocc : occ = a ++ s :: b)
    (hs : s.address = addr) :
    scan l.staList addr l.staListMaxLen 0 = some (a.length, false, true) ∧
      readSlot l.staList a.length = some (some s) := by
  subst hocc
  have hslot := Reg_slot_occupied n l (a ++ s :: b) h a.length s
    (by rw [List.getElem?_append_right (Nat.le_refl _)]; simp)
  obtain ⟨hmax, _, hle, hnd, _, harr⟩ := h
  have hpos : 0 < n := by
    simp only [List.length_append, List.length_cons] at hle; omega
  obtain ⟨k, rfl⟩ : ∃ k, n = (a ++ s :: b).length + k := ⟨n - (a ++ s :: b).length, by omega⟩
  have harr1 := harr hpos
  simp only [Nat.add_sub_cancel_left] at harr1
  have ha : ∀ t ∈ a, t.address ≠ addr := by
    intro t ht heq
    rw [List.map_append, List.map_cons, List.nodup_append] at hnd
    exact hnd.2.2 (List.mem_map.2 ⟨t, ht, rfl⟩) (List.mem_cons.2 (Or.inl (heq.trans hs.symm)))
  refine ⟨?_, hslot⟩
  rw [harr1, hmax]
  exact scan_found addr a b s k ha hs

theorem Reg_scan_free (n : Nat) (l : StationList) (occ : List Station) (h : Reg n l occ)
    (addr : Mac48Address) (ha : ∀ t ∈ occ, t.address ≠ addr) (hlt : occ.length < n) :
    scan l.staList addr l.staListMaxLen 0 = some (occ.length, true, true) := by
  obtain ⟨hmax, _, hle, hnd, _, harr⟩ := h
  obtain ⟨k, rfl⟩ : ∃ k, n = occ.length + k := ⟨n - occ.length, by omega⟩
  have harr1 := harr (by omega)
  simp only [Nat.add_sub_cancel_left] at harr1
  rw [harr1, hmax]
  exact scan_free addr occ k ha (by omega)

theorem Reg_scan_full (n : Nat) (l : StationList) (occ : List Station) (h : Reg n l occ)
    (addr : Mac48Address) (ha : ∀ t ∈ occ, t.address ≠ addr) (hfull : ¬ occ.length < n) :
    scan l.staList addr l.staListMaxLen 0 = some (occ.length, false, false) := by
  obtain ⟨hmax, _, hle, hnd, _, harr⟩ := h
  have hlen : occ.length = n := by omega
  rcases Nat.eq_zero_or_pos n with h0 | hpos
  · rw [hmax, h0]
    have : occ.length = 0 := by omega
    rw [this]
    rfl
  · have harr1 := harr hpos
    rw [harr1, hmax, ← hlen, Nat.sub_self]
    exact scan_full addr occ ha

theorem readSlot_set_eq (slots : List (Option Station)) (i : Nat) (x : Option Station)
    (hi : i < slots.length) : readSlot (some (slots.set i x)) i = some x := by
  simp [readSlot, List.getElem?_set, hi]

theorem readSlot_set_ne (slots : List (Option Station)) (i j : Nat) (x : Option Station)
    (hij : j ≠ i) : readSlot (some (slots.set i x)) j = readSlot (some slots) j := by
  simp only [readSlot]
  rw [List.getElem?_set_ne (Ne.symm hij)]

theorem readSlot_some (arr : SlotArray) (i : Nat) (x : Option Station)
    (h : readSlot arr i = some x) : ∃ slots, arr = some slots ∧ slots[i]? = some x ∧
      i < slots.length := by
  cases arr with
  | none => cases h
  | some slots =>
    refine ⟨slots, rfl, h, ?_⟩
    rcases Nat.lt_or_ge i slots.length with hlt | hge
    · exact hlt
    · simp only [readSlot] at h
      rw [List.getElem?_eq_none hge] at h
      cases h

theorem create_AddData (capOf : Nat → Nat) (addr : Mac48Address) (memSize : Nat)
    (e r p b : F64) :
    (Station.create capOf addr memSize).AddData e r p b
      = { address := addr, memSize := memSize, sampleCapacity := capOf memSize,
          samples := [{ endTime := e, snr := r, rxPower := p, bandwidth := b }],
          lastBeaconTime := 0, lastBeaconRxPower := 0 } := by
  unfold Station.AddData Station.create
  split <;> rfl

theorem Reg_call_noop (capOf : Nat → Nat) (n : Nat) (l : StationList) (occ : List Station)
    (c : PacketContext) (h : Reg n l occ)
    (hnoop : c.IsEmpty = true ∨ c.GetSourMacAddr = MAC_BROADCAST_ADDR ∨
      ((∀ t ∈ occ, t.address ≠ c.GetSourMacAddr) ∧ ¬ occ.length < n)) :
    AddStationOrContext capOf l c = some (l, false) := by
  by_cases hemp : c.IsEmpty = true
  · simp [AddStationOrContext, hemp]
  by_cases hb : c.GetSourMacAddr = MAC_BROADCAST_ADDR
  · simp [AddStationOrContext, hemp, hb]
  have hemp1 : c.IsEmpty = false := by simpa using hemp
  rcases hnoop with h1 | h1 | ⟨ha, hfull⟩
  · exact absurd h1 hemp
  · exact absurd h1 hb
  · exact AddStationOrContext_skip capOf l c _ hemp1 hb
      (Reg_scan_full n l occ h c.GetSourMacAddr ha hfull)

theorem Reg_call_update (capOf : Nat → Nat) (n : Nat) (l : StationList) (occ : List Station)
    (c : PacketContext) (h : Reg n l occ) (hemp : c.IsEmpty = false)
    (hb : c.GetSourMacAddr ≠ MAC_BROADCAST_ADDR) (a b : List Station) (s : Station)
    (hocc : occ = a ++ s :: b) (hs : s.address = c.GetSourMacAddr) :
    ∃ slots, l.staList = some slots ∧ slots[a.length]? = some (some s) ∧
      a.length < slots.length ∧
      AddStationOrContext capOf l c = some ({ l with staList := some (slots.set a.length
        (some (s.AddData c.GetEndTime c.GetSnr c.GetRxPower c.GetBandwidth))) }, true) := by
  obtain ⟨hscan, hslot⟩ := Reg_scan_found n l occ h c.GetSourMacAddr a b s hocc hs
  obtain ⟨slots, harr, hget, hlt⟩ := readSlot_some _ _ _ hslot
  exact ⟨slots, harr, hget, hlt,
    AddStationOrContext_update capOf l c a.length slots s hemp hb hscan harr hget⟩

theorem Reg_call_create (capOf : Nat → Nat) (n : Nat) (hn : n < 2 ^ 32) (l : StationList)
    (occ : List Station) (c : PacketContext) (h : Reg n l occ) (hemp : c.IsEmpty = false)
    (hb : c.GetSourMacAddr ≠ MAC_BROADCAST_ADDR)
    (ha : ∀ t ∈ occ, t.address ≠ c.GetSourMacAddr) (hfree : occ.length < n) :
    ∃ slots, l.staList = some slots ∧ slots[occ.length]? = some none ∧
      occ.length < slots.length ∧
      AddStationOrContext capOf l c = some ({ l with
        staList := some (slots.set occ.length (some ((Station.create capOf c.GetSourMacAddr
          l.staMemSize).AddData c.GetEndTime c.GetSnr c.GetRxPower c.GetBandwidth)))
        staListLen := occ.length + 1 }, true) := by
  have hscan := Reg_scan_free n l occ h c.GetSourMacAddr ha hfree
  have hslot := Reg_slot_free n l occ h occ.length (Nat.le_refl _) hfree
  obtain ⟨slots, harr, hget, hlt⟩ := readSlot_some _ _ _ hslot
  have hcall := AddStationOrContext_create capOf l c occ.length slots hemp hb hscan harr hlt
  have hmod : (l.staListLen + 1) % 2 ^ 32 = occ.length + 1 := by
    rw [h.2.1]; exact Nat.mod_eq_of_lt (by omega)
  rw [hmod] at hcall
  exact ⟨slots, harr, hget, hlt, hcall⟩

/-- Every context is in exactly one of the three cases of a call. -/
theorem Reg_call_cases (n : Nat) (l : StationList) (occ : List Station) (c : PacketContext)
    (h : Reg n l occ) :
    (c.IsEmpty = true ∨ c.GetSourMacAddr = MAC_BROADCAST_ADDR ∨
      ((∀ t ∈ occ, t.address ≠ c.GetSourMacAddr) ∧ ¬ occ.length < n)) ∨
    (c.IsEmpty = false ∧ c.GetSourMacAddr ≠ MAC_BROADCAST_ADDR ∧
      ∃ a s b, occ = a ++ s :: b ∧ s.address = c.GetSourMacAddr) ∨
    (c.IsEmpty = false ∧ c.GetSourMacAddr ≠ MAC_BROADCAST_ADDR ∧
      (∀ t ∈ occ, t.address ≠ c.GetSourMacAddr) ∧ occ.length < n) := by
  by_cases hemp : c.IsEmpty = true
  · exact Or.inl (Or.inl hemp)
  by_cases hb : c.GetSourMacAddr = MAC_BROADCAST_ADDR
  · exact Or.inl (Or.inr (Or.inl hb))
  have hemp1 : c.IsEmpty = false := by simpa using hemp
  by_cases hmem : ∃ s ∈ occ, s.address = c.GetSourMacAddr
  · obtain ⟨s, hs, hsa⟩ := hmem
    obtain ⟨a, b, rfl⟩ := List.append_of_mem hs
    exact Or.inr (Or.inl ⟨hemp1, hb, a, s, b, rfl, hsa⟩)
  · have ha : ∀ t ∈ occ, t.address ≠ c.GetSourMacAddr := fun t ht heq => hmem ⟨t, ht, heq⟩
    by_cases hfree : occ.length < n
    · exact Or.inr (Or.inr ⟨hemp1, hb, ha, hfree⟩)
    · exact Or.inl (Or.inr (Or.inr ⟨ha, hfree⟩))

/-- C11. On a registry reached from `Create` by `AddStationOrContext` calls,
a call returns (without a fault) `true` if and only if the context is not
empty, its source address is not the broadcast address, and that address is
already held by a slot or a free slot exists.  When it returns `true`, one
sample (the context's) was appended by `AddData` to one record: the record of
a slot that was occupied, or the record newly created in a slot that was free.
When it returns `false` (empty context, broadcast address, or unknown address
with the registry full) the registry is unchanged, so nothing was appended. -/
theorem AddStationOrContext_true_iff (capOf : Nat → Nat) (memorySize n : Nat)
    (hn : n < 2 ^ 32) (cs : List PacketContext) (l : StationList)
    (hreach : addAll capOf (Create memorySize n) cs = some l) (c : PacketContext) :
    ∃ l1 b, AddStationOrContext capOf l c = some (l1, b) ∧
      (b = true ↔
        (c.IsEmpty = false ∧ c.GetSourMacAddr ≠ MAC_BROADCAST_ADDR ∧
          ((∃ i s, readSlot l.staList i = some (some s) ∧ s.address = c.GetSourMacAddr) ∨
            (∃ i, i < n ∧ readSlot l.staList i = some none)))) ∧
      (b = true → ∃ i s,
        (readSlot l.staList i = some (some s) ∨
          (readSlot l.staList i = some none ∧
            s = Station.create capOf c.GetSourMacAddr l.staMemSize)) ∧
        readSlot l1.staList i
          = some (some (s.AddData c.GetEndTime c.GetSnr c.GetRxPower c.GetBandwidth))) ∧
      (b = false → l1 = l) := by
  obtain ⟨occ, hreg, _⟩ := reach_Reg capOf memorySize n hn cs l hreach
  rcases Reg_call_cases n l occ c hreg with hnoop | ⟨hemp, hb, a, s, b, hocc, hs⟩
    | ⟨hemp, hb, ha, hfree⟩
  · refine ⟨l, false, Reg_call_noop capOf n l occ c hreg hnoop, ?_, ?_, fun _ => rfl⟩
    · constructor
      · intro h; cases h
      · rintro ⟨hemp, hb, hor⟩
        rcases hnoop with h1 | h1 | ⟨ha, hfull⟩
        · rw [hemp] at h1; cases h1
        · exact absurd h1 hb
        · rcases hor with hr | hf
          · obtain ⟨t, ht, hta⟩ := (Reg_registered_iff n l occ hreg _).1 hr
            exact absurd hta (ha t ht)
          · exact absurd ((Reg_free_iff n l occ hreg).1 hf) hfull
    · intro h; cases h
  · obtain ⟨slots, harr, hget, hlt, hcall⟩ :=
      Reg_call_update capOf n l occ c hreg hemp hb a b s hocc hs
    have hslot : readSlot l.staList a.length = some (some s) := by rw [harr]; exact hget
    refine ⟨_, true, hcall, ?_, ?_, ?_⟩
    · exact ⟨fun _ => ⟨hemp, hb, Or.inl ⟨a.length, s, hslot, hs⟩⟩, fun _ => rfl⟩
    · intro _
      exact ⟨a.length, s, Or.inl hslot, readSlot_set_eq slots a.length _ hlt⟩
    · intro h; cases h
  · obtain ⟨slots, harr, hget, hlt, hcall⟩ :=
      Reg_call_create capOf n hn l occ c hreg hemp hb ha hfree
    have hslot : readSlot l.staList occ.length = some none := by rw [harr]; exact hget
    refine ⟨_, true, hcall, ?_, ?_, ?_⟩
    · exact ⟨fun _ => ⟨hemp, hb, Or.inr ((Reg_free_iff n l occ hreg).2 hfree)⟩, fun _ => rfl⟩
    · intro _
      exact ⟨occ.length, _, Or.inr ⟨hslot, rfl⟩, readSlot_set_eq slots occ.length _ hlt⟩
    · intro h; cases h

theorem AddStationOrContext_true_iff_witness :
    ((2 : Nat) < 2 ^ 32 ∧
      addAll Scenario.capOf (Create 1000 2)
        [Scenario.obs Scenario.M1 1, Scenario.obs Scenario.M2 2] = some Scenario.regM1M2) ∧
    ∃ l1 b, AddStationOrContext Scenario.capOf Scenario.regM1M2 (Scenario.obs Scenario.M3 3)
        = some (l1, b) ∧
      (b = true ↔
        ((Scenario.obs Scenario.M3 3).IsEmpty = false ∧
          (Scenario.obs Scenario.M3 3).GetSourMacAddr ≠ MAC_BROADCAST_ADDR ∧
          ((∃ i s, readSlot Scenario.regM1M2.staList i = some (some s) ∧
              s.address = (Scenario.obs Scenario.M3 3).GetSourMacAddr) ∨
            (∃ i, i < 2 ∧ readSlot Scenario.regM1M2.staList i = some none)))) ∧
      (b = true → ∃ i s,
        (readSlot Scenario.regM1M2.staList i = some (some s) ∨
          (readSlot Scenario.regM1M2.staList i = some none ∧
            s = Station.create Scenario.capOf (Scenario.obs Scenario.M3 3).GetSourMacAddr
              Scenario.regM1M2.staMemSize)) ∧
        readSlot l1.staList i
          = some (some (s.AddData (Scenario.obs Scenario.M3 3).GetEndTime
              (Scenario.obs Scenario.M3 3).GetSnr (Scenario.obs Scenario.M3 3).GetRxPower
              (Scenario.obs Scenario.M3 3).GetBandwidth))) ∧
      (b = false → l1 = Scenario.regM1M2) :=
  ⟨⟨by decide, by decide⟩,
    AddStationOrContext_true_iff Scenario.capOf 1000 2 (by decide)
      [Scenario.obs Scenario.M1 1, Scenario.obs Scenario.M2 2] Scenario.regM1M2 (by decide)
      (Scenario.obs Scenario.M3 3)⟩

/-- C12. On a registry reached from `Create` by `AddStationOrContext` calls,
a call with an empty context, with the broadcast source address, or with an
address held by no slot when no slot is free, returns `false` without a fault
and leaves the registry exactly as it was: same count, same slots, no record
created, no sample appended.  This covers a registry created with capacity 0,
on which every call is such a no-op; and an observation from the broadcast
address never creates a record and never changes `GetN ()`. -/
theorem AddStationOrContext_noop (capOf : Nat → Nat) (memorySize n : Nat)
    (hn : n < 2 ^ 32) (cs : List PacketContext) (l : StationList)
    (hreach : addAll capOf (Create memorySize n) cs = some l) (c : PacketContext)
    (hnoop : c.IsEmpty = true ∨ c.GetSourMacAddr = MAC_BROADCAST_ADDR ∨
      ((¬ ∃ i s, readSlot l.staList i = some (some s) ∧ s.address = c.GetSourMacAddr) ∧
        ¬ ∃ i, i < n ∧ readSlot l.staList i = some none)) :
    AddStationOrContext capOf l c = some (l, false) ∧
    (∀ c0 : PacketContext,
      AddStationOrContext capOf (Create memorySize 0) c0 = some (Create memorySize 0, false)) ∧
    (∀ c0 : PacketContext, c0.GetSourMacAddr = MAC_BROADCAST_ADDR →
      ∃ b, AddStationOrContext capOf l c0 = some (l, b)) := by
  obtain ⟨occ, hreg, _⟩ := reach_Reg capOf memorySize n hn cs l hreach
  refine ⟨?_, ?_, ?_⟩
  · apply Reg_call_noop capOf n l occ c hreg
    rcases hnoop with h1 | h1 | ⟨hunk, hfull⟩
    · exact Or.inl h1
    · exact Or.inr (Or.inl h1)
    · refine Or.inr (Or.inr ⟨?_, ?_⟩)
      · intro t ht hta
        exact hunk ((Reg_registered_iff n l occ hreg _).2 ⟨t, ht, hta⟩)
      · intro hfree
        exact hfull ((Reg_free_iff n l occ hreg).2 hfree)
  · intro c0
    apply Reg_call_noop capOf 0 (Create memorySize 0) [] c0 (Reg_Create memorySize 0)
    refine Or.inr (Or.inr ⟨?_, ?_⟩)
    · intro t ht; cases ht
    · exact Nat.lt_irrefl 0
  · intro c0 hb
    exact ⟨false, Reg_call_noop capOf n l occ c0 hreg (Or.inr (Or.inl hb))⟩

theorem AddStationOrContext_noop_witness :
    ((2 : Nat) < 2 ^ 32 ∧
      addAll Scenario.capOf (Create 1000 2)
        [Scenario.obs Scenario.M1 1, Scenario.obs Scenario.M2 2] = some Scenario.regM1M2 ∧
      ((Scenario.obs Scenario.M3 3).IsEmpty = true ∨
        (Scenario.obs Scenario.M3 3).GetSourMacAddr = MAC_BROADCAST_ADDR ∨
        ((¬ ∃ i s, readSlot Scenario.regM1M2.staList i = some (some s) ∧
            s.address = (Scenario.obs Scenario.M3 3).GetSourMacAddr) ∧
          ¬ ∃ i, i < 2 ∧ readSlot Scenario.regM1M2.staList i = some none))) ∧
    AddStationOrContext Scenario.capOf Scenario.regM1M2 (Scenario.obs Scenario.M3 3)
      = some (Scenario.regM1M2, false) :=
  have hfull : (Scenario.obs Scenario.M3 3).IsEmpty = true ∨
      (Scenario.obs Scenario.M3 3).GetSourMacAddr = MAC_BROADCAST_ADDR ∨
      ((¬ ∃ i s, readSlot Scenario.regM1M2.staList i = some (some s) ∧
          s.address = (Scenario.obs Scenario.M3 3).GetSourMacAddr) ∧
        ¬ ∃ i, i < 2 ∧ readSlot Scenario.regM1M2.staList i = some none) := by
    refine Or.inr (Or.inr ⟨?_, ?_⟩)
    · rintro ⟨i, s, hi, hs⟩
      match i, hi with
      | 0, hi => cases hi; revert hs; decide
      | 1, hi => cases hi; revert hs; decide
      | _ + 2, hi => cases hi
    · rintro ⟨i, hi, hs⟩
      match i, hi, hs with
      | 0, _, hs => cases hs
      | 1, _, hs => cases hs
  ⟨⟨by decide, by decide, hfull⟩,
    (AddStationOrContext_noop Scenario.capOf 1000 2 (by decide)
      [Scenario.obs Scenario.M1 1, Scenario.obs Scenario.M2 2] Scenario.regM1M2 (by decide)
      (Scenario.obs Scenario.M3 3) hfull).1⟩

theorem Reg_step_addresses (capOf : Nat → Nat) (n : Nat) (hn : n < 2 ^ 32)
    (l : StationList) (occ : List Station) (c : PacketContext) (h : Reg n l occ) :
    ∃ l1 b occ1, AddStationOrContext capOf l c = some (l1, b) ∧ Reg n l1 occ1 ∧
      ((c.IsEmpty = false ∧ c.GetSourMacAddr ≠ MAC_BROADCAST_ADDR ∧
          (∀ t ∈ occ, t.address ≠ c.GetSourMacAddr) ∧ occ.length < n) →
        occ1.map (fun s => s.address) = occ.map (fun s => s.address) ++ [c.GetSourMacAddr]) ∧
      (¬ (c.IsEmpty = false ∧ c.GetSourMacAddr ≠ MAC_BROADCAST_ADDR ∧
          (∀ t ∈ occ, t.address ≠ c.GetSourMacAddr) ∧ occ.length < n) →
        occ1.map (fun s => s.address) = occ.map (fun s => s.address)) := by
  obtain ⟨l1, b, occ1, hcall, hreg1, hocc1⟩ := AddStationOrContext_Reg capOf n hn l occ c h
  refine ⟨l1, b, occ1, hcall, hreg1, ?_, ?_⟩
  · rintro ⟨hemp, hb, ha, hfree⟩
    obtain ⟨slots, _, _, _, hcall2⟩ := Reg_call_create capOf n hn l occ c h hemp hb ha hfree
    rw [hcall] at hcall2
    simp only [Option.some.injEq, Prod.mk.injEq] at hcall2
    have hne : ¬ l1.GetN = l.GetN := by
      rw [hcall2.1]
      show ¬ occ.length + 1 = l.staListLen
      rw [h.2.1]; omega
    rw [hocc1, if_neg hne]
  · intro hnot
    have hsame : l1.GetN = l.GetN := by
      rcases Reg_call_cases n l occ c h with hnoop | ⟨hemp, hb, a, s, b0, ho, hs⟩ | hcr
      · have h2 := Reg_call_noop capOf n l occ c h hnoop
        rw [hcall] at h2
        simp only [Option.some.injEq, Prod.mk.injEq] at h2
        rw [h2.1]
      · obtain ⟨slots, _, _, _, h2⟩ := Reg_call_update capOf n l occ c h hemp hb a b0 s ho hs
        rw [hcall] at h2
        simp only [Option.some.injEq, Prod.mk.injEq] at h2
        rw [h2.1]
        rfl
      · exact absurd hcr hnot
    rw [hocc1, if_pos hsame, List.append_nil]

theorem filter_not_mem_snoc (S T : List Mac48Address) (a : Mac48Address) :
    T.filter (fun x => decide (x ∉ S ++ [a]))
      = (T.filter (fun x => decide (x ≠ a))).filter (fun x => decide (x ∉ S)) := by
  rw [List.filter_filter]
  apply List.filter_congr
  intro x _
  by_cases h1 : x ∈ S <;> by_cases h2 : x = a <;> simp [h1, h2]

theorem filter_not_mem_of_mem (S T : List Mac48Address) (a : Mac48Address) (ha : a ∈ S) :
    (T.filter (fun x => decide (x ≠ a))).filter (fun x => decide (x ∉ S))
      = T.filter (fun x => decide (x ∉ S)) := by
  rw [List.filter_filter]
  apply List.filter_congr
  intro x _
  by_cases h1 : x ∈ S
  · simp [h1]
  · have h2 : x ≠ a := fun e => h1 (e ▸ ha)
    simp [h1, h2]

theorem observed_cons (c : PacketContext) (cs : List PacketContext) :
    observed (c :: cs)
      = if c.IsEmpty = false ∧ c.GetSourMacAddr ≠ MAC_BROADCAST_ADDR then
          c.GetSourMacAddr :: observed cs
        else observed cs := by
  unfold observed
  by_cases hemp : c.IsEmpty = false <;> by_cases hb : c.GetSourMacAddr = MAC_BROADCAST_ADDR <;>
    simp [hemp, hb]

theorem addAll_first_seen (capOf : Nat → Nat) (n : Nat) (hn : n < 2 ^ 32) :
    ∀ (cs : List PacketContext) (l : StationList) (occ : List Station), Reg n l occ →
      ∃ l1 occ1, addAll capOf l cs = some l1 ∧ Reg n l1 occ1 ∧
        occ1.map (fun s => s.address)
          = (occ.map (fun s => s.address) ++ (firstDistinct (observed cs)).filter
              (fun x => decide (x ∉ occ.map (fun s => s.address)))).take n := by
  intro cs
  induction cs with
  | nil =>
    intro l occ h
    refine ⟨l, occ, rfl, h, ?_⟩
    simp only [observed, List.filter_nil, List.map_nil, firstDistinct, List.append_nil]
    rw [List.take_of_length_le (by simpa using h.2.2.1)]
  | cons c cs ih =>
    intro l occ h
    obtain ⟨l1, b, occ1, hcall, hreg1, hcr, hnc⟩ := Reg_step_addresses capOf n hn l occ c h
    obtain ⟨l2, occ2, hall, hreg2, hocc2⟩ := ih l1 occ1 hreg1
    refine ⟨l2, occ2, by simp only [addAll, hcall]; exact hall, hreg2, ?_⟩
    rw [hocc2, observed_cons]
    have hlen : (occ.map (fun s => s.address)).length ≤ n := by simpa using h.2.2.1
    by_cases hobs : c.IsEmpty = false ∧ c.GetSourMacAddr ≠ MAC_BROADCAST_ADDR
    · rw [if_pos hobs]
      simp only [firstDistinct]
      by_cases hmem : c.GetSourMacAddr ∈ occ.map (fun s => s.address)
      · -- registered: the sample goes to the known record
        have hnot : ¬ (c.IsEmpty = false ∧ c.GetSourMacAddr ≠ MAC_BROADCAST_ADDR ∧
            (∀ t ∈ occ, t.address ≠ c.GetSourMacAddr) ∧ occ.length < n) := by
          rintro ⟨_, _, ha, _⟩
          obtain ⟨t, ht, hta⟩ := List.mem_map.1 hmem
          exact ha t ht hta
        rw [hnc hnot, List.filter_cons_of_neg (by simpa using hmem),
          filter_not_mem_of_mem _ _ _ hmem]
      · have ha : ∀ t ∈ occ, t.address ≠ c.GetSourMacAddr :=
          fun t ht hta => hmem (List.mem_map.2 ⟨t, ht, hta⟩)
        rw [List.filter_cons_of_pos (by simpa using hmem)]
        by_cases hfree : occ.length < n
        · -- created
          rw [hcr ⟨hobs.1, hobs.2, ha, hfree⟩, filter_not_mem_snoc, List.append_assoc]
          rfl
        · -- full: dropped
          have hnot : ¬ (c.IsEmpty = false ∧ c.GetSourMacAddr ≠ MAC_BROADCAST_ADDR ∧
              (∀ t ∈ occ, t.address ≠ c.GetSourMacAddr) ∧ occ.length < n) :=
            fun hh => hfree hh.2.2.2
          have hfull : (occ.map (fun s => s.address)).length = n := by
            simp only [List.length_map] at hlen ⊢; omega
          rw [hnc hnot, List.take_left' hfull, List.take_left' hfull]
    · rw [if_neg hobs]
      have hnot : ¬ (c.IsEmpty = false ∧ c.GetSourMacAddr ≠ MAC_BROADCAST_ADDR ∧
          (∀ t ∈ occ, t.address ≠ c.GetSourMacAddr) ∧ occ.length < n) :=
        fun hh => hobs ⟨hh.1, hh.2.1⟩
      rw [hnc hnot]

/-- C13. For every sequence of `AddStationOrContext` calls on a fresh
registry of capacity `n`, the calls return without a fault and the registry
holds exactly the first `min d n` distinct non-broadcast source addresses of
the non-empty contexts, in the order in which they were first observed (`d`
their number): `GetN () = min d n`, `Get (i)` is a record whose address is the
`i`-th of them for `i < GetN ()`, and `Get (i)` is `NULL` for `i ≥ GetN ()`.
With capacity 2 and observations `M1`, `M2`, `M3` in that order, `GetN () = 2`,
`Get (0)` is the record of `M1`, `Get (1)` that of `M2`, and no record has the
address `M3`. -/
theorem slots_first_seen_order (capOf : Nat → Nat) (memorySize n : Nat) (hn : n < 2 ^ 32)
    (cs : List PacketContext) :
    (∃ l, addAll capOf (Create memorySize n) cs = some l ∧
      l.GetN = min (firstDistinct (observed cs)).length n ∧
      (∀ i, i < l.GetN → ∃ s, l.Get i = some (some s) ∧
        (firstDistinct (observed cs))[i]? = some s.address) ∧
      (∀ i, l.GetN ≤ i → l.Get i = some none)) ∧
    (addAll Scenario.capOf (Create 1000 2)
        [Scenario.obs Scenario.M1 1, Scenario.obs Scenario.M2 2, Scenario.obs Scenario.M3 3]
        = some Scenario.regM1M2 ∧
      Scenario.regM1M2.GetN = 2 ∧
      Scenario.regM1M2.Get 0 = some (some (Scenario.stationOf Scenario.M1 1)) ∧
      Scenario.regM1M2.Get 1 = some (some (Scenario.stationOf Scenario.M2 2)) ∧
      (∀ i s, Scenario.regM1M2.Get i = some (some s) → s.address ≠ Scenario.M3)) := by
  constructor
  · obtain ⟨l, occ, hall, hreg, hocc⟩ :=
      addAll_first_seen capOf n hn cs _ [] (Reg_Create memorySize n)
    simp only [List.map_nil, List.nil_append, List.not_mem_nil, not_false_eq_true,
      decide_True, List.filter_true] at hocc
    have hlen : l.staListLen = min (firstDistinct (observed cs)).length n := by
      rw [hreg.2.1, ← List.length_map occ (fun s => s.address), hocc, List.length_take,
        Nat.min_comm]
    refine ⟨l, hall, hlen, ?_, ?_⟩
    · intro i hi
      have hi1 : i < occ.length := by rw [← hreg.2.1]; exact hi
      have hget : occ[i]? = some occ[i] := List.getElem?_eq_getElem hi1
      refine ⟨occ[i], ?_, ?_⟩
      · unfold Get
        have hi2 : ¬ i ≥ l.staListLen := Nat.not_le.2 hi
        rw [if_neg hi2]
        exact Reg_slot_occupied n l occ hreg i _ hget
      · have h1 : (occ.map (fun s => s.address))[i]? = some occ[i].address := by
          rw [List.getElem?_map, hget]; rfl
        rw [hocc, List.getElem?_take] at h1
        have hin : i < n := by
          have := hreg.2.2.1; omega
        rw [if_pos hin] at h1
        exact h1
    · intro i hi
      have hi1 : i ≥ l.staListLen := hi
      unfold Get
      rw [if_pos hi1]
  · refine ⟨by decide, by decide, by decide, by decide, ?_⟩
    intro i s hi
    match i, hi with
    | 0, hi => cases hi; decide
    | 1, hi => cases hi; decide
    | k + 2, hi =>
      have hk : k + 2 ≥ Scenario.regM1M2.staListLen := Nat.le_add_left 2 k
      unfold Get at hi
      rw [if_pos hk] at hi
      cases hi

theorem slots_first_seen_order_witness :
    (3 : Nat) < 2 ^ 32 ∧
    ∃ l, addAll Scenario.capOf (Create 1000 3)
        [Scenario.obs Scenario.M1 1, Scenario.obs Scenario.M2 2, Scenario.obs Scenario.M1 3]
        = some l ∧
      l.GetN = min (firstDistinct (observed
        [Scenario.obs Scenario.M1 1, Scenario.obs Scenario.M2 2,
          Scenario.obs Scenario.M1 3])).length 3 ∧
      (∀ i, i < l.GetN → ∃ s, l.Get i = some (some s) ∧
        (firstDistinct (observed
          [Scenario.obs Scenario.M1 1, Scenario.obs Scenario.M2 2,
            Scenario.obs Scenario.M1 3]))[i]? = some s.address) ∧
      (∀ i, l.GetN ≤ i → l.Get i = some none) :=
  ⟨by decide,
    (slots_first_seen_order Scenario.capOf 1000 3 (by decide)
      [Scenario.obs Scenario.M1 1, Scenario.obs Scenario.M2 2, Scenario.obs Scenario.M1 3]).1⟩

theorem split_at_index (occ : List Station) (i : Nat) (s : Station) (h : occ[i]? = some s) :
    ∃ a b, occ = a ++ s :: b ∧ a.length = i := by
  obtain ⟨hil, hie⟩ := List.getElem?_eq_some.1 h
  refine ⟨occ.take i, occ.drop (i + 1), ?_, ?_⟩
  · rw [← hie, ← List.drop_eq_getElem_cons hil, List.take_append_drop]
  · rw [List.length_take]; omega

/-- C14. On a registry reached from `Create` by `AddStationOrContext` calls,
when a non-empty context with a non-broadcast source address held by no slot
arrives and a free slot exists, the call returns `true` and creates exactly
one record, in the first free slot (index = previous count, every slot before
it being occupied): a record for that address with the registry's per-station
byte budget, holding exactly one sample, the context's (endTime, snr, rxPower,
bandwidth).  The count rises by exactly 1, every other slot (in particular
every previously occupied one) is unchanged, and so are the budget and the
capacity. -/
theorem AddStationOrContext_creates (capOf : Nat → Nat) (memorySize n : Nat)
    (hn : n < 2 ^ 32) (cs : List PacketContext) (l : StationList)
    (hreach : addAll capOf (Create memorySize n) cs = some l) (c : PacketContext)
    (hemp : c.IsEmpty = false) (hb : c.GetSourMacAddr ≠ MAC_BROADCAST_ADDR)
    (hunk : ¬ ∃ i s, readSlot l.staList i = some (some s) ∧ s.address = c.GetSourMacAddr)
    (hfree : ∃ i, i < n ∧ readSlot l.staList i = some none) :
    ∃ l1, AddStationOrContext capOf l c = some (l1, true) ∧
      l1.GetN = l.GetN + 1 ∧
      readSlot l.staList l.GetN = some none ∧
      (∀ i, i < l.GetN → ∃ s, readSlot l.staList i = some (some s)) ∧
      readSlot l1.staList l.GetN
        = some (some
            { address := c.GetSourMacAddr, memSize := l.staMemSize,
              sampleCapacity := capOf l.staMemSize,
              samples := [{ endTime := c.GetEndTime, snr := c.GetSnr, rxPower := c.GetRxPower,
                            bandwidth := c.GetBandwidth }],
              lastBeaconTime := 0, lastBeaconRxPower := 0 }) ∧
      (∀ i, i ≠ l.GetN → readSlot l1.staList i = readSlot l.staList i) ∧
      l1.staMemSize = l.staMemSize ∧ l1.staListMaxLen = l.staListMaxLen := by
  obtain ⟨occ, hreg, _⟩ := reach_Reg capOf memorySize n hn cs l hreach
  have ha : ∀ t ∈ occ, t.address ≠ c.GetSourMacAddr :=
    fun t ht hta => hunk ((Reg_registered_iff n l occ hreg _).2 ⟨t, ht, hta⟩)
  have hlt : occ.length < n := (Reg_free_iff n l occ hreg).1 hfree
  obtain ⟨slots, harr, hget, hlts, hcall⟩ :=
    Reg_call_create capOf n hn l occ c hreg hemp hb ha hlt
  have hN : l.GetN = occ.length := hreg.2.1
  rw [hN]
  refine ⟨_, hcall, ?_, ?_, ?_, ?_, ?_, rfl, rfl⟩
  · rfl
  · rw [harr]; exact hget
  · intro i hi
    exact ⟨occ[i], Reg_slot_occupied n l occ hreg i _ (List.getElem?_eq_getElem hi)⟩
  · show readSlot (some (slots.set occ.length _)) occ.length = _
    rw [readSlot_set_eq slots occ.length _ hlts, create_AddData]
  · intro i hi
    show readSlot (some (slots.set occ.length _)) i = _
    rw [readSlot_set_ne slots occ.length i _ hi, harr]

theorem AddStationOrContext_creates_witness :
    ((2 : Nat) < 2 ^ 32 ∧
      addAll Scenario.capOf (Create 1000 2) [] = some (Create 1000 2) ∧
      (Scenario.obs Scenario.M1 1).IsEmpty = false ∧
      (Scenario.obs Scenario.M1 1).GetSourMacAddr ≠ MAC_BROADCAST_ADDR ∧
      (¬ ∃ i s, readSlot (Create 1000 2).staList i = some (some s) ∧
        s.address = (Scenario.obs Scenario.M1 1).GetSourMacAddr) ∧
      (∃ i, i < 2 ∧ readSlot (Create 1000 2).staList i = some none)) ∧
    ∃ l1, AddStationOrContext Scenario.capOf (Create 1000 2) (Scenario.obs Scenario.M1 1)
        = some (l1, true) ∧
      l1.GetN = (Create 1000 2).GetN + 1 :=
  have hunk : ¬ ∃ i s, readSlot (Create 1000 2).staList i = some (some s) ∧
      s.address = (Scenario.obs Scenario.M1 1).GetSourMacAddr := by
    rintro ⟨i, s, hi, _⟩
    match i, hi with
    | 0, hi => cases hi
    | 1, hi => cases hi
    | _ + 2, hi => cases hi
  have hfree : ∃ i, i < 2 ∧ readSlot (Create 1000 2).staList i = some none :=
    ⟨0, by decide, rfl⟩
  have h := AddStationOrContext_creates Scenario.capOf 1000 2 (by decide) [] (Create 1000 2) rfl
    (Scenario.obs Scenario.M1 1) rfl (by decide) hunk hfree
  ⟨⟨by decide, rfl, rfl, by decide, hunk, hfree⟩, h.elim fun l1 h1 => ⟨l1, h1.1, h1.2.1⟩⟩

/-- C15. On a registry reached from `Create` by `AddStationOrContext` calls,
when the source address of a non-empty, non-broadcast context is held by the
record `s` of slot `i`, the call returns `true` and hands exactly one sample,
the context's, to that record (`AddData`: the record keeps its address, and
its samples become the former ones, without the oldest if it was full,
followed by the new one).  Nothing else changes: the count, the budget and the
capacity are the same, no record is created, and every other slot is the same,
so the slot order is unchanged and no other record receives a sample. -/
theorem AddStationOrContext_updates (capOf : Nat → Nat) (memorySize n : Nat)
    (hn : n < 2 ^ 32) (cs : List PacketContext) (l : StationList)
    (hreach : addAll capOf (Create memorySize n) cs = some l) (c : PacketContext)
    (hemp : c.IsEmpty = false) (hb : c.GetSourMacAddr ≠ MAC_BROADCAST_ADDR)
    (i : Nat) (s : Station) (hslot : readSlot l.staList i = some (some s))
    (hs : s.address = c.GetSourMacAddr) :
    ∃ l1, AddStationOrContext capOf l c = some (l1, true) ∧
      l1.GetN = l.GetN ∧
      readSlot l1.staList i
        = some (some (s.AddData c.GetEndTime c.GetSnr c.GetRxPower c.GetBandwidth)) ∧
      (s.AddData c.GetEndTime c.GetSnr c.GetRxPower c.GetBandwidth).address = s.address ∧
      (s.AddData c.GetEndTime c.GetSnr c.GetRxPower c.GetBandwidth).samples
        = (if s.samples.length = s.sampleCapacity then s.samples.drop 1 else s.samples)
          ++ [{ endTime := c.GetEndTime, snr := c.GetSnr, rxPower := c.GetRxPower,
                bandwidth := c.GetBandwidth }] ∧
      (∀ j, j ≠ i → readSlot l1.staList j = readSlot l.staList j) ∧
      l1.staMemSize = l.staMemSize ∧ l1.staListMaxLen = l.staListMaxLen := by
  obtain ⟨occ, hreg, _⟩ := reach_Reg capOf memorySize n hn cs l hreach
  obtain ⟨a, b, hocc, hai⟩ := split_at_index occ i s (Reg_readSlot n l occ hreg i s hslot)
  obtain ⟨slots, harr, hget, hlts, hcall⟩ :=
    Reg_call_update capOf n l occ c hreg hemp hb a b s hocc hs
  rw [hai] at hlts hcall
  refine ⟨_, hcall, rfl, ?_, AddData_address s _ _ _ _, ?_, ?_, rfl, rfl⟩
  · show readSlot (some (slots.set i _)) i = _
    rw [readSlot_set_eq slots i _ hlts]
  · unfold Station.AddData
    split <;> rfl
  · intro j hj
    show readSlot (some (slots.set i _)) j = _
    rw [readSlot_set_ne slots i j _ hj, harr]

theorem AddStationOrContext_updates_witness :
    ((2 : Nat) < 2 ^ 32 ∧
      addAll Scenario.capOf (Create 1000 2)
        [Scenario.obs Scenario.M1 1, Scenario.obs Scenario.M2 2] = some Scenario.regM1M2 ∧
      (Scenario.obs Scenario.M2 5).IsEmpty = false ∧
      (Scenario.obs Scenario.M2 5).GetSourMacAddr ≠ MAC_BROADCAST_ADDR ∧
      readSlot Scenario.regM1M2.staList 1 = some (some (Scenario.stationOf Scenario.M2 2)) ∧
      (Scenario.stationOf Scenario.M2 2).address = (Scenario.obs Scenario.M2 5).GetSourMacAddr) ∧
    ∃ l1, AddStationOrContext Scenario.capOf Scenario.regM1M2 (Scenario.obs Scenario.M2 5)
        = some (l1, true) ∧
      l1.GetN = Scenario.regM1M2.GetN :=
  ⟨⟨by decide, by decide, rfl, by decide, rfl, rfl⟩,
    (AddStationOrContext_updates Scenario.capOf 1000 2 (by decide)
      [Scenario.obs Scenario.M1 1, Scenario.obs Scenario.M2 2] Scenario.regM1M2 (by decide)
      (Scenario.obs Scenario.M2 5) rfl (by decide) 1 (Scenario.stationOf Scenario.M2 2)
      rfl rfl).elim fun l1 h1 => ⟨l1, h1.1, h1.2.1⟩⟩

/-- C16, as stated, fails.  On a fresh registry of capacity 2 the first
observation of `M1` creates a record (`GetN ()` goes from 0 to 1) and the
second only appends to it (`GetN ()` stays 1), and the value returned by
`AddStationOrContext` is the same for both calls: the single boolean `true`. -/
theorem AddStationOrContext_result_not_separate :
    (AddStationOrContext Scenario.capOf (Create 1000 2) (Scenario.obs Scenario.M1 1)).map
        (fun r => (r.1.GetN, r.2)) = some (1, true) ∧
    ((AddStationOrContext Scenario.capOf (Create 1000 2) (Scenario.obs Scenario.M1 1)).bind
      (fun r => AddStationOrContext Scenario.capOf r.1 (Scenario.obs Scenario.M1 2))).map
        (fun r => (r.1.GetN, r.2)) = some (1, true) ∧
    (AddStationOrContext Scenario.capOf (Create 1000 2) (Scenario.obs Scenario.M1 1)).map
        (fun r => r.2)
      = ((AddStationOrContext Scenario.capOf (Create 1000 2) (Scenario.obs Scenario.M1 1)).bind
          (fun r => AddStationOrContext Scenario.capOf r.1 (Scenario.obs Scenario.M1 2))).map
            (fun r => r.2) := by
  decide

/-- C16, amended.  `AddStationOrContext` returns one boolean,
`isAddSta || isAddContext`.  On a registry reached from `Create`, it is `true`
both for a call that created a record (unknown address, free slot) and for a
call that only appended to an already registered record, and when it is
`false` the registry is left unchanged; the two successful outcomes differ in
`GetN ()`, which rises by 1 in the first and stays the same in the second. -/
theorem AddStationOrContext_single_flag (capOf : Nat → Nat) (memorySize n : Nat)
    (hn : n < 2 ^ 32) (cs : List PacketContext) (l : StationList)
    (hreach : addAll capOf (Create memorySize n) cs = some l) (c : PacketContext) :
    ∃ l1 b, AddStationOrContext capOf l c = some (l1, b) ∧
      ((c.IsEmpty = false ∧ c.GetSourMacAddr ≠ MAC_BROADCAST_ADDR ∧
          (¬ ∃ i s, readSlot l.staList i = some (some s) ∧ s.address = c.GetSourMacAddr) ∧
          (∃ i, i < n ∧ readSlot l.staList i = some none)) →
        b = true ∧ l1.GetN = l.GetN + 1) ∧
      ((c.IsEmpty = false ∧ c.GetSourMacAddr ≠ MAC_BROADCAST_ADDR ∧
          (∃ i s, readSlot l.staList i = some (some s) ∧ s.address = c.GetSourMacAddr)) →
        b = true ∧ l1.GetN = l.GetN) ∧
      (b = false → l1 = l) := by
  obtain ⟨occ, hreg, _⟩ := reach_Reg capOf memorySize n hn cs l hreach
  have hN : l.GetN = occ.length := hreg.2.1
  rcases Reg_call_cases n l occ c hreg with hnoop | ⟨hemp, hb, a, s, b, hocc, hs⟩
    | ⟨hemp, hb, ha, hfree⟩
  · refine ⟨l, false, Reg_call_noop capOf n l occ c hreg hnoop, ?_, ?_, ?_⟩
    · rintro ⟨hemp, hb, hunk, hfr⟩
      rcases hnoop with h1 | h1 | ⟨_, hfull⟩
      · rw [hemp] at h1; cases h1
      · exact absurd h1 hb
      · exact absurd ((Reg_free_iff n l occ hreg).1 hfr) hfull
    · rintro ⟨hemp, hb, hr⟩
      rcases hnoop with h1 | h1 | ⟨ha, _⟩
      · rw [hemp] at h1; cases h1
      · exact absurd h1 hb
      · obtain ⟨t, ht, hta⟩ := (Reg_registered_iff n l occ hreg _).1 hr
        exact absurd hta (ha t ht)
    · intro _; rfl
  · obtain ⟨slots, harr, hget, hlt, hcall⟩ :=
      Reg_call_update capOf n l occ c hreg hemp hb a b s hocc hs
    refine ⟨_, true, hcall, ?_, ?_, ?_⟩
    · rintro ⟨_, _, hunk, _⟩
      exact absurd ((Reg_registered_iff n l occ hreg _).2
        ⟨s, by rw [hocc]; simp, hs⟩) hunk
    · intro _; exact ⟨rfl, rfl⟩
    · intro h; cases h
  · obtain ⟨slots, harr, hget, hlt, hcall⟩ :=
      Reg_call_create capOf n hn l occ c hreg hemp hb ha hfree
    refine ⟨_, true, hcall, ?_, ?_, ?_⟩
    · intro _; exact ⟨rfl, by rw [hN]; rfl⟩
    · rintro ⟨_, _, hr⟩
      obtain ⟨t, ht, hta⟩ := (Reg_registered_iff n l occ hreg _).1 hr
      exact absurd hta (ha t ht)
    · intro h; cases h

theorem AddStationOrContext_single_flag_witness :
    ((2 : Nat) < 2 ^ 32 ∧
      addAll Scenario.capOf (Create 1000 2)
        [Scenario.obs Scenario.M1 1, Scenario.obs Scenario.M2 2] = some Scenario.regM1M2) ∧
    ∃ l1 b, AddStationOrContext Scenario.capOf Scenario.regM1M2 (Scenario.obs Scenario.M2 5)
        = some (l1, b) ∧
      (((Scenario.obs Scenario.M2 5).IsEmpty = false ∧
          (Scenario.obs Scenario.M2 5).GetSourMacAddr ≠ MAC_BROADCAST_ADDR ∧
          (∃ i s, readSlot Scenario.regM1M2.staList i = some (some s) ∧
            s.address = (Scenario.obs Scenario.M2 5).GetSourMacAddr)) →
        b = true ∧ l1.GetN = Scenario.regM1M2.GetN) :=
  ⟨⟨by decide, by decide⟩,
    (AddStationOrContext_single_flag Scenario.capOf 1000 2 (by decide)
      [Scenario.obs Scenario.M1 1, Scenario.obs Scenario.M2 2] Scenario.regM1M2 (by decide)
      (Scenario.obs Scenario.M2 5)).elim fun l1 h1 => h1.elim fun b h2 =>
        ⟨l1, b, h2.1, h2.2.2.1⟩⟩

end StationList

end SdnLab

/-! ## The MAC queue: idempotence, ordering, counter, selective dequeue -/

namespace ns3

namespace WifiMacQueue

open SdnLab

theorem filter_alive_idem (d now : Time) (l : List Item) :
    (l.filter (alive d now)).filter (fun i => !alive d now i) = [] := by
  rw [List.filter_eq_nil_iff]
  intro i hi
  have := (List.mem_filter.1 hi).2
  simp [this]

/-- C17. `Cleanup` is idempotent: for every queue state and time, a second
`Cleanup` at the same time, with no call in between, leaves the queue (entries,
size and attributes) exactly as the first one left it and fires no drop
event. -/
theorem Cleanup_idempotent (now : Time) (q : WifiMacQueue) :
    Cleanup now (Cleanup now q).1 = ((Cleanup now q).1, []) ∧
    (Cleanup now (Cleanup now q).1).1.m_queue = (Cleanup now q).1.m_queue ∧
    (Cleanup now (Cleanup now q).1).1.m_size = (Cleanup now q).1.m_size ∧
    (Cleanup now (Cleanup now q).1).2 = [] := by
  have key : Cleanup now (Cleanup now q).1 = ((Cleanup now q).1, []) := by
    cases hq : q.m_queue with
    | nil =>
      have e1 : Cleanup now q = (q, []) := by simp [Cleanup, hq]
      rw [e1, e1]
    | cons i rest =>
      have e1 : Cleanup now q
          = ({ q with m_queue := (Cleanup.loop q.m_maxDelay now q.m_queue).1
                      m_size := (q.m_size + 2 ^ 32
                        - (Cleanup.loop q.m_maxDelay now q.m_queue).2.2) % 2 ^ 32 },
              (Cleanup.loop q.m_maxDelay now q.m_queue).2.1) := by
        simp [Cleanup, hq]
      rw [e1]
      generalize hm : (q.m_size + 2 ^ 32 - (Cleanup.loop q.m_maxDelay now q.m_queue).2.2)
        % 2 ^ 32 = m
      have hmlt : m < 2 ^ 32 := by rw [← hm]; exact Nat.mod_lt _ (by decide)
      rw [Cleanup_loop_kept]
      cases hk : q.m_queue.filter (alive q.m_maxDelay now) with
      | nil => simp [Cleanup]
      | cons j rest1 =>
        have hidem := filter_alive_idem q.m_maxDelay now q.m_queue
        rw [hk] at hidem
        have hself : (j :: rest1).filter (alive q.m_maxDelay now) = j :: rest1 := by
          rw [← hk, List.filter_filter]
          simp
        simp only [Cleanup, List.isEmpty_cons, Bool.false_eq_true, if_false,
          Cleanup_loop_kept, Cleanup_loop_events, Cleanup_loop_count, hidem, hself,
          List.map_nil, List.length_nil, Nat.zero_mod, Nat.sub_zero, Nat.add_mod_right,
          Nat.mod_eq_of_lt hmlt]
  rw [key]
  exact ⟨rfl, rfl, rfl, rfl⟩

/-- C19. Starting from a newly constructed queue (with a `uint32_t` bound
`maxSize`), after every operation of every sequence of timed calls (`Enqueue`
in both forms, `PushFront`, `Cleanup`, `Dequeue` in both forms,
`DequeueByTidAndAddress`, `DequeueFirstAvailable`, `Remove`, `Flush`, every
`Peek` method, `IsEmpty`, `GetSize`, `GetNPacketsByTidAndAddress`,
`SetMaxDelay`), `GetSize ()` equals the length of the entry list.  The counter
therefore never underflows: it is the true number of entries, a value below
`2 ^ 32`, after each call, so no decrement was ever applied to a counter
equal to 0. -/
theorem size_eq_length (maxSize : Nat) (maxDelay : Time) (hmax : maxSize < 2 ^ 32)
    (ops : List (Time × Op)) (k : Nat) :
    (run (new maxSize maxDelay) (ops.take k)).GetSize
      = (run (new maxSize maxDelay) (ops.take k)).m_queue.length ∧
    (run (new maxSize maxDelay) (ops.take k)).GetSize < 2 ^ 32 := by
  have h := run_Inv (ops.take k) _ (Inv_new maxSize maxDelay hmax)
  obtain ⟨h1, h2, h3⟩ := h
  exact ⟨h1, by show (run _ _).m_size < 2 ^ 32; omega⟩

theorem size_eq_length_witness :
    (2 : Nat) < 2 ^ 32 ∧
      (run (new 2 (Scenario.ms 500))
        ([(0, Op.enqueue2 1 (Scenario.qosTo Scenario.X 0)),
          (0, Op.dequeue),
          (0, Op.dequeue),
          (Scenario.ms 100, Op.remove 7),
          (Scenario.ms 100, Op.pushFront 4 (Scenario.plainTo Scenario.Y))].take 5)).GetSize
        = (run (new 2 (Scenario.ms 500))
        ([(0, Op.enqueue2 1 (Scenario.qosTo Scenario.X 0)),
          (0, Op.dequeue),
          (0, Op.dequeue),
          (Scenario.ms 100, Op.remove 7),
          (Scenario.ms 100, Op.pushFront 4 (Scenario.plainTo Scenario.Y))].take 5)).m_queue.length :=
  ⟨by decide, (size_eq_length 2 (Scenario.ms 500) (by decide) _ 5).1⟩

theorem first_split (p : Item → Bool) (l : List Item) :
    (∀ y ∈ l, p y = false) ∨
      ∃ pre x post, l = pre ++ x :: post ∧ (∀ y ∈ pre, p y = false) ∧ p x = true := by
  induction l with
  | nil => left; intro y hy; cases hy
  | cons y l ih =>
    cases hy : p y with
    | true => right; exact ⟨[], y, l, rfl, (by intro z hz; cases hz), hy⟩
    | false =>
      rcases ih with hall | ⟨pre, x, post, rfl, hpre, hx⟩
      · left
        intro z hz
        rcases List.mem_cons.1 hz with rfl | hz
        · exact hy
        · exact hall z hz
      · right
        refine ⟨y :: pre, x, post, rfl, ?_, hx⟩
        intro z hz
        rcases List.mem_cons.1 hz with rfl | hz
        · exact hy
        · exact hpre z hz

theorem DequeueByTidAndAddress_loop_found (tid : Nat) (type : WifiMacHeader.AddressType)
    (dest : Mac48Address) (x : Item) (post : List Item)
    (hx : tidAddrMatch tid type dest x = true) :
    ∀ pre : List Item, (∀ y ∈ pre, tidAddrMatch tid type dest y = false) →
      DequeueByTidAndAddress.loop tid type dest (pre ++ x :: post) = some (x, pre ++ post) := by
  intro pre
  induction pre with
  | nil =>
    intro _
    unfold tidAddrMatch at hx
    simp only [List.nil_append, DequeueByTidAndAddress.loop, hx, if_true]
  | cons y pre ih =>
    intro h
    have hy : tidAddrMatch tid type dest y = false := h y (List.mem_cons_self _ _)
    have ih1 := ih (fun z hz => h z (List.mem_cons_of_mem _ hz))
    unfold tidAddrMatch at hy
    simp only [List.cons_append, DequeueByTidAndAddress.loop, hy, Bool.false_eq_true, if_false,
      List.append_eq, ih1]

theorem DequeueByTidAndAddress_loop_none (tid : Nat) (type : WifiMacHeader.AddressType)
    (dest : Mac48Address) :
    ∀ l : List Item, (∀ y ∈ l, tidAddrMatch tid type dest y = false) →
      DequeueByTidAndAddress.loop tid type dest l = none := by
  intro l
  induction l with
  | nil => intro _; rfl
  | cons y l ih =>
    intro h
    have hy : tidAddrMatch tid type dest y = false := h y (List.mem_cons_self _ _)
    have ih1 := ih (fun z hz => h z (List.mem_cons_of_mem _ hz))
    unfold tidAddrMatch at hy
    simp only [DequeueByTidAndAddress.loop, hy, Bool.false_eq_true, if_false, ih1]

theorem tidAddrMatch_iff (tid : Nat) (type : WifiMacHeader.AddressType) (dest : Mac48Address)
    (it : Item) :
    tidAddrMatch tid type dest it = true ↔
      it.hdr.IsQosData = true ∧ it.hdr.GetQosTid = tid ∧ GetAddressForPacket type it = dest := by
  unfold tidAddrMatch
  simp only [Bool.and_eq_true, decide_eq_true_eq]
  constructor
  · rintro ⟨h1, h2, h3⟩; exact ⟨h1, h3, h2⟩
  · rintro ⟨h1, h2, h3⟩; exact ⟨h1, h3, h2⟩

theorem tidAddrMatch_false_iff (tid : Nat) (type : WifiMacHeader.AddressType)
    (dest : Mac48Address) (it : Item) :
    tidAddrMatch tid type dest it = false ↔
      ¬ (it.hdr.IsQosData = true ∧ it.hdr.GetQosTid = tid
        ∧ GetAddressForPacket type it = dest) := by
  rw [← tidAddrMatch_iff]
  simp

/-- C20. On a queue whose counter agrees with its list, after `Cleanup`
(whose events are the only ones fired), `DequeueByTidAndAddress (tid, type,
dest)` removes and returns, with its header, the first entry anywhere in the
queue that is QoS data with traffic class `tid` and whose address of the given
type (`ADDR1`: addr1, `ADDR2`: addr2, `ADDR3`: addr3) equals `dest`: the size
drops by 1 and the other entries keep their relative order.  If no entry
matches, it returns absent and the cleaned queue is unchanged.  A returned
entry is always a stored, non-expired QoS-data entry with that traffic class
and address; an entry that is not QoS data is never returned. -/
theorem DequeueByTidAndAddress_spec (now : Time) (q : WifiMacQueue) (tid : Nat)
    (type : WifiMacHeader.AddressType) (dest : Mac48Address) (hq : Counted q) :
    (DequeueByTidAndAddress now q tid type dest).2.1 = (Cleanup now q).2 ∧
    (∀ (pre : List Item) (x : Item) (post : List Item),
      (Cleanup now q).1.m_queue = pre ++ x :: post →
      (∀ y ∈ pre, ¬ (y.hdr.IsQosData = true ∧ y.hdr.GetQosTid = tid
        ∧ GetAddressForPacket type y = dest)) →
      (x.hdr.IsQosData = true ∧ x.hdr.GetQosTid = tid ∧ GetAddressForPacket type x = dest) →
      (DequeueByTidAndAddress now q tid type dest).2.2 = some (x.packet, x.hdr) ∧
      (DequeueByTidAndAddress now q tid type dest).1.m_queue = pre ++ post ∧
      (DequeueByTidAndAddress now q tid type dest).1.m_size + 1 = (Cleanup now q).1.m_size ∧
      (DequeueByTidAndAddress now q tid type dest).1.m_size = (pre ++ post).length) ∧
    ((∀ y ∈ (Cleanup now q).1.m_queue, ¬ (y.hdr.IsQosData = true ∧ y.hdr.GetQosTid = tid
        ∧ GetAddressForPacket type y = dest)) →
      (DequeueByTidAndAddress now q tid type dest).2.2 = none ∧
      (DequeueByTidAndAddress now q tid type dest).1 = (Cleanup now q).1) ∧
    (∀ (p : PacketPtr) (h : WifiMacHeader),
      (DequeueByTidAndAddress now q tid type dest).2.2 = some (p, h) →
      h.IsQosData = true ∧ h.GetQosTid = tid ∧
      ∃ x ∈ q.m_queue, x.packet = p ∧ x.hdr = h ∧ GetAddressForPacket type x = dest ∧
        x.tstamp + q.m_maxDelay > now) ∧
    (∀ it : Item, GetAddressForPacket .ADDR1 it = it.hdr.addr1 ∧
      GetAddressForPacket .ADDR2 it = it.hdr.addr2 ∧
      GetAddressForPacket .ADDR3 it = it.hdr.addr3) := by
  have hc := Cleanup_Counted now q hq
  have hfound : ∀ (pre : List Item) (x : Item) (post : List Item),
      (Cleanup now q).1.m_queue = pre ++ x :: post →
      (∀ y ∈ pre, tidAddrMatch tid type dest y = false) →
      tidAddrMatch tid type dest x = true →
      DequeueByTidAndAddress now q tid type dest
        = ({ (Cleanup now q).1 with
              m_queue := pre ++ post, m_size := decSize (Cleanup now q).1.m_size },
            (Cleanup now q).2, some (x.packet, x.hdr)) := by
    intro pre x post hsplit hpre hx
    have hl := DequeueByTidAndAddress_loop_found tid type dest x post hx pre hpre
    simp only [DequeueByTidAndAddress, hsplit, hl]
  have hnone : (∀ y ∈ (Cleanup now q).1.m_queue, tidAddrMatch tid type dest y = false) →
      DequeueByTidAndAddress now q tid type dest = ((Cleanup now q).1, (Cleanup now q).2, none) := by
    intro hall
    have hl := DequeueByTidAndAddress_loop_none tid type dest _ hall
    simp only [DequeueByTidAndAddress, hl]
  refine ⟨?_, ?_, ?_, ?_, fun it => ⟨rfl, rfl, rfl⟩⟩
  · simp only [DequeueByTidAndAddress]
    split <;> rfl
  · intro pre x post hsplit hpre hx
    have e1 := hfound pre x post hsplit
      (fun y hy => (tidAddrMatch_false_iff tid type dest y).2 (hpre y hy))
      ((tidAddrMatch_iff tid type dest x).2 hx)
    have hlen : (Cleanup now q).1.m_size = (pre ++ post).length + 1 := by
      rw [hc.1, hsplit]; simp only [List.length_append, List.length_cons]; omega
    have hdec : decSize (Cleanup now q).1.m_size = (pre ++ post).length := by
      rw [decSize_eq _ (by omega) (by have := hc.2; rw [hc.1]; omega), hlen]; rfl
    rw [e1]
    exact ⟨rfl, rfl, by show decSize _ + 1 = _; rw [hdec, hlen], hdec⟩
  · intro hall
    rw [hnone (fun y hy => (tidAddrMatch_false_iff tid type dest y).2 (hall y hy))]
    exact ⟨rfl, rfl⟩
  · intro p h hres
    rcases first_split (tidAddrMatch tid type dest) (Cleanup now q).1.m_queue with hall
      | ⟨pre, x, post, hsplit, hpre, hx⟩
    · rw [hnone hall] at hres; cases hres
    · rw [hfound pre x post hsplit hpre hx] at hres
      simp only [Option.some.injEq, Prod.mk.injEq] at hres
      obtain ⟨rfl, rfl⟩ := hres
      obtain ⟨h1, h2, h3⟩ := (tidAddrMatch_iff tid type dest x).1 hx
      have hmem : x ∈ (Cleanup now q).1.m_queue := by rw [hsplit]; simp
      rw [Cleanup_queue, List.mem_filter] at hmem
      exact ⟨h1, h2, x, hmem.1, rfl, rfl, h3, by simpa [alive] using hmem.2⟩

theorem DequeueByTidAndAddress_spec_witness :
    Counted Scenario.queueXYY ∧
    (∀ (p : PacketPtr) (h : WifiMacHeader),
      (DequeueByTidAndAddress 0 Scenario.queueXYY 0 .ADDR1 Scenario.Y).2.2 = some (p, h) →
      h.IsQosData = true ∧ h.GetQosTid = 0 ∧
      ∃ x ∈ Scenario.queueXYY.m_queue, x.packet = p ∧ x.hdr = h ∧
        GetAddressForPacket .ADDR1 x = Scenario.Y ∧
        x.tstamp + Scenario.queueXYY.m_maxDelay > 0) ∧
    (DequeueByTidAndAddress 0 Scenario.queueXYY 0 .ADDR1 Scenario.Y).2.2
      = some (2, Scenario.qosTo Scenario.Y 0) :=
  ⟨by decide,
    (DequeueByTidAndAddress_spec 0 Scenario.queueXYY 0 .ADDR1 Scenario.Y (by decide)).2.2.2.1,
    by decide⟩

theorem DequeueByTidAndAddress_loop_sublist (tid : Nat) (type : WifiMacHeader.AddressType)
    (dest : Mac48Address) (l : List Item) (x : Item) (r : List Item)
    (h : DequeueByTidAndAddress.loop tid type dest l = some (x, r)) : r.Sublist l := by
  rcases first_split (tidAddrMatch tid type dest) l with hall | ⟨pre, y, post, rfl, hpre, hy⟩
  · rw [DequeueByTidAndAddress_loop_none tid type dest l hall] at h; cases h
  · rw [DequeueByTidAndAddress_loop_found tid type dest y post hy pre hpre] at h
    simp only [Option.some.injEq, Prod.mk.injEq] at h
    obtain ⟨rfl, rfl⟩ := h
    exact List.Sublist.append (List.Sublist.refl _) (List.sublist_cons_self _ _)

theorem DequeueFirstAvailable_loop_sublist (b : QosBlockedDestinations) (l : List Item)
    (x : Item) (r : List Item) (h : DequeueFirstAvailable.loop b l = some (x, r)) :
    r.Sublist l := by
  rcases eligible_split b l with hall | ⟨pre, y, post, rfl, hpre, hy⟩
  · rw [DequeueFirstAvailable_loop_none b l hall] at h; cases h
  · rw [DequeueFirstAvailable_loop_found b y post hy pre hpre] at h
    simp only [Option.some.injEq, Prod.mk.injEq] at h
    obtain ⟨rfl, rfl⟩ := h
    exact List.Sublist.append (List.Sublist.refl _) (List.sublist_cons_self _ _)

theorem Remove_loop_sublist (packet : PacketPtr) (l r : List Item)
    (h : Remove.loop packet l = some r) : r.Sublist l := by
  induction l generalizing r with
  | nil => simp [Remove.loop] at h
  | cons it rest ih =>
    simp only [Remove.loop] at h
    split at h
    · cases h; exact List.sublist_cons_self _ _
    · cases hr : Remove.loop packet rest with
      | none => simp [hr] at h
      | some r1 =>
        simp only [hr, Option.some.injEq] at h
        subst h
        exact (ih r1 hr).cons₂ _

theorem Cleanup_sublist (now : Time) (q : WifiMacQueue) :
    (Cleanup now q).1.m_queue.Sublist q.m_queue := by
  rw [Cleanup_queue]; exact List.filter_sublist _

/-- The list left by a call other than `PushFront` is a sublist of the
former one, possibly followed by one entry stamped with the time of the call. -/
theorem step_queue_shape (now : Time) (q : WifiMacQueue) (op : Op)
    (hop : notPushFront op = true) :
    ∃ l1 : List Item, l1.Sublist q.m_queue ∧
      ((step now q op).m_queue = l1 ∨
        ∃ it : Item, it.tstamp = now ∧ (step now q op).m_queue = l1 ++ [it]) := by
  have hc := Cleanup_sublist now q
  have henq : ∀ (p : PacketPtr) (hdr : WifiMacHeader) (ctx : PacketContext),
      ∃ l1 : List Item, l1.Sublist q.m_queue ∧
        ((Enqueue now q p hdr ctx).1.m_queue = l1 ∨
          ∃ it : Item, it.tstamp = now ∧ (Enqueue now q p hdr ctx).1.m_queue = l1 ++ [it]) := by
    intro p hdr ctx
    refine ⟨(Cleanup now q).1.m_queue, hc, ?_⟩
    simp only [Enqueue]
    split
    · exact Or.inl rfl
    · exact Or.inr ⟨_, rfl, rfl⟩
  cases op with
  | enqueue p hdr ctx => exact henq p hdr ctx
  | enqueue2 p hdr => exact henq p hdr _
  | pushFront p hdr => cases hop
  | cleanup => exact ⟨_, hc, Or.inl rfl⟩
  | dequeue =>
    simp only [step, Dequeue]
    cases hq : (Cleanup now q).1.m_queue with
    | nil => exact ⟨(Cleanup now q).1.m_queue, hc, Or.inl rfl⟩
    | cons i rest =>
      exact ⟨rest, (List.sublist_cons_self i rest).trans (hq ▸ hc), Or.inl rfl⟩
  | dequeueCtx =>
    simp only [step, DequeueCtx]
    cases hq : (Cleanup now q).1.m_queue with
    | nil => exact ⟨(Cleanup now q).1.m_queue, hc, Or.inl rfl⟩
    | cons i rest =>
      exact ⟨rest, (List.sublist_cons_self i rest).trans (hq ▸ hc), Or.inl rfl⟩
  | peek => exact ⟨_, hc, Or.inl (by simp only [step, Peek]; split <;> rfl)⟩
  | dequeueByTidAndAddress tid type dest =>
    simp only [step, DequeueByTidAndAddress]
    cases hl : DequeueByTidAndAddress.loop tid type dest (Cleanup now q).1.m_queue with
    | none => exact ⟨_, hc, Or.inl rfl⟩
    | some v =>
      obtain ⟨x, r⟩ := v
      exact ⟨r, (DequeueByTidAndAddress_loop_sublist _ _ _ _ _ _ hl).trans hc, Or.inl rfl⟩
  | peekByTidAndAddress tid type dest =>
    exact ⟨_, hc, Or.inl (by simp only [step, PeekByTidAndAddress]; split <;> rfl)⟩
  | peekByAddress type dest =>
    exact ⟨_, hc, Or.inl (by simp only [step, PeekByAddress]; split <;> rfl)⟩
  | isEmpty => exact ⟨_, hc, Or.inl rfl⟩
  | getSize => exact ⟨_, List.Sublist.refl _, Or.inl rfl⟩
  | getNPacketsByTidAndAddress tid type addr => exact ⟨_, hc, Or.inl rfl⟩
  | dequeueFirstAvailable b =>
    simp only [step, DequeueFirstAvailable]
    cases hl : DequeueFirstAvailable.loop b (Cleanup now q).1.m_queue with
    | none => exact ⟨_, hc, Or.inl rfl⟩
    | some v =>
      obtain ⟨x, r⟩ := v
      exact ⟨r, (DequeueFirstAvailable_loop_sublist _ _ _ _ hl).trans hc, Or.inl rfl⟩
  | peekFirstAvailable b =>
    exact ⟨_, hc, Or.inl (by simp only [step, PeekFirstAvailable]; split <;> rfl)⟩
  | peekAvailable b k =>
    exact ⟨_, hc, Or.inl (by simp only [step, PeekAvailable]; split <;> rfl)⟩
  | remove p =>
    simp only [step, Remove]
    cases hl : Remove.loop p q.m_queue with
    | none => exact ⟨_, List.Sublist.refl _, Or.inl rfl⟩
    | some r => exact ⟨r, Remove_loop_sublist _ _ _ hl, Or.inl rfl⟩
  | flush => exact ⟨[], List.nil_sublist _, Or.inl rfl⟩
  | setMaxDelay d => exact ⟨_, List.Sublist.refl _, Or.inl rfl⟩

theorem step_TimeOrdered (now t0 : Time) (q : WifiMacQueue) (op : Op)
    (hop : notPushFront op = true) (hord : TimeOrdered q)
    (hle : ∀ i ∈ q.m_queue, i.tstamp ≤ t0) (ht : t0 ≤ now) :
    TimeOrdered (step now q op) ∧ ∀ i ∈ (step now q op).m_queue, i.tstamp ≤ now := by
  unfold TimeOrdered at hord ⊢
  rw [List.pairwise_map] at hord ⊢
  obtain ⟨l1, hsub, hshape⟩ := step_queue_shape now q op hop
  have h1 : l1.Pairwise (fun a b => a.tstamp ≤ b.tstamp) := hord.sublist hsub
  have h2 : ∀ i ∈ l1, i.tstamp ≤ now := fun i hi => le_trans (hle i (hsub.subset hi)) ht
  rcases hshape with he | ⟨it, hit, he⟩
  · rw [he]; exact ⟨h1, h2⟩
  · rw [he]
    refine ⟨?_, ?_⟩
    · rw [List.pairwise_append]
      refine ⟨h1, List.pairwise_singleton _ _, ?_⟩
      intro a ha b hb
      rw [List.mem_singleton.1 hb, hit]
      exact h2 a ha
    · intro i hi
      rcases List.mem_append.1 hi with hi | hi
      · exact h2 i hi
      · rw [List.mem_singleton.1 hi, hit]

theorem run_TimeOrdered (ops : List (Time × Op)) :
    ∀ (q : WifiMacQueue) (t0 : Time), TimeOrdered q → (∀ i ∈ q.m_queue, i.tstamp ≤ t0) →
      (∀ o ∈ ops, t0 ≤ o.1) → (ops.map Prod.fst).Pairwise (fun a b => a ≤ b) →
      (∀ o ∈ ops, notPushFront o.2 = true) → TimeOrdered (run q ops) := by
  induction ops with
  | nil => intro q t0 h _ _ _ _; exact h
  | cons o ops ih =>
    intro q t0 hord hle hge hpw hnp
    obtain ⟨now, op⟩ := o
    simp only [List.map_cons, List.pairwise_cons] at hpw
    obtain ⟨h1, h2⟩ := step_TimeOrdered now t0 q op (hnp _ (List.mem_cons_self _ _)) hord hle
      (hge _ (List.mem_cons_self _ _))
    refine ih _ now h1 h2 ?_ hpw.2 (fun o ho => hnp o (List.mem_cons_of_mem _ ho))
    intro o ho
    exact hpw.1 o.1 (List.mem_map.2 ⟨o, ho, rfl⟩)

theorem keptByEarlyStop_eq (d now : Time) (l : List Item)
    (h : l.Pairwise (fun a b => a.tstamp ≤ b.tstamp)) :
    keptByEarlyStop d now l = (Cleanup.loop d now l).1 := by
  rw [Cleanup_loop_kept]
  unfold keptByEarlyStop
  induction l with
  | nil => rfl
  | cons i rest ih =>
    rw [List.pairwise_cons] at h
    by_cases hi : alive d now i = true
    · rw [List.dropWhile_cons_of_neg (by simp [hi]), List.filter_cons_of_pos hi]
      have hall : ∀ a ∈ rest, alive d now a = true := by
        intro a ha
        have h1 : i.tstamp ≤ a.tstamp := h.1 a ha
        have h2 : (now : Int) < i.tstamp + d := by simpa [alive] using hi
        have h3 : (now : Int) < a.tstamp + d := by linarith
        simpa [alive] using h3
      rw [List.filter_eq_self.2 hall]
    · rw [List.dropWhile_cons_of_pos (by simpa using hi), List.filter_cons_of_neg hi]
      exact ih h.2

/-- C18, as stated, fails.  `Enqueue` at time 0 followed by `PushFront` at
time 100ms (non-decreasing call times, queue constructed empty) leaves the
entry stamped 100ms in front of the entry stamped 0: the stored entries are
not ordered by time stamp, and at time 550ms a scan stopping at the first
non-expired entry keeps both entries whereas `Cleanup` evicts the second. -/
theorem PushFront_breaks_time_order :
    ([((0 : Time), Op.enqueue2 1 (Scenario.qosTo Scenario.X 0)),
        (Scenario.ms 100, Op.pushFront 2 (Scenario.qosTo Scenario.X 0))].map
        Prod.fst).Pairwise (fun a b => a ≤ b) ∧
    (run (new 10 (Scenario.ms 500))
        [(0, Op.enqueue2 1 (Scenario.qosTo Scenario.X 0)),
         (Scenario.ms 100, Op.pushFront 2 (Scenario.qosTo Scenario.X 0))]).m_queue.map
        (fun i => (i.packet, i.tstamp)) = [(2, Scenario.ms 100), (1, 0)] ∧
    ¬ TimeOrdered (run (new 10 (Scenario.ms 500))
        [(0, Op.enqueue2 1 (Scenario.qosTo Scenario.X 0)),
         (Scenario.ms 100, Op.pushFront 2 (Scenario.qosTo Scenario.X 0))]) ∧
    (keptByEarlyStop (Scenario.ms 500) (Scenario.ms 550)
        (run (new 10 (Scenario.ms 500))
          [(0, Op.enqueue2 1 (Scenario.qosTo Scenario.X 0)),
           (Scenario.ms 100, Op.pushFront 2 (Scenario.qosTo Scenario.X 0))]).m_queue).map
        (fun i => i.packet) = [2, 1] ∧
    (Cleanup (Scenario.ms 550)
        (run (new 10 (Scenario.ms 500))
          [(0, Op.enqueue2 1 (Scenario.qosTo Scenario.X 0)),
           (Scenario.ms 100, Op.pushFront 2 (Scenario.qosTo Scenario.X 0))])).1.m_queue.map
        (fun i => i.packet) = [2] := by
  decide

/-- C18, amended.  For every sequence of queue operations other than
`PushFront`, executed at non-decreasing times on a queue constructed empty,
the stored entries are ordered front to back by non-decreasing time stamp;
hence, for every time and every maximal delay whose sum with each stored time
stamp stays within the signed 64-bit range of `ns3::Time`, an eviction scan
stopping at the first non-expired entry keeps (and so evicts) the same entries
as the full scan of `Cleanup`. -/
theorem TimeOrdered_without_PushFront (maxSize : Nat) (maxDelay : Time)
    (ops : List (Time × Op))
    (htimes : (ops.map Prod.fst).Pairwise (fun a b => a ≤ b))
    (hnp : ∀ o ∈ ops, notPushFront o.2 = true) :
    TimeOrdered (run (new maxSize maxDelay) ops) ∧
    ((run (new maxSize maxDelay) ops).m_queue.map (fun i => i.tstamp)).Pairwise
      (fun a b => a ≤ b) ∧
    ∀ (now d : Time),
      (∀ i ∈ (run (new maxSize maxDelay) ops).m_queue, fits64 (i.tstamp + d)) →
      keptByEarlyStop d now (run (new maxSize maxDelay) ops).m_queue
        = (Cleanup.loop d now (run (new maxSize maxDelay) ops).m_queue).1 := by
  have hord : TimeOrdered (run (new maxSize maxDelay) ops) := by
    cases ops with
    | nil => exact List.Pairwise.nil
    | cons o ops =>
      refine run_TimeOrdered (o :: ops) (new maxSize maxDelay) o.1 List.Pairwise.nil
        (fun i hi => by cases hi) ?_ htimes hnp
      intro o1 ho1
      rcases List.mem_cons.1 ho1 with rfl | ho1
      · exact le_refl _
      · simp only [List.map_cons, List.pairwise_cons] at htimes
        exact htimes.1 o1.1 (List.mem_map.2 ⟨o1, ho1, rfl⟩)
  refine ⟨hord, hord, ?_⟩
  intro now d _
  exact keptByEarlyStop_eq d now _ (List.pairwise_map.1 hord)

theorem TimeOrdered_without_PushFront_witness :
    (([((0 : Time), Op.enqueue2 1 (Scenario.qosTo Scenario.X 0)),
        (Scenario.ms 100, Op.enqueue2 2 (Scenario.qosTo Scenario.Y 0)),
        (Scenario.ms 100, Op.dequeue),
        (Scenario.ms 300, Op.enqueue2 3 (Scenario.qosTo Scenario.X 0))].map
        Prod.fst).Pairwise (fun a b => a ≤ b) ∧
      ∀ o ∈ [((0 : Time), Op.enqueue2 1 (Scenario.qosTo Scenario.X 0)),
        (Scenario.ms 100, Op.enqueue2 2 (Scenario.qosTo Scenario.Y 0)),
        (Scenario.ms 100, Op.dequeue),
        (Scenario.ms 300, Op.enqueue2 3 (Scenario.qosTo Scenario.X 0))],
        notPushFront o.2 = true) ∧
    TimeOrdered (run (new 10 (Scenario.ms 500))
      [(0, Op.enqueue2 1 (Scenario.qosTo Scenario.X 0)),
        (Scenario.ms 100, Op.enqueue2 2 (Scenario.qosTo Scenario.Y 0)),
        (Scenario.ms 100, Op.dequeue),
        (Scenario.ms 300, Op.enqueue2 3 (Scenario.qosTo Scenario.X 0))]) :=
  ⟨⟨by decide, by decide⟩,
    (TimeOrdered_without_PushFront 10 (Scenario.ms 500) _ (by decide) (by decide)).1⟩

end WifiMacQueue

end ns3

/-! ## The MAC queue: counting, peeking, head insertion, removal, flushing -/

namespace ns3

namespace WifiMacQueue

open SdnLab

theorem DequeueFirstAvailable_loop_fst (b : QosBlockedDestinations) (l : List Item) :
    (DequeueFirstAvailable.loop b l).map (fun r => r.1) = PeekFirstAvailable.loop b l := by
  induction l with
  | nil => rfl
  | cons it rest ih =>
    by_cases h : (!it.hdr.IsQosData || !b.IsBlocked it.hdr.GetAddr1 it.hdr.GetQosTid) = true
    · simp only [DequeueFirstAvailable.loop, PeekFirstAvailable.loop, h, if_true, Option.map]
    · simp only [DequeueFirstAvailable.loop, PeekFirstAvailable.loop, h, if_false, ← ih]
      cases DequeueFirstAvailable.loop b rest with
      | none => rfl
      | some v => rfl

/-- C22. For every queue, time and blocked set, `PeekFirstAvailable` returns
the frame, header and time stamp that `DequeueFirstAvailable` would return at
that point (absent when it would return absent) and removes nothing: the
queue, the size and the events fired are those of `Cleanup` alone. -/
theorem PeekFirstAvailable_spec (now : Time) (q : WifiMacQueue)
    (b : QosBlockedDestinations) :
    (PeekFirstAvailable now q b).2.2 = (DequeueFirstAvailable now q b).2.2 ∧
    (PeekFirstAvailable now q b).1 = (Cleanup now q).1 ∧
    (PeekFirstAvailable now q b).1.m_queue = (Cleanup now q).1.m_queue ∧
    (PeekFirstAvailable now q b).1.m_size = (Cleanup now q).1.m_size ∧
    (PeekFirstAvailable now q b).2.1 = (Cleanup now q).2 := by
  have hfst := DequeueFirstAvailable_loop_fst b (Cleanup now q).1.m_queue
  have hq : (PeekFirstAvailable now q b).1 = (Cleanup now q).1 := by
    simp only [PeekFirstAvailable]; split <;> rfl
  refine ⟨?_, hq, by rw [hq], by rw [hq], ?_⟩
  · simp only [PeekFirstAvailable, DequeueFirstAvailable, ← hfst]
    cases DequeueFirstAvailable.loop b (Cleanup now q).1.m_queue with
    | none => rfl
    | some v => rfl
  · simp only [PeekFirstAvailable]; split <;> rfl

theorem Remove_loop_found (packet : PacketPtr) (x : Item) (post : List Item)
    (hx : x.packet = packet) :
    ∀ pre : List Item, (∀ y ∈ pre, y.packet ≠ packet) →
      Remove.loop packet (pre ++ x :: post) = some (pre ++ post) := by
  intro pre
  induction pre with
  | nil => intro _; simp only [List.nil_append, Remove.loop, hx, if_true]
  | cons y pre ih =>
    intro h
    have hy : ¬ y.packet = packet := h y (List.mem_cons_self _ _)
    have ih1 := ih (fun z hz => h z (List.mem_cons_of_mem _ hz))
    simp only [List.cons_append, Remove.loop, hy, if_false, List.append_eq, ih1]

theorem Remove_loop_none (packet : PacketPtr) :
    ∀ l : List Item, (∀ y ∈ l, y.packet ≠ packet) → Remove.loop packet l = none := by
  intro l
  induction l with
  | nil => intro _; rfl
  | cons y l ih =>
    intro h
    have hy : ¬ y.packet = packet := h y (List.mem_cons_self _ _)
    have ih1 := ih (fun z hz => h z (List.mem_cons_of_mem _ hz))
    simp only [Remove.loop, hy, if_false, ih1]

/-- C24. On a queue whose counter agrees with its list, `Remove (packet)`
(which runs no `Cleanup` and fires no drop event) returns `true` if and only
if some stored entry holds that very packet.  When it returns `true`, exactly
one entry, the first one holding the packet, is removed: the size drops by 1
and the other entries keep their relative order; when it returns `false` the
queue and the size are unchanged. -/
theorem Remove_spec (q : WifiMacQueue) (packet : PacketPtr) (hq : Counted q) :
    ((Remove q packet).2 = true ↔ ∃ it ∈ q.m_queue, it.packet = packet) ∧
    (∀ (pre : List Item) (x : Item) (post : List Item),
      q.m_queue = pre ++ x :: post → (∀ y ∈ pre, y.packet ≠ packet) → x.packet = packet →
      (Remove q packet).2 = true ∧
      (Remove q packet).1.m_queue = pre ++ post ∧
      (Remove q packet).1.m_size + 1 = q.m_size ∧
      (Remove q packet).1.m_size = (pre ++ post).length ∧
      (Remove q packet).1.m_maxSize = q.m_maxSize ∧
      (Remove q packet).1.m_maxDelay = q.m_maxDelay) ∧
    ((Remove q packet).2 = false → (Remove q packet).1 = q) := by
  have hfound : ∀ (pre : List Item) (x : Item) (post : List Item),
      q.m_queue = pre ++ x :: post → (∀ y ∈ pre, y.packet ≠ packet) → x.packet = packet →
      Remove q packet = ({ q with m_queue := pre ++ post, m_size := decSize q.m_size }, true) := by
    intro pre x post hsplit hpre hx
    simp only [Remove, hsplit, Remove_loop_found packet x post hx pre hpre]
  have hnone : (∀ y ∈ q.m_queue, y.packet ≠ packet) → Remove q packet = (q, false) := by
    intro hall
    simp only [Remove, Remove_loop_none packet _ hall]
  have hsplit := first_split (fun it => decide (it.packet = packet)) q.m_queue
  refine ⟨?_, ?_, ?_⟩
  · rcases hsplit with hall | ⟨pre, x, post, hs, hpre, hx⟩
    · have hall1 : ∀ y ∈ q.m_queue, y.packet ≠ packet := fun y hy => by simpa using hall y hy
      rw [hnone hall1]
      constructor
      · intro h; cases h
      · rintro ⟨it, hit, hp⟩; exact absurd hp (hall1 it hit)
    · rw [hfound pre x post hs (fun y hy => by simpa using hpre y hy) (by simpa using hx)]
      exact ⟨fun _ => ⟨x, by rw [hs]; simp, by simpa using hx⟩, fun _ => rfl⟩
  · intro pre x post hs hpre hx
    rw [hfound pre x post hs hpre hx]
    have hlen : q.m_size = (pre ++ post).length + 1 := by
      rw [hq.1, hs]; simp only [List.length_append, List.length_cons]; omega
    have hdec : decSize q.m_size = (pre ++ post).length := by
      rw [decSize_eq _ (by omega) (by have := hq.2; rw [hq.1]; omega), hlen]; rfl
    exact ⟨rfl, rfl, by show decSize _ + 1 = _; rw [hdec, hlen], hdec, rfl, rfl⟩
  · intro hfalse
    rcases hsplit with hall | ⟨pre, x, post, hs, hpre, hx⟩
    · rw [hnone (fun y hy => by simpa using hall y hy)]
    · rw [hfound pre x post hs (fun y hy => by simpa using hpre y hy) (by simpa using hx)]
        at hfalse
      cases hfalse

theorem Remove_spec_witness :
    Counted Scenario.queueXYY ∧
    ((Remove Scenario.queueXYY 2).2 = true ↔
      ∃ it ∈ Scenario.queueXYY.m_queue, it.packet = 2) ∧
    (Remove Scenario.queueXYY 2).1.m_queue.map (fun it => it.packet) = [1, 3] :=
  ⟨by decide, (Remove_spec Scenario.queueXYY 2 (by decide)).1, by decide⟩

/-- C25. `Flush` leaves the queue empty with size 0 whatever it held before,
expired entries included, the two attributes being untouched; it fires no drop
event (it reports nothing), and a `Dequeue` right after it, at any time,
returns absent, fires no event and leaves the queue empty. -/
theorem Flush_spec (now : Time) (q : WifiMacQueue) :
    (Flush q).m_queue = [] ∧ (Flush q).GetSize = 0 ∧
    (Flush q).m_maxSize = q.m_maxSize ∧ (Flush q).m_maxDelay = q.m_maxDelay ∧
    Dequeue now (Flush q) = (Flush q, [], none) ∧
    (Dequeue now (Flush q)).2.2 = none := by
  refine ⟨rfl, rfl, rfl, rfl, ?_, ?_⟩ <;> simp [Dequeue, Cleanup, Flush]

end WifiMacQueue

end ns3

/-! ## The station registry: budget, clearing, iteration bounds -/

namespace SdnLab

namespace StationList

/-- C26. For every `memorySize` and every `stationMaxNum > 0`, the
per-station byte budget fixed by the constructor is the floor of
`max (0, memorySize - overhead) / stationMaxNum`, the overhead being
`sizeof (_StationList)`: the subtraction is guarded, so the budget is 0
whenever `memorySize ≤ overhead` (no unsigned wrap-around), and
`stationMaxNum * budget` never exceeds `memorySize`.  For `stationMaxNum = 0`
no division is performed and the budget is 0. -/
theorem Create_budget (memorySize stationMaxNum : Nat) (hpos : 0 < stationMaxNum) :
    ((Create memorySize stationMaxNum).staMemSize : Int)
      = Int.floor (max 0 ((memorySize : ℚ) - (sizeofStationList : ℚ)) / (stationMaxNum : ℚ)) ∧
    (Create memorySize stationMaxNum).staMemSize
      = (memorySize - sizeofStationList) / stationMaxNum ∧
    (memorySize ≤ sizeofStationList → (Create memorySize stationMaxNum).staMemSize = 0) ∧
    stationMaxNum * (Create memorySize stationMaxNum).staMemSize ≤ memorySize ∧
    (Create memorySize 0).staMemSize = 0 := by
  have hval : (Create memorySize stationMaxNum).staMemSize
      = (memorySize - sizeofStationList) / stationMaxNum := by
    unfold Create
    simp only [hpos, if_true]
    by_cases h : memorySize ≤ sizeofStationList
    · simp [h, Nat.sub_eq_zero_of_le h]
    · simp [h]
  refine ⟨?_, hval, ?_, ?_, ?_⟩
  · rw [hval]
    have hcast : max 0 ((memorySize : ℚ) - (sizeofStationList : ℚ))
        = ((memorySize - sizeofStationList : ℕ) : ℚ) := by
      by_cases h : memorySize ≤ sizeofStationList
      · rw [Nat.sub_eq_zero_of_le h]
        have : (memorySize : ℚ) ≤ (sizeofStationList : ℚ) := by exact_mod_cast h
        simp only [Nat.cast_zero]
        exact max_eq_left (by linarith)
      · have h1 : sizeofStationList ≤ memorySize := by omega
        rw [Nat.cast_sub h1]
        have : (sizeofStationList : ℚ) ≤ (memorySize : ℚ) := by exact_mod_cast h1
        exact max_eq_right (by linarith)
    rw [hcast]
    have h2 := @Nat.floor_div_eq_div ℚ _ _ (memorySize - sizeofStationList) stationMaxNum
    rw [← h2]
    exact Int.natCast_floor_eq_floor (by positivity)
  · intro h
    rw [hval, Nat.sub_eq_zero_of_le h, Nat.zero_div]
  · rw [hval]
    calc stationMaxNum * ((memorySize - sizeofStationList) / stationMaxNum)
        ≤ memorySize - sizeofStationList := Nat.mul_div_le _ _
      _ ≤ memorySize := Nat.sub_le _ _
  · unfold Create
    simp

theorem Create_budget_witness :
    (0 : Nat) < 2 ∧ (Create 1000 2).staMemSize = (1000 - sizeofStationList) / 2 :=
  ⟨by decide, (Create_budget 1000 2 (by decide)).2.1⟩

theorem Clear_loop_eq (rest : List (Option Station)) :
    ∀ pre : List (Option Station),
      Clear.loop (pre ++ rest) rest.length pre.length = some (rest.filterMap id) := by
  induction rest with
  | nil => intro pre; rfl
  | cons x rest ih =>
    intro pre
    have hget : (pre ++ x :: rest)[pre.length]? = some x := by
      rw [List.getElem?_append_right (Nat.le_refl _)]; simp
    have e : pre ++ x :: rest = (pre ++ [x]) ++ rest := by simp
    have ih1 := ih (pre ++ [x])
    rw [← e] at ih1
    simp only [List.length_append, List.length_singleton] at ih1
    cases x with
    | none =>
      simp only [List.length_cons, Clear.loop, hget, ih1, List.filterMap_cons, id]
    | some s =>
      simp only [List.length_cons, Clear.loop, hget, ih1, List.filterMap_cons, id]

theorem filterMap_id_reg (occ : List Station) (k : Nat) :
    (occ.map some ++ List.replicate k (none : Option Station)).filterMap id = occ := by
  rw [List.filterMap_append]
  have h1 : (occ.map some).filterMap id = occ := by
    induction occ with
    | nil => rfl
    | cons a occ ih => simp [List.filterMap_cons, ih]
  have h2 : (List.replicate k (none : Option Station)).filterMap id = [] := by
    induction k with
    | zero => rfl
    | succ k ih => simp [List.replicate_succ, List.filterMap_cons, ih]
  rw [h1, h2, List.append_nil]

theorem Reg_Clear (n : Nat) (l : StationList) (occ : List Station) (h : Reg n l occ) :
    Clear l = some ({ l with staList := none, staListLen := 0 }, occ) := by
  obtain ⟨hmax, hlen, hle, _, hnull, harr⟩ := h
  rcases Nat.eq_zero_or_pos n with h0 | hpos
  · have hocc : occ = [] := by
      apply List.eq_nil_of_length_eq_zero; omega
    simp only [Clear, hnull h0, hocc]
  · have harr1 := harr hpos
    have hloop := Clear_loop_eq (occ.map some ++ List.replicate (n - occ.length) none) []
    simp only [List.nil_append, List.length_nil, List.length_append, List.length_map,
      List.length_replicate] at hloop
    have hn : occ.length + (n - occ.length) = n := by omega
    rw [hn, filterMap_id_reg] at hloop
    simp only [Clear, harr1, hmax, hloop]

/-- C27. On a registry reached from `Create` by `AddStationOrContext` calls,
`Clear ()` returns without a fault, deletes every occupied record exactly once
(the deleted records are the records of the occupied slots, slot by slot),
releases the slot array and resets the count to 0, so that afterwards
`GetN () = 0` and `Get (i)` is absent for every `i`.  `Clear` is idempotent: a
second call fails nowhere, deletes nothing and leaves the registry as the
first call left it. -/
theorem Clear_spec (capOf : Nat → Nat) (memorySize n : Nat) (hn : n < 2 ^ 32)
    (cs : List PacketContext) (l : StationList)
    (hreach : addAll capOf (Create memorySize n) cs = some l) :
    ∃ l1 deleted, Clear l = some (l1, deleted) ∧
      l1.GetN = 0 ∧ (∀ i, l1.Get i = some none) ∧ l1.staList = none ∧
      deleted.length = l.GetN ∧
      (∀ i s, readSlot l.staList i = some (some s) ↔ deleted[i]? = some s) ∧
      l1.staMemSize = l.staMemSize ∧ l1.staListMaxLen = l.staListMaxLen ∧
      Clear l1 = some (l1, []) := by
  obtain ⟨occ, hreg, _⟩ := reach_Reg capOf memorySize n hn cs l hreach
  refine ⟨_, occ, Reg_Clear n l occ hreg, rfl, ?_, rfl, hreg.2.1.symm, ?_, rfl, rfl, rfl⟩
  · intro i
    unfold Get
    rw [if_pos (Nat.zero_le i)]
  · intro i s
    exact ⟨Reg_readSlot n l occ hreg i s, Reg_slot_occupied n l occ hreg i s⟩

theorem Clear_spec_witness :
    ((2 : Nat) < 2 ^ 32 ∧
      addAll Scenario.capOf (Create 1000 2)
        [Scenario.obs Scenario.M1 1, Scenario.obs Scenario.M2 2] = some Scenario.regM1M2) ∧
    ∃ l1 deleted, Clear Scenario.regM1M2 = some (l1, deleted) ∧ l1.GetN = 0 ∧
      Clear l1 = some (l1, []) :=
  ⟨⟨by decide, by decide⟩,
    (Clear_spec Scenario.capOf 1000 2 (by decide)
      [Scenario.obs Scenario.M1 1, Scenario.obs Scenario.M2 2] Scenario.regM1M2
      (by decide)).elim fun l1 h1 => h1.elim fun deleted h2 =>
        ⟨l1, deleted, h2.1, h2.2.1, h2.2.2.2.2.2.2.2.2⟩⟩

/-- C28, as stated, fails.  On the registry holding `M1` and `M2`
(`GetN () = 2`), `End ()` designates slot 1, the last occupied slot, not slot
2: an iteration from `Begin ()` up to `End ()` under the half-open convention
visits slot 0 only and misses the record of `M2`. -/
theorem End_not_past_last :
    Scenario.regM1M2.GetN = 2 ∧
    Begin Scenario.regM1M2 = 0 ∧
    End Scenario.regM1M2 = 1 ∧
    End Scenario.regM1M2 ≠ (Scenario.regM1M2.GetN : Int) ∧
    visitedHalfOpen (Begin Scenario.regM1M2) (End Scenario.regM1M2) = [0] ∧
    visitedHalfOpen (Begin Scenario.regM1M2) (End Scenario.regM1M2)
      ≠ (List.range Scenario.regM1M2.GetN).map (fun k => (k : Int)) := by
  decide

/-- C28, amended.  On a registry reached from `Create` by
`AddStationOrContext` calls, `Begin ()` designates slot 0 and `End ()`
designates the last occupied slot, slot `GetN () - 1` (one position before
`Begin ()` when the registry is empty).  An iteration from `Begin ()` through
`End ()`, `End ()` included, therefore visits the slots `0, ..., GetN () - 1`
once each, in order: each of the `GetN ()` occupied records, in first-seen
order, and no unoccupied slot; it visits nothing when the registry is empty. -/
theorem Begin_End_inclusive (capOf : Nat → Nat) (memorySize n : Nat) (hn : n < 2 ^ 32)
    (cs : List PacketContext) (l : StationList)
    (hreach : addAll capOf (Create memorySize n) cs = some l) :
    Begin l = 0 ∧ End l = (l.GetN : Int) - 1 ∧
    visitedInclusive (Begin l) (End l) = (List.range l.GetN).map (fun k => (k : Int)) ∧
    (∀ i, i < l.GetN → ∃ s, readSlot l.staList i = some (some s)) ∧
    (∀ i s, readSlot l.staList i = some (some s) → i < l.GetN) ∧
    (l.GetN = 0 → visitedInclusive (Begin l) (End l) = []) := by
  obtain ⟨occ, hreg, _⟩ := reach_Reg capOf memorySize n hn cs l hreach
  have hN : l.GetN = occ.length := hreg.2.1
  have hvis : visitedInclusive (Begin l) (End l)
      = (List.range l.GetN).map (fun k => (k : Int)) := by
    unfold visitedInclusive Begin End GetN
    have h1 : ((l.staListLen : Int) - 1 + 1 - 0).toNat = l.staListLen := by
      have : (l.staListLen : Int) - 1 + 1 - 0 = (l.staListLen : Int) := by ring
      rw [this]; exact Int.toNat_natCast _
    rw [h1]
    apply List.map_congr_left
    intro k _
    exact Int.zero_add _
  refine ⟨rfl, rfl, hvis, ?_, ?_, ?_⟩
  · intro i hi
    rw [hN] at hi
    exact ⟨occ[i], Reg_slot_occupied n l occ hreg i _ (List.getElem?_eq_getElem hi)⟩
  · intro i s hi
    rw [hN]
    exact (List.getElem?_eq_some.1 (Reg_readSlot n l occ hreg i s hi)).1
  · intro h0
    rw [hvis, h0]
    rfl

theorem Begin_End_inclusive_witness :
    ((2 : Nat) < 2 ^ 32 ∧
      addAll Scenario.capOf (Create 1000 2)
        [Scenario.obs Scenario.M1 1, Scenario.obs Scenario.M2 2] = some Scenario.regM1M2) ∧
    visitedInclusive (Begin Scenario.regM1M2) (End Scenario.regM1M2)
      = (List.range Scenario.regM1M2.GetN).map (fun k => (k : Int)) :=
  ⟨⟨by decide, by decide⟩,
    (Begin_End_inclusive Scenario.capOf 1000 2 (by decide)
      [Scenario.obs Scenario.M1 1, Scenario.obs Scenario.M2 2] Scenario.regM1M2
      (by decide)).2.2.1⟩

end StationList

end SdnLab

/-! ## Contexts through the queue and across the channel -/

namespace ns3

namespace WifiMacQueue

open SdnLab

theorem Cleanup_any_sizeExceeded (now : Time) (q : WifiMacQueue) :
    (Cleanup now q).2.any (fun e => decide (e.2 = DropReason.MacQueueSizeExceeded)) = false := by
  rw [List.any_eq_false]
  intro e he
  rw [Cleanup_events_reason now q e he]
  decide

/-- What was returned, followed by what is stored, is a subsequence of what
was inserted. -/
theorem ctxStep_sublist (now : Time) (t : CtxTrace) (op : CtxOp)
    (h : (t.returned ++ t.queue.m_queue.map Item.triple).Sublist t.inserted) :
    ((ctxStep now t op).returned ++ (ctxStep now t op).queue.m_queue.map Item.triple).Sublist
      (ctxStep now t op).inserted := by
  have hc : ((Cleanup now t.queue).1.m_queue.map Item.triple).Sublist
      (t.queue.m_queue.map Item.triple) := (Cleanup_sublist now t.queue).map _
  have hcl : (t.returned ++ (Cleanup now t.queue).1.m_queue.map Item.triple).Sublist
      t.inserted := (List.Sublist.append (List.Sublist.refl _) hc).trans h
  have henq : ∀ (p : PacketPtr) (hdr : WifiMacHeader) (ctx : PacketContext),
      (t.returned ++ (Enqueue now t.queue p hdr ctx).1.m_queue.map Item.triple).Sublist
        (if (Enqueue now t.queue p hdr ctx).2.any
            (fun e => decide (e.2 = DropReason.MacQueueSizeExceeded)) then t.inserted
          else t.inserted ++ [(p, hdr, ctx)]) := by
    intro p hdr ctx
    by_cases hfull : (Cleanup now t.queue).1.m_size = (Cleanup now t.queue).1.m_maxSize
    · have e1 : Enqueue now t.queue p hdr ctx
          = ((Cleanup now t.queue).1,
              (Cleanup now t.queue).2 ++ [(p, DropReason.MacQueueSizeExceeded)]) := by
        simp only [Enqueue, hfull, if_true]
      rw [e1]
      simp only [List.any_append, List.any_cons, decide_True, Bool.true_or, Bool.or_true,
        if_true]
      exact hcl
    · have e1 : Enqueue now t.queue p hdr ctx
          = ({ (Cleanup now t.queue).1 with
                m_queue := (Cleanup now t.queue).1.m_queue ++ [Item.mk p hdr now ctx]
                m_size := incSize (Cleanup now t.queue).1.m_size }, (Cleanup now t.queue).2) := by
        simp only [Enqueue, hfull, if_false]
      rw [e1]
      simp only [Cleanup_any_sizeExceeded, Bool.false_eq_true, if_false, List.map_append,
        List.map_cons, List.map_nil, ← List.append_assoc]
      exact List.Sublist.append hcl (List.Sublist.refl _)
  cases op with
  | enq p hdr ctx => exact henq p hdr ctx
  | enq2 p hdr => exact henq p hdr PacketContext.default
  | deq =>
    cases hq : (Cleanup now t.queue).1.m_queue with
    | nil =>
      have e1 : DequeueCtx now t.queue
          = ((Cleanup now t.queue).1, (Cleanup now t.queue).2, none) := by
        simp only [DequeueCtx, hq]
      simp only [ctxStep, e1]
      exact hcl
    | cons i rest =>
      have e1 : DequeueCtx now t.queue
          = ({ (Cleanup now t.queue).1 with
                m_queue := rest, m_size := decSize (Cleanup now t.queue).1.m_size },
              (Cleanup now t.queue).2, some (i.packet, i.hdr, i.context)) := by
        simp only [DequeueCtx, hq]
      simp only [ctxStep, e1]
      rw [hq] at hcl
      simpa [Item.triple] using hcl

theorem ctxRun_sublist (ops : List (Time × CtxOp)) :
    ∀ t : CtxTrace, (t.returned ++ t.queue.m_queue.map Item.triple).Sublist t.inserted →
      ((ctxRun t ops).returned ++ (ctxRun t ops).queue.m_queue.map Item.triple).Sublist
        (ctxRun t ops).inserted := by
  induction ops with
  | nil => intro t h; exact h
  | cons o ops ih =>
    intro t h
    obtain ⟨now, op⟩ := o
    exact ih _ (ctxStep_sublist now t op h)

/-- C29. The context stored with a frame travels through the queue
unchanged.  In every run of timed `Enqueue (packet, hdr, context)`,
`Enqueue (packet, hdr)` and `Dequeue (hdr, context)` calls on a newly
constructed queue, the (frame, header, context) triples written by the
`Dequeue` calls, in order, followed by those of the stored entries, form a
subsequence of the triples passed to the accepted `Enqueue` calls, the
two-argument form counting with the default-constructed context, which is
empty: each returned entry comes with exactly the context of the call that
inserted it.  For instance a frame enqueued with a context at time 0 and
dequeued at 100ms comes back with that context, field for field, and a frame
enqueued by the two-argument form comes back with the empty context. -/
theorem Dequeue_context_unchanged (maxSize : Nat) (maxDelay : Time)
    (ops : List (Time × CtxOp)) :
    ((ctxRun (ctxStart maxSize maxDelay) ops).returned
        ++ (ctxRun (ctxStart maxSize maxDelay) ops).queue.m_queue.map Item.triple).Sublist
      (ctxRun (ctxStart maxSize maxDelay) ops).inserted ∧
    (∀ r ∈ (ctxRun (ctxStart maxSize maxDelay) ops).returned,
      r ∈ (ctxRun (ctxStart maxSize maxDelay) ops).inserted) ∧
    PacketContext.default.IsEmpty = true ∧
    (DequeueCtx (Scenario.ms 100)
        (Enqueue 0 (new 2 (Scenario.ms 500)) 1 (Scenario.qosTo Scenario.X 0)
          (Scenario.obs Scenario.M1 7)).1).2.2
      = some (1, Scenario.qosTo Scenario.X 0, Scenario.obs Scenario.M1 7) ∧
    (DequeueCtx (Scenario.ms 100)
        (Enqueue2 0 (new 2 (Scenario.ms 500)) 1 (Scenario.qosTo Scenario.X 0)).1).2.2
      = some (1, Scenario.qosTo Scenario.X 0, PacketContext.default) := by
  have h := ctxRun_sublist ops (ctxStart maxSize maxDelay) (List.Sublist.refl _)
  refine ⟨h, ?_, rfl, by decide, by decide⟩
  intro r hr
  exact h.subset (List.mem_append_left _ hr)

end WifiMacQueue

namespace YansWifiChannel

open SdnLab

theorem Send_loop_eq (env : Env) (phyList : List PhyPtr) (sender : PhyPtr) (packet : PacketPtr)
    (txPowerDbm : F64) (txVector preamble packetType : Nat) (duration : Time)
    (c0 : PacketContext) (hlen : phyList.length < 2 ^ 32) :
    ∀ (rest pre : List PhyPtr) (ctx : PacketContext), phyList = pre ++ rest →
      ctx.IsEmpty = c0.IsEmpty → (∀ j, ctx.SetNodeIndex j = c0.SetNodeIndex j) →
      Send.loop env phyList sender packet txPowerDbm txVector preamble packetType duration
          rest pre.length ctx
        = some (((rest.enumFrom pre.length).filter (fun e =>
            decide (e.2 ≠ sender) &&
              decide (env.channelNumber e.2 = env.channelNumber sender))).map
            (deliveryTo env sender packet txPowerDbm txVector preamble packetType duration
              c0)) := by
  intro rest
  induction rest with
  | nil => intro pre ctx _ _ _; rfl
  | cons i rest ih =>
    intro pre ctx hL hemp hset
    have hget : phyList[pre.length]? = some i := by
      rw [hL, List.getElem?_append_right (Nat.le_refl _)]; simp
    have hjlt : pre.length + 1 < 2 ^ 32 := by
      have : phyList.length = pre.length + (rest.length + 1) := by
        rw [hL]; simp
      omega
    have hmod : (pre.length + 1) % 2 ^ 32 = pre.length + 1 := Nat.mod_eq_of_lt hjlt
    have hL1 : phyList = (pre ++ [i]) ++ rest := by rw [hL]; simp
    have hlen1 : (pre ++ [i]).length = pre.length + 1 := by simp
    have ih1 := fun ctx1 h1 h2 => ih (pre ++ [i]) ctx1 hL1 h1 h2
    simp only [hlen1] at ih1
    by_cases hs : sender = i
    · have hp : (decide (i ≠ sender) &&
          decide (env.channelNumber i = env.channelNumber sender)) = false := by
        simp [hs]
      rw [List.enumFrom_cons, List.filter_cons_of_neg (by simpa using hp)]
      simp only [Send.loop, hs, ne_eq, not_true_eq_false, if_false, hmod]
      rw [← hs]
      exact ih1 ctx hemp hset
    · by_cases hch : env.channelNumber i = env.channelNumber sender
      · have hp : (decide (i ≠ sender) &&
            decide (env.channelNumber i = env.channelNumber sender)) = true := by
          have : i ≠ sender := fun h => hs h.symm
          simp [this, hch]
        have hcons : ∀ L : List (Nat × PhyPtr),
            List.filter (fun e : Nat × PhyPtr => decide (e.2 ≠ sender) &&
                decide (env.channelNumber e.2 = env.channelNumber sender)) ((pre.length, i) :: L)
              = (pre.length, i) :: List.filter (fun e : Nat × PhyPtr => decide (e.2 ≠ sender) &&
                decide (env.channelNumber e.2 = env.channelNumber sender)) L :=
          fun L => List.filter_cons_of_pos hp
        rw [List.enumFrom_cons, hcons, List.map_cons]
        by_cases he : c0.IsEmpty = true
        · have hce : ctx.IsEmpty = true := by rw [hemp]; exact he
          simp only [Send.loop, ne_eq, hs, not_false_eq_true, if_true, hch, not_true_eq_false,
            if_false, hget, hce, hmod, ih1 ctx hemp hset]
          simp [deliveryTo, targetFor, he]
        · have hce : ¬ ctx.IsEmpty = true := by rw [hemp]; exact he
          have hnext := ih1 (ctx.SetNodeIndex pre.length)
            (by
              have h1 : (ctx.SetNodeIndex pre.length).IsEmpty = ctx.IsEmpty := rfl
              rw [h1]; exact hemp)
            (by
              intro j
              have h1 : (ctx.SetNodeIndex pre.length).SetNodeIndex j = ctx.SetNodeIndex j := rfl
              rw [h1]; exact hset j)
          simp only [Send.loop, ne_eq, hs, not_false_eq_true, if_true, hch, not_true_eq_false,
            if_false, hget, hce, hmod, hnext]
          simp [deliveryTo, targetFor, he, hset]
      · have hp : (decide (i ≠ sender) &&
            decide (env.channelNumber i = env.channelNumber sender)) = false := by
          simp [hch]
        rw [List.enumFrom_cons, List.filter_cons_of_neg (by simpa using hp)]
        simp only [Send.loop, ne_eq, hs, not_false_eq_true, if_true, hch, hmod]
        exact ih1 ctx hemp hset

theorem mem_receiverSlots (env : Env) (phyList : List PhyPtr) (sender : PhyPtr)
    (e : Nat × PhyPtr) :
    e ∈ receiverSlots env phyList sender ↔
      phyList[e.1]? = some e.2 ∧ e.2 ≠ sender ∧
        env.channelNumber e.2 = env.channelNumber sender := by
  unfold receiverSlots
  rw [List.mem_filter, List.mem_enum_iff_getElem?]
  simp only [Bool.and_eq_true, decide_eq_true_eq]

/-- C30. For every `Send` over a channel whose phy list `phyList` is indexed
by a `uint32_t`, the call reads nothing outside the list and schedules exactly
one delivery for each index `j` such that `phyList[j]` is not the sender and
is on the sender's channel number, in increasing order of `j`, and none for
any other index (in particular none for the sender).  If the sender's context
is not empty, delivery `j` carries its own copy of that context stamped with
the destination index `j`, every other field unchanged, and `Receive` hands
the frame, with that context, to `phyList[j]`; if the context is empty,
delivery `j` carries the index `j` and no context, and `Receive` hands the
frame to `phyList[j]`. -/
theorem Send_spec (env : Env) (phyList : List PhyPtr) (sender : PhyPtr) (packet : PacketPtr)
    (txPowerDbm : F64) (txVector preamble packetType : Nat) (duration : Time)
    (context : PacketContext) (hlen : phyList.length < 2 ^ 32) :
    Send env phyList sender packet txPowerDbm txVector preamble packetType duration context
      = some ((receiverSlots env phyList sender).map
          (deliveryTo env sender packet txPowerDbm txVector preamble packetType duration
            context)) ∧
    (∀ j, j ∈ receivers env phyList sender ↔
      ∃ phy, phyList[j]? = some phy ∧ phy ≠ sender ∧
        env.channelNumber phy = env.channelNumber sender) ∧
    (receivers env phyList sender).Pairwise (fun a b => a < b) ∧
    ((receiverSlots env phyList sender).map
        (deliveryTo env sender packet txPowerDbm txVector preamble packetType duration
          context)).map (fun d => d.target)
      = (receivers env phyList sender).map
          (fun j => if context.IsEmpty then Target.index j
            else Target.context { context with nodeIndex := j }) ∧
    (∀ e ∈ receiverSlots env phyList sender,
      phyList[e.1]? = some e.2 ∧
      Receive phyList (deliveryTo env sender packet txPowerDbm txVector preamble packetType
          duration context e)
        = some (e.2, if context.IsEmpty then none
            else some { context with nodeIndex := e.1 })) := by
  refine ⟨?_, ?_, ?_, ?_, ?_⟩
  · have h := Send_loop_eq env phyList sender packet txPowerDbm txVector preamble packetType
      duration context hlen phyList [] context rfl rfl (fun _ => rfl)
    exact h
  · intro j
    unfold receivers
    rw [List.mem_map]
    constructor
    · rintro ⟨e, he, rfl⟩
      exact ⟨e.2, (mem_receiverSlots env phyList sender e).1 he⟩
    · rintro ⟨phy, h1, h2, h3⟩
      exact ⟨(j, phy), (mem_receiverSlots env phyList sender (j, phy)).2 ⟨h1, h2, h3⟩, rfl⟩
  · have hsub : (receivers env phyList sender).Sublist (List.range phyList.length) := by
      unfold receivers receiverSlots
      rw [← List.enum_map_fst]
      exact (List.filter_sublist _).map _
    exact (List.pairwise_lt_range _).sublist hsub
  · unfold receivers
    rw [List.map_map, List.map_map]
    apply List.map_congr_left
    intro e _
    simp only [Function.comp, deliveryTo, targetFor, PacketContext.SetNodeIndex]
  · intro e he
    obtain ⟨h1, _, _⟩ := (mem_receiverSlots env phyList sender e).1 he
    refine ⟨h1, ?_⟩
    by_cases hemp : context.IsEmpty = true
    · simp only [Receive, deliveryTo, targetFor, hemp, if_true, h1]
    · simp only [Receive, deliveryTo, targetFor, hemp, if_false,
        PacketContext.SetNodeIndex, PacketContext.GetNodeIndex, h1, Bool.false_eq_true]

theorem Send_spec_witness :
    Scenario.phys.length < 2 ^ 32 ∧
    (Send Scenario.channelEnv Scenario.phys 11 1 30 0 0 0 (Scenario.ms 1)
        (Scenario.obs Scenario.M1 1)
      = some ((receiverSlots Scenario.channelEnv Scenario.phys 11).map
          (deliveryTo Scenario.channelEnv 11 1 30 0 0 0 (Scenario.ms 1)
            (Scenario.obs Scenario.M1 1)))) ∧
    receivers Scenario.channelEnv Scenario.phys 11 = [0, 2] :=
  ⟨by decide,
    (Send_spec Scenario.channelEnv Scenario.phys 11 1 30 0 0 0 (Scenario.ms 1)
      (Scenario.obs Scenario.M1 1) (by decide)).1,
    by decide⟩

end YansWifiChannel

end ns3

/-! ## Sample rings, beacon broadcast, the size test after resizing, use after clearing -/

namespace SdnLab

namespace Station

end Station

namespace StationList

theorem UpdateBeaconTime_loop_eq (time : F64) :
    ∀ (todo : List Station) (pre : List (Option Station)) (k : Nat),
      UpdateBeaconTime.loop time
          (some (pre ++ (todo.map some ++ List.replicate k none))) (todo.length + k) pre.length
        = some (some (pre ++ ((todo.map (fun s => s.UpdateBeaconTime time)).map some
              ++ List.replicate k none)),
            List.range' pre.length todo.length) := by
  intro todo
  induction todo with
  | nil =>
    intro pre k
    cases k with
    | zero => rfl
    | succ k =>
      have hread : readSlot (some (pre ++ (([] : List Station).map some
          ++ List.replicate (k + 1) none))) pre.length = some none := by
        simp only [readSlot, List.map_nil, List.nil_append]
        rw [List.getElem?_append_right (Nat.le_refl _)]
        simp [List.replicate_succ]
      have hn : ([] : List Station).length + (k + 1) = k + 1 := by simp
      rw [hn]
      simp only [UpdateBeaconTime.loop, hread]
      rfl
  | cons s t ih =>
    intro pre k
    have hn : (s :: t).length + k = (t.length + k) + 1 := by
      simp only [List.length_cons]; omega
    have hread : readSlot (some (pre ++ ((s :: t).map some ++ List.replicate k none)))
        pre.length = some (some s) := by
      simp only [readSlot]
      rw [List.getElem?_append_right (Nat.le_refl _)]
      simp
    have hwrite : writeSlot (some (pre ++ ((s :: t).map some ++ List.replicate k none)))
        pre.length (some (s.UpdateBeaconTime time))
        = some (some ((pre ++ [some (s.UpdateBeaconTime time)])
            ++ (t.map some ++ List.replicate k none))) := by
      have hlt : pre.length
          < (pre ++ ((s :: t).map some ++ List.replicate k none)).length := by
        simp
      simp only [writeSlot, hlt, if_true]
      rw [List.set_append_right _ _ (Nat.le_refl _)]
      simp
    have hlen : (pre ++ [some (s.UpdateBeaconTime time)]).length = pre.length + 1 := by simp
    have ih1 := ih (pre ++ [some (s.UpdateBeaconTime time)]) k
    rw [hlen] at ih1
    rw [hn]
    simp only [UpdateBeaconTime.loop, hread, hwrite, ih1]
    simp [List.range'_succ]

theorem Reg_UpdateBeaconTime_loop (n : Nat) (l : StationList) (occ : List Station)
    (time : F64) (h : Reg n l occ) (hpos : 0 < n) :
    UpdateBeaconTime.loop time l.staList l.staListMaxLen 0
      = some (some ((occ.map (fun s => s.UpdateBeaconTime time)).map some
          ++ List.replicate (n - occ.length) none), List.range occ.length) := by
  obtain ⟨h1, _, h3, _, _, h6⟩ := h
  have harr := h6 hpos
  have hloop := UpdateBeaconTime_loop_eq time occ [] (n - occ.length)
  have hcount : occ.length + (n - occ.length) = n := by omega
  simp only [List.nil_append, List.length_nil, hcount] at hloop
  rw [h1, harr, hloop, List.range_eq_range']

/-- C32 (the code at the failing input). On the registry made by
`Create (1000, 2)` and one `AddStationOrContext` for `M1`, slot 0 is occupied
and slot 1 is free, the occupied slots being a prefix of `GetN () = 1` slots.
The loop of `UpdateBeaconTime (5)` notifies the record of slot 0 once and
stops at slot 1, leaving the address and the count as they are; control then
reaches the end of the method, which is declared `bool` and has no `return`
statement: the call does not return normally. -/
theorem UpdateBeaconTime_no_return :
    regRun Scenario.capOf (Create 1000 2) [RegOp.add (Scenario.obs Scenario.M1 1)]
      = some { staMemSize := 444, staList := some [some (Scenario.stationOf Scenario.M1 1), none],
               staListLen := 1, staListMaxLen := 2 } ∧
    UpdateBeaconTime.loop 5 (some [some (Scenario.stationOf Scenario.M1 1), none]) 2 0
      = some (some [some ((Scenario.stationOf Scenario.M1 1).UpdateBeaconTime 5), none], [0]) ∧
    ((Scenario.stationOf Scenario.M1 1).UpdateBeaconTime 5).address = Scenario.M1 ∧
    UpdateBeaconTime
        { staMemSize := 444, staList := some [some (Scenario.stationOf Scenario.M1 1), none],
          staListLen := 1, staListMaxLen := 2 } 5 = none ∧
    regRun Scenario.capOf (Create 1000 2)
      [RegOp.add (Scenario.obs Scenario.M1 1), RegOp.beacon 5] = none := by
  decide

/-- C34 (the code at the failing input). On the registry made by
`Create (1000, 2)`, `Clear ()` releases the slot array and leaves the
capacity 2; the scan of the next `AddStationOrContext` with a non-empty,
non-broadcast observation then reads `staList[0]` through the `NULL` array,
and so does the loop of the next `UpdateBeaconTime`: both calls fault, and no
record is registered.  On the fresh registry the same observation is
registered (`GetN ()` becomes 1). -/
theorem use_after_Clear_faults :
    regRun Scenario.capOf (Create 1000 2) [RegOp.clear]
      = some { staMemSize := 444, staList := none, staListLen := 0, staListMaxLen := 2 } ∧
    regRun Scenario.capOf (Create 1000 2)
      [RegOp.clear, RegOp.add (Scenario.obs Scenario.M1 1)] = none ∧
    regRun Scenario.capOf (Create 1000 2) [RegOp.clear, RegOp.beacon 5] = none ∧
    (regRun Scenario.capOf (Create 1000 2) [RegOp.add (Scenario.obs Scenario.M1 1)]).map GetN
      = some 1 ∧
    UpdateBeaconTime.loop 5 none 2 0 = none := by
  decide

end StationList

end SdnLab

namespace ns3

namespace WifiMacQueue

open SdnLab

theorem size_test_cases (now : Time) (q : WifiMacQueue) (packet : PacketPtr)
    (hdr : WifiMacHeader) (context : PacketContext) (hq : Counted q) :
    ((Cleanup now q).1.m_queue.length = q.m_maxSize →
      Enqueue now q packet hdr context
        = ((Cleanup now q).1, (Cleanup now q).2 ++ [(packet, DropReason.MacQueueSizeExceeded)]) ∧
      PushFront now q packet hdr
        = ((Cleanup now q).1, (Cleanup now q).2 ++ [(packet, DropReason.MacQueueSizeExceeded)])) ∧
    ((Cleanup now q).1.m_queue.length ≠ q.m_maxSize →
      (Enqueue now q packet hdr context).1.m_queue
        = (Cleanup now q).1.m_queue ++ [Item.mk packet hdr now context] ∧
      (Enqueue now q packet hdr context).2 = (Cleanup now q).2 ∧
      (PushFront now q packet hdr).1.m_queue
        = Item.mk3 packet hdr now :: (Cleanup now q).1.m_queue ∧
      (PushFront now q packet hdr).2 = (Cleanup now q).2) := by
  have hc := Cleanup_Counted now q hq
  have hsz : (Cleanup now q).1.m_size = (Cleanup now q).1.m_queue.length := hc.1
  have hmx := Cleanup_maxSize now q
  constructor
  · intro hlen
    have he : (Cleanup now q).1.m_size = (Cleanup now q).1.m_maxSize := by
      rw [hsz, hmx]; exact hlen
    constructor
    · simp only [Enqueue, he, if_true]
    · simp only [PushFront, he, if_true]
  · intro hlen
    have he : ¬ (Cleanup now q).1.m_size = (Cleanup now q).1.m_maxSize := by
      rw [hsz, hmx]; exact hlen
    have e1 : Enqueue now q packet hdr context
        = ({ (Cleanup now q).1 with
              m_queue := (Cleanup now q).1.m_queue ++ [Item.mk packet hdr now context]
              m_size := incSize (Cleanup now q).1.m_size }, (Cleanup now q).2) := by
      simp only [Enqueue, he, if_false]
    have e2 : PushFront now q packet hdr
        = ({ (Cleanup now q).1 with
              m_queue := Item.mk3 packet hdr now :: (Cleanup now q).1.m_queue
              m_size := incSize (Cleanup now q).1.m_size }, (Cleanup now q).2) := by
      simp only [PushFront, he, if_false]
    rw [e1, e2]
    exact ⟨rfl, rfl, rfl, rfl⟩

/-- C33 (as stated, refuted). A queue constructed with `maxSize = 2` stores
two frames at time 0; `SetMaxSize (1)` then lowers the bound below the
current size.  After `Cleanup` at time 1ms two entries are stored, more than
`maxSize = 1`, yet `Enqueue` and `PushFront` both insert their frame and fire
no event at all: three entries are stored. -/
theorem Enqueue_above_maxSize_inserts :
    (SetMaxSize (run (new 2 (Scenario.ms 500))
        [(0, Op.enqueue2 1 (Scenario.qosTo Scenario.X 0)),
         (0, Op.enqueue2 2 (Scenario.qosTo Scenario.Y 0))]) 1).m_maxSize = 1 ∧
    (Cleanup (Scenario.ms 1) (SetMaxSize (run (new 2 (Scenario.ms 500))
        [(0, Op.enqueue2 1 (Scenario.qosTo Scenario.X 0)),
         (0, Op.enqueue2 2 (Scenario.qosTo Scenario.Y 0))]) 1)).1.m_queue.length = 2 ∧
    ((Enqueue (Scenario.ms 1) (SetMaxSize (run (new 2 (Scenario.ms 500))
        [(0, Op.enqueue2 1 (Scenario.qosTo Scenario.X 0)),
         (0, Op.enqueue2 2 (Scenario.qosTo Scenario.Y 0))]) 1) 3
        (Scenario.qosTo Scenario.X 0) PacketContext.default).1.m_queue.map
        (fun i => i.packet)) = [1, 2, 3] ∧
    (Enqueue (Scenario.ms 1) (SetMaxSize (run (new 2 (Scenario.ms 500))
        [(0, Op.enqueue2 1 (Scenario.qosTo Scenario.X 0)),
         (0, Op.enqueue2 2 (Scenario.qosTo Scenario.Y 0))]) 1) 3
        (Scenario.qosTo Scenario.X 0) PacketContext.default).2 = [] ∧
    ((PushFront (Scenario.ms 1) (SetMaxSize (run (new 2 (Scenario.ms 500))
        [(0, Op.enqueue2 1 (Scenario.qosTo Scenario.X 0)),
         (0, Op.enqueue2 2 (Scenario.qosTo Scenario.Y 0))]) 1) 3
        (Scenario.qosTo Scenario.X 0)).1.m_queue.map (fun i => i.packet)) = [3, 1, 2] ∧
    (PushFront (Scenario.ms 1) (SetMaxSize (run (new 2 (Scenario.ms 500))
        [(0, Op.enqueue2 1 (Scenario.qosTo Scenario.X 0)),
         (0, Op.enqueue2 2 (Scenario.qosTo Scenario.Y 0))]) 1) 3
        (Scenario.qosTo Scenario.X 0)).2 = [] := by
  decide

/-- C33 (amended). The size test of `Enqueue` and `PushFront` is an equality.
On every queue whose counter agrees with its list, if after `Cleanup` the
number of stored entries equals `maxSize`, both calls insert nothing and fire,
after the events of `Cleanup`, one `MacQueueSizeExceeded` event for the
incoming frame; if that number differs from `maxSize`, `Enqueue` appends the
frame at the back, `PushFront` inserts it at the front, and neither fires a
`MacQueueSizeExceeded` event (the events of `Cleanup` all carry
`MacQueueDelayExceeded`).  In particular, after `SetMaxSize (m)` with `m`
below the number of entries that `Cleanup` leaves, both calls insert. -/
theorem size_test_is_equality (now : Time) (q : WifiMacQueue) (packet : PacketPtr)
    (hdr : WifiMacHeader) (context : PacketContext) (hq : Counted q) :
    ((Cleanup now q).1.m_queue.length = q.m_maxSize →
      Enqueue now q packet hdr context
        = ((Cleanup now q).1, (Cleanup now q).2 ++ [(packet, DropReason.MacQueueSizeExceeded)]) ∧
      PushFront now q packet hdr
        = ((Cleanup now q).1, (Cleanup now q).2 ++ [(packet, DropReason.MacQueueSizeExceeded)])) ∧
    ((Cleanup now q).1.m_queue.length ≠ q.m_maxSize →
      (Enqueue now q packet hdr context).1.m_queue
        = (Cleanup now q).1.m_queue ++ [Item.mk packet hdr now context] ∧
      (Enqueue now q packet hdr context).2 = (Cleanup now q).2 ∧
      (PushFront now q packet hdr).1.m_queue
        = Item.mk3 packet hdr now :: (Cleanup now q).1.m_queue ∧
      (PushFront now q packet hdr).2 = (Cleanup now q).2) ∧
    (∀ e ∈ (Cleanup now q).2, e.2 = DropReason.MacQueueDelayExceeded) ∧
    (∀ m, m < (Cleanup now q).1.m_queue.length →
      (Enqueue now (SetMaxSize q m) packet hdr context).1.m_queue
        = (Cleanup now q).1.m_queue ++ [Item.mk packet hdr now context] ∧
      (Enqueue now (SetMaxSize q m) packet hdr context).2 = (Cleanup now q).2 ∧
      (PushFront now (SetMaxSize q m) packet hdr).1.m_queue
        = Item.mk3 packet hdr now :: (Cleanup now q).1.m_queue ∧
      (PushFront now (SetMaxSize q m) packet hdr).2 = (Cleanup now q).2) := by
  obtain ⟨h1, h2⟩ := size_test_cases now q packet hdr context hq
  refine ⟨h1, h2, Cleanup_events_reason now q, ?_⟩
  intro m hm
  have hqm : Counted (SetMaxSize q m) := hq
  have hcq : (Cleanup now (SetMaxSize q m)).1.m_queue = (Cleanup now q).1.m_queue := by
    rw [Cleanup_queue, Cleanup_queue]; rfl
  have hce : (Cleanup now (SetMaxSize q m)).2 = (Cleanup now q).2 := by
    rw [Cleanup_events, Cleanup_events]; rfl
  have hne : (Cleanup now (SetMaxSize q m)).1.m_queue.length ≠ (SetMaxSize q m).m_maxSize := by
    rw [hcq]
    have : (SetMaxSize q m).m_maxSize = m := rfl
    rw [this]
    omega
  have h3 := (size_test_cases now (SetMaxSize q m) packet hdr context hqm).2 hne
  rw [hcq, hce] at h3
  exact h3

theorem size_test_is_equality_witness :
    Counted Scenario.queueXYY ∧
    (Enqueue (Scenario.ms 1) (SetMaxSize Scenario.queueXYY 2) 4 (Scenario.qosTo Scenario.X 0)
        PacketContext.default).1.m_queue
      = (Cleanup (Scenario.ms 1) Scenario.queueXYY).1.m_queue
          ++ [Item.mk 4 (Scenario.qosTo Scenario.X 0) (Scenario.ms 1) PacketContext.default] :=
  ⟨by decide,
    ((size_test_is_equality (Scenario.ms 1) Scenario.queueXYY 4 (Scenario.qosTo Scenario.X 0)
      PacketContext.default (by decide)).2.2.2 2 (by decide)).1⟩

end WifiMacQueue

end ns3
